import Mathlib

/-!
PRSice: threshold scan, permutation significance, competitive test, memory
budgeting, phenotype and covariate input.

A shallow embedding of `src/prsice.cpp`.

Conventions of the embedding.

* A C++ `double` is a rational number.  NaN, infinities and rounding are outside
  the model, and so is a quotient by zero, which the source evaluates to an
  infinity or a NaN.
* `size_t`, `uint32_t` and `intptr_t` values are natural numbers or integers, and
  the arithmetic that can leave the machine range is reduced explicitly.
* Vectors are lists.  A read or write outside `m_prs_results`, `m_perm_result`
  or a vector of the competitive test is undefined behaviour in the source and is
  reported as such by the functions below.  The writes to the score column of the
  design matrix and to `m_best_sample_score` go through `List.set`: the program
  sizes both targets before the scan (`gen_cov_matrix`, the reset of
  `run_prsice`).
* The collaborators that are not part of this file of the program (the scoring
  provider `Genotype`, the regression provider `Regression`, the `Commander`
  options, the memory probes of `misc`) enter as explicit arguments.
-/

namespace PRS

/-! ## Data model -/

/-- Record `prsice_result`: one row of `m_prs_results` and of `m_prs_summary`. -/
structure prsice_result where
  threshold : ℚ
  r2 : ℚ
  r2_adj : ℚ
  coefficient : ℚ
  p : ℚ
  emp_p : ℚ
  se : ℚ
  competitive_p : ℚ
  num_snp : Nat
  deriving DecidableEq

/-- A value-initialised `prsice_result`, as appended by `std::vector::resize`. -/
def prsice_result.fresh : prsice_result :=
  ⟨0, 0, 0, 0, 0, 0, 0, 0, 0⟩

/-- Output parameters written by `Regression::glm`
(`p_value`, `r2`, `coefficient`, `se`). -/
structure glm_out where
  p_value : ℚ
  r2 : ℚ
  coefficient : ℚ
  se : ℚ
  deriving DecidableEq

/-- Output parameters written by `Regression::linear_regression`
(`p_value`, `r2`, `r2_adjust`, `coefficient`, `se`). -/
structure linear_out where
  p_value : ℚ
  r2 : ℚ
  r2_adjust : ℚ
  coefficient : ℚ
  se : ℚ
  deriving DecidableEq

/-- How a call of the program ends. -/
inductive Outcome (σ : Type) where
  /-- The call returned; `s` is the object afterwards. -/
  | ok (s : σ)
  /-- A `std::runtime_error` left the call; `s` is the object at the throw. -/
  | thrown (what : String) (s : σ)
  /-- An exception escaped a worker thread (`std::terminate`). -/
  | terminated
  /-- The call read or wrote outside a vector, or divided by zero. -/
  | undefined

/-- The members of class `PRSice` that the scan, the permutation stage, the
competitive test and the memory budgeter read or write; of an entry of
`m_prs_summary` only its member `result` is kept.  Three members are ghosts:
`regressed` lists the values of `iter_threshold` at which `regress_score` has
called the regression provider during the current scan, most recent first;
`set_perm_threads` counts the `std::thread` objects `run_competitive` has
constructed and `set_perm_fits` the calls of the regression provider made for
it. -/
structure PRSice where
  m_best_index : Int
  m_num_snp_included : Nat
  m_num_perm : Nat
  m_logit_perm : Bool
  m_analysis_done : Nat
  m_perm_result : List ℚ
  m_best_sample_score : List ℚ
  m_prs_results : List prsice_result
  m_independent_variables : List (List ℚ)
  m_matrix_index : List Nat
  m_perm_per_slice : Nat
  m_permuted_pheno : List ℚ
  m_prs_summary : List prsice_result
  regressed : List Nat
  set_perm_threads : Nat
  set_perm_fits : Nat

/-- What the collaborators deliver in one iteration of the loop of `run_prsice`,
that is for one successful call of `target.get_score`. -/
structure Threshold where
  /-- Value `get_score` writes to `cur_threshold`. -/
  cur_threshold : ℚ
  /-- Value `get_score` leaves in `m_num_snp_included`. -/
  num_snp_included : Nat
  /-- Function `target.calculate_score(m_score, sample)` at this threshold. -/
  calculate_score : Nat → ℚ
  /-- Result of `Regression::glm` on the design of this threshold; `none` when it
  throws (no convergence). -/
  glm : Option glm_out
  /-- Result of `Regression::linear_regression` on the design of this threshold. -/
  linear_regression : linear_out
  /-- Result `(coefficient, se)` of `Regression::glm` on the shuffled phenotype of
  permutation draw `i`; `none` when it throws. -/
  null_glm : Nat → Option (ℚ × ℚ)
  /-- Pair `(beta(intercept), se(se_index))` of the decomposed solve on the
  shuffled phenotype of permutation draw `i`. -/
  null_qr : Nat → ℚ × ℚ
  /-- Worker path only: for each consumer, in the order in which the consumers
  take the lock for their final flush, the draw indices it popped. -/
  schedule : List (List Nat)

/-- The options and sizes `run_prsice` reads from `Commander` and `Genotype`. -/
structure Options where
  no_regress : Bool
  /-- Value of `c_commander.thread()`. -/
  thread : Nat
  /-- Value of `c_commander.permutation()`. -/
  permutation : Nat
  /-- Value of `target.num_threshold()`. -/
  num_threshold : Nat
  /-- Value of `target.num_sample()`. -/
  num_sample : Nat
  /-- Value of `m_target_binary[pheno_index]`. -/
  is_binary : Bool

/-! ## Vector helpers -/

/-- Method `std::vector::resize(n, v)`: keep the first `n` elements, append copies
of `v` up to length `n`. -/
def resize {α : Type} (l : List α) (n : Nat) (v : α) : List α :=
  l.take n ++ List.replicate (n - l.length) v

/-- Assignment `m(i, j) = v` on a matrix stored as a list of rows. -/
def set_cell (m : List (List ℚ)) (i j : Nat) (v : ℚ) : List (List ℚ) :=
  m.set i ((m.getD i []).set j v)

/-! ## The threshold scan -/

/-- The loop of `regress_score` that writes the score column (column 1) of the
design matrix, lines 983-987. -/
def write_scores (m : List (List ℚ)) (matrix_index : List Nat) (score : Nat → ℚ) :
    List (List ℚ) :=
  (List.range matrix_index.length).foldl
    (fun acc sample_id => set_cell acc sample_id 1 (score (matrix_index.getD sample_id 0))) m

/-- The loop of `regress_score` that copies the current scores of all samples to
`m_best_sample_score`, lines 1025-1028. -/
def snapshot_scores (best : List ℚ) (num_sample : Nat) (score : Nat → ℚ) : List ℚ :=
  (List.range num_sample).foldl (fun acc s => acc.set s (score s)) best

/-- The values of `p_value, r2, r2_adjust, coefficient, se` after the regression
call of `regress_score`, lines 974-1016.  They start at `0.0`; a `glm` that throws
is caught and is taken to have written none of them, and `glm` has no `r2_adjust`
to write. -/
def fitted (binary : Bool) (th : Threshold) : linear_out :=
  if binary then
    match th.glm with
    | some g => ⟨g.p_value, g.r2, 0, g.coefficient, g.se⟩
    | none => ⟨0, 0, 0, 0, 0⟩
  else th.linear_regression

/-- Function `PRSice::regress_score`, lines 970-1041.  `none` is a read of
`m_prs_results` outside its range. -/
def regress_score (s : PRSice) (th : Threshold) (binary : Bool) (num_sample : Nat)
    (iter_threshold : Nat) : Option PRSice :=
  if s.m_num_snp_included = 0 then some s
  else
    match s.m_prs_results[iter_threshold]? with
    | none => none
    | some slot =>
      if s.m_num_snp_included = slot.num_snp then some s
      else
        let out := fitted binary th
        let better : Option Bool :=
          if iter_threshold = 0 ∨ s.m_best_index < 0 then some true
          else (s.m_prs_results[s.m_best_index.toNat]?).map (fun b => decide (b.r2 < out.r2))
        match better with
        | none => none
        | some b =>
          let cur_result : prsice_result :=
            { threshold := th.cur_threshold, r2 := out.r2, r2_adj := out.r2_adjust,
              coefficient := out.coefficient, p := out.p_value, emp_p := -1,
              num_snp := s.m_num_snp_included, se := out.se, competitive_p := -1 }
          some { s with
            m_independent_variables :=
              write_scores s.m_independent_variables s.m_matrix_index th.calculate_score
            m_best_index := if b then (iter_threshold : Int) else s.m_best_index
            m_best_sample_score :=
              if b then snapshot_scores s.m_best_sample_score num_sample th.calculate_score
              else s.m_best_sample_score
            m_prs_results := s.m_prs_results.set iter_threshold cur_result
            regressed := iter_threshold :: s.regressed }

/-! ## The permutation stage -/

/-- The test statistic of one permutation draw: `coefficient / se` in the `glm`
branch, `|beta / se|` in the decomposed branch (lines 1127 and 1159, 1218 and
1236).  `none` when `glm` throws. -/
def null_statistic (run_glm : Bool) (th : Threshold) (draw : Nat) : Option ℚ :=
  if run_glm then (th.null_glm draw).map (fun r => r.1 / r.2)
  else some |(th.null_qr draw).1 / (th.null_qr draw).2|

/-- The `while (processed < m_num_perm)` loops of `run_null_perm_no_thread`,
lines 1115-1131 and 1137-1163; `remaining` is `m_num_perm - processed`. -/
def null_perm_loop (run_glm : Bool) (th : Threshold) :
    PRSice → Nat → Nat → Outcome PRSice
  | s, _, 0 => Outcome.ok s
  | s, processed, remaining + 1 =>
    let s1 := { s with m_analysis_done := s.m_analysis_done + 1 }
    match null_statistic run_glm th processed with
    | none => Outcome.thrown "glm" s1
    | some obs_t =>
      match s1.m_perm_result[processed]? with
      | none => Outcome.undefined
      | some old =>
        null_perm_loop run_glm th
          { s1 with m_perm_result := s1.m_perm_result.set processed (min obs_t old) }
          (processed + 1) remaining

/-- Function `PRSice::run_null_perm_no_thread`, lines 1104-1165. -/
def run_null_perm_no_thread (s : PRSice) (run_glm : Bool) (th : Threshold) :
    Outcome PRSice :=
  null_perm_loop run_glm th s 0 s.m_num_perm

/-- The part of `consume_null_pheno` before the lock, lines 1206-1241: the local
buffers `temp_store` and `temp_index` for the draws this consumer popped.
`none` when `glm` throws inside the worker. -/
def consume_collect (run_glm : Bool) (th : Threshold) : List Nat → Option (List (ℚ × Nat))
  | [] => some []
  | index :: rest =>
    match null_statistic run_glm th index with
    | none => none
    | some obs_t => (consume_collect run_glm th rest).map (fun l => (obs_t, index) :: l)

/-- The locked final loop of `consume_null_pheno`, lines 1243-1250.  `none` is a
read outside `m_perm_result`. -/
def consume_flush : List ℚ → List (ℚ × Nat) → Option (List ℚ)
  | perm_result, [] => some perm_result
  | perm_result, (obs_t, index) :: rest =>
    match perm_result[index]? with
    | none => none
    | some old =>
      consume_flush (if old < obs_t then perm_result.set index obs_t else perm_result) rest

/-- Function `PRSice::consume_null_pheno`, lines 1195-1251, for a consumer that
popped the draws `popped`. -/
def consume_null_pheno (s : PRSice) (run_glm : Bool) (th : Threshold) (popped : List Nat) :
    Outcome PRSice :=
  match consume_collect run_glm th popped with
  | none => Outcome.terminated
  | some buf =>
    match consume_flush s.m_perm_result buf with
    | none => Outcome.undefined
    | some r => Outcome.ok { s with m_perm_result := r }

/-- The consumers of the worker path one after the other, in the order of their
final flush. -/
def consume_all (run_glm : Bool) (th : Threshold) : PRSice → List (List Nat) → Outcome PRSice
  | s, [] => Outcome.ok s
  | s, popped :: rest =>
    match consume_null_pheno s run_glm th popped with
    | Outcome.ok s1 => consume_all run_glm th s1 rest
    | other => other

/-- Function `PRSice::permutation`, lines 1059-1102.  In the worker path the
producer `gen_null_pheno` counts `m_num_perm` draws in `m_analysis_done` and the
consumers flush in the order of `th.schedule`. -/
def permutation (s : PRSice) (n_thread : Nat) (is_binary : Bool) (th : Threshold) :
    Outcome PRSice :=
  let run_glm := !(!is_binary || !s.m_logit_perm)
  if n_thread = 1 then run_null_perm_no_thread s run_glm th
  else
    consume_all run_glm th { s with m_analysis_done := s.m_analysis_done + s.m_num_perm }
      th.schedule

/-! ## `run_prsice`: reset and scanning loop -/

/-- The reset at the head of `run_prsice`, lines 834-850. -/
def run_prsice_reset (s : PRSice) (num_threshold num_sample : Nat) : PRSice :=
  { s with
    m_best_index := -1
    m_num_snp_included := 0
    m_perm_result := resize s.m_perm_result s.m_num_perm 2
    m_prs_results :=
      (resize s.m_prs_results num_threshold prsice_result.fresh).map
        (fun p => { p with threshold := -1, r2 := 0, num_snp := 0 })
    m_best_sample_score := resize [] num_sample 0
    regressed := [] }

/-- The `while (target.get_score(...))` loop of `run_prsice`, lines 881-913, from
iteration `iter_threshold` on; the list holds one entry for each call of
`get_score` that returns true.  The writes to the all-score file and its column
counter are output plumbing and are left out. -/
def run_prsice_loop (o : Options) : PRSice → Nat → List Threshold → Outcome PRSice
  | s, _, [] => Outcome.ok s
  | s, iter_threshold, th :: rest =>
    let s1 := { s with m_num_snp_included := th.num_snp_included
                       m_analysis_done := s.m_analysis_done + 1 }
    if o.no_regress then run_prsice_loop o s1 (iter_threshold + 1) rest
    else
      match regress_score s1 th o.is_binary o.num_sample iter_threshold with
      | none => Outcome.undefined
      | some s2 =>
        match (if o.permutation ≠ 0 then permutation s2 o.thread o.is_binary th
               else Outcome.ok s2) with
        | Outcome.ok s3 => run_prsice_loop o s3 (iter_threshold + 1) rest
        | other => other

/-- The scan of `run_prsice`, lines 834-913: the reset followed by the loop. -/
def run_prsice_scan (s : PRSice) (o : Options) (ths : List Threshold) : Outcome PRSice :=
  run_prsice_loop o (run_prsice_reset s o.num_threshold o.num_sample) 0 ths

/-- Function `PRSice::process_permutations`, lines 1044-1057.  `none` is a read of
`m_prs_results` outside its range. -/
def process_permutations (s : PRSice) : Option PRSice :=
  if s.m_best_index = -1 then some s
  else if s.m_best_index < 0 then none
  else
    match s.m_prs_results[s.m_best_index.toNat]? with
    | none => none
    | some best =>
      let best_t := best.coefficient / best.se
      let num_better := s.m_perm_result.countP (fun t => decide (t > best_t))
      some { s with
        m_prs_results := s.m_prs_results.set s.m_best_index.toNat
          { best with emp_p := ((num_better : ℚ) + 1) / ((s.m_num_perm : ℚ) + 1) } }

/-! ## Specification vocabulary -/

/-- Two objects differ at most in `m_perm_result` and `m_analysis_done`. -/
def perm_frame (s t : PRSice) : Prop :=
  t = { s with m_perm_result := t.m_perm_result, m_analysis_done := t.m_analysis_done }

/-- The `r2` that `regress_score` holds after its regression call at threshold
`j` of a scan, `0` outside the scan. -/
def scan_r2 (binary : Bool) (ths : List Threshold) (j : Nat) : ℚ :=
  match ths[j]? with
  | some th => (fitted binary th).r2
  | none => 0

/-- The SNP count that `get_score` reports at threshold `j` of a scan, `0` outside
the scan. -/
def scan_num_snp (ths : List Threshold) (j : Nat) : Nat :=
  match ths[j]? with
  | some th => th.num_snp_included
  | none => 0

/-- Invariant of the scanning loop after the thresholds `pre` have been processed
with options `o`. -/
structure ScanInv (o : Options) (pre : List Threshold) (s : PRSice) : Prop where
  log_iff : ∀ j, j ∈ s.regressed ↔
    (o.no_regress = false ∧ ∃ th, pre[j]? = some th ∧ th.num_snp_included ≠ 0)
  slot_r2 : ∀ j ∈ s.regressed,
    ∃ r, s.m_prs_results[j]? = some r ∧ r.r2 = scan_r2 o.is_binary pre j ∧
      r.num_snp = scan_num_snp pre j
  untouched : ∀ j r, pre.length ≤ j → s.m_prs_results[j]? = some r → r.num_snp = 0
  best : (s.regressed = [] ∧ s.m_best_index = -1) ∨
    ∃ b : Nat, s.m_best_index = (b : Int) ∧ b ∈ s.regressed ∧
      ∀ j ∈ s.regressed, scan_r2 o.is_binary pre j ≤ scan_r2 o.is_binary pre b ∧
        (scan_r2 o.is_binary pre j = scan_r2 o.is_binary pre b → b ≤ j)

/-! ## Example inputs -/

/-- A threshold with `n` SNPs whose regression has the given `r2`, coefficient 1
and standard error 1, and whose permutation draws all give the statistic `0`. -/
def example_threshold (n : Nat) (r2 : ℚ) : Threshold :=
  { cur_threshold := 1, num_snp_included := n, calculate_score := fun _ => 0,
    glm := none, linear_regression := ⟨0, r2, 0, 1, 1⟩,
    null_glm := fun _ => none, null_qr := fun _ => (0, 1), schedule := [] }

/-- An object left over from an earlier phenotype: two samples, three
permutations, stale results. -/
def example_object : PRSice :=
  { m_best_index := 5, m_num_snp_included := 7, m_num_perm := 3, m_logit_perm := false,
    m_analysis_done := 0, m_perm_result := [], m_best_sample_score := [1, 2],
    m_prs_results := [], m_independent_variables := [[1, 0], [1, 0]],
    m_matrix_index := [0, 1], m_perm_per_slice := 0, m_permuted_pheno := [],
    m_prs_summary := [], regressed := [4], set_perm_threads := 0, set_perm_fits := 0 }

/-- A continuous phenotype, one thread, no permutation, three thresholds. -/
def example_options : Options :=
  { no_regress := false, thread := 1, permutation := 0, num_threshold := 3,
    num_sample := 2, is_binary := false }

/-- A scan of three thresholds with SNP counts 10, 50, 60 and `r2` 0, 1, 1. -/
def example_scan : List Threshold :=
  [example_threshold 10 0, example_threshold 50 1, example_threshold 60 1]

/-- An object after a scan: best model at index 1 with statistic `2/1`, three
permutations with null statistics `1, 3, 2`. -/
def example_scanned : PRSice :=
  { m_best_index := 1, m_num_snp_included := 50, m_num_perm := 3, m_logit_perm := false,
    m_analysis_done := 5, m_perm_result := [1, 3, 2], m_best_sample_score := [0, 0],
    m_prs_results := [⟨1, 0, 0, 1, 0, -1, 1, -1, 10⟩, ⟨1, 1, 0, 2, 0, -1, 1, -1, 50⟩],
    m_independent_variables := [[1, 0], [1, 0]],
    m_matrix_index := [0, 1], m_perm_per_slice := 0, m_permuted_pheno := [],
    m_prs_summary := [], regressed := [1, 0], set_perm_threads := 0, set_perm_fits := 0 }

/-! ## The memory budgeter -/

/-- Conversion of a 64-bit pattern to `intptr_t` (two's complement). -/
def to_intptr (n : Int) : Int :=
  (n + 2 ^ 63) % 2 ^ 64 - 2 ^ 63

/-- Conversion of an integer to `size_t` (reduction modulo `2 ^ 64`). -/
def to_size_t (n : Int) : Nat :=
  (n % 2 ^ 64).toNat

/-- Modelled from the spec: the declarations of `misc::current_ram_usage` and
`Commander::max_memory` are not in the source, so the type in which
`valid_memory - misc::current_ram_usage()` is evaluated is not given.  The spec
reserves "half of (budget − current usage)" and lets that margin be negative: the
difference is the signed one.  The product with `0.5` is converted to `intptr_t`
by truncation toward zero. -/
def half_margin (valid_memory current_ram_usage : Nat) : Int :=
  Int.tdiv ((valid_memory : Int) - (current_ram_usage : Int)) 2

/-- The choice of `m_perm_per_slice` in `gen_perm_memory`, lines 1653-1663, as a
`size_t`; `none` is the division by a zero `min_memory_byte`. -/
def perm_per_slice_choice (final_mb min_memory_byte max_req_memory : Int) (num_perm : Nat) :
    Option Nat :=
  if final_mb < min_memory_byte then some 1
  else if final_mb > max_req_memory then some num_perm
  else if min_memory_byte = 0 then none
  else some (to_size_t (Int.tdiv final_mb min_memory_byte))

/-- Function `PRSice::gen_perm_memory`, lines 1640-1678.  `valid_memory` is the
value of `commander.max_memory(misc::total_ram_available())`, `current_ram_usage`
the value of `misc::current_ram_usage()`, `max_size` the value of
`m_permuted_pheno.max_size()`. -/
def gen_perm_memory (s : PRSice) (sample_ct valid_memory current_ram_usage max_size : Nat) :
    Outcome PRSice :=
  let min_memory_byte : Int := to_intptr (((8 * sample_ct) % 2 ^ 64 : Nat) : Int)
  let max_req_memory : Int := to_intptr (min_memory_byte * (s.m_num_perm : Int))
  let final_mb : Int := half_margin valid_memory current_ram_usage
  if final_mb < 0 then Outcome.thrown "Error: Insufficient memory for permutation!" s
  else
    match perm_per_slice_choice final_mb min_memory_byte max_req_memory s.m_num_perm with
    | none => Outcome.undefined
    | some chosen =>
      if (chosen * sample_ct) % 2 ^ 64 > max_size then
        if sample_ct = 0 then Outcome.undefined
        else
          Outcome.ok { s with
            m_perm_per_slice := max_size / sample_ct
            m_permuted_pheno :=
              resize s.m_permuted_pheno ((sample_ct * (max_size / sample_ct)) % 2 ^ 64) 0 }
      else
        Outcome.ok { s with
          m_perm_per_slice := chosen
          m_permuted_pheno := resize s.m_permuted_pheno ((sample_ct * chosen) % 2 ^ 64) 0 }

/-! ## The competitive test -/

/-- What the collaborators deliver to one call of `run_competitive`. -/
structure Background where
  /-- Value of `commander.set_perm()`. -/
  set_perm : Nat
  /-- Value of `commander.thread()`. -/
  thread : Nat
  /-- Value of `commander.max_memory(misc::total_ram_available())`. -/
  valid_memory : Nat
  /-- Value of `misc::current_ram_usage()`. -/
  used_memory : Nat
  /-- Value of `m_target_binary[pheno_index]`. -/
  is_binary : Bool
  /-- Value of `target.num_background()`. -/
  num_background : Nat
  /-- Function `target.calculate_score(m_score, sample)` after `get_null_score`
  for the set size `size` on the background drawn in permutation `perm`, as
  `null_score perm size sample`. -/
  null_score : Nat → Nat → Nat → ℚ
  /-- Result `(coefficient, se)` of `Regression::glm` on that score; `none` when
  it throws. -/
  glm : Nat → Nat → Option (ℚ × ℚ)
  /-- Result `(coefficient, se)` of `Regression::linear_regression` on that
  score. -/
  linear_regression : Nat → Nat → ℚ × ℚ
  /-- Worker path only: for each consumer, in the order of the final flushes,
  the payloads `(perm, size)` it popped. -/
  schedule : List (List (Nat × Nat))

/-- Statement `set_index[key].push_back(idx)` on a
`std::map<uint32_t, std::vector<uint32_t>>`, kept as its entries in ascending
key order. -/
def map_push : List (Nat × List Nat) → Nat → Nat → List (Nat × List Nat)
  | [], key, idx => [(key, [idx])]
  | (k, v) :: rest, key, idx =>
    if key < k then (key, [idx]) :: (k, v) :: rest
    else if key = k then (k, v ++ [idx]) :: rest
    else (k, v) :: map_push rest key idx

/-- Expression `set_index[key]` read by a consumer; an absent key gives an empty
vector. -/
def map_at : List (Nat × List Nat) → Nat → List Nat
  | [], _ => []
  | (k, v) :: rest, key => if key = k then v else map_at rest key

/-- The loop of `run_competitive` over the non-base sets, lines 2003-2008: the
triple `(set_index, ori_t_value, set_perm_res)`. -/
def collect_sets (summary : List prsice_result) :
    List (Nat × List Nat) × List ℚ × List Nat :=
  (summary.drop 1).foldl
    (fun acc res =>
      (map_push acc.1 res.num_snp acc.2.1.length,
       acc.2.1 ++ [|res.coefficient / res.se|],
       acc.2.2 ++ [0]))
    ([], [], [])

/-- The statistic `t_value = |coefficient / se|` of the regression on the
background score of permutation `perm` for set size `size` (lines 1722-1733 and
1916-1925); `none` when `glm` throws. -/
def set_statistic (e : Background) (perm size : Nat) : Option ℚ :=
  if e.is_binary then (e.glm perm size).map (fun r => |r.1 / r.2|)
  else some |(e.linear_regression perm size).1 / (e.linear_regression perm size).2|

/-- The loop `for (auto&& ref : index) res[ref] += (ori_t_value[ref] < t_value)`
on `uint32_t` counters, lines 1735-1737 and 1927-1929.  `none` is an index
outside a vector. -/
def count_exceed (ori_t_value : List ℚ) (t_value : ℚ) : List Nat → List Nat → Option (List Nat)
  | res, [] => some res
  | res, ref :: rest =>
    match ori_t_value[ref]?, res[ref]? with
    | some ori, some c =>
      count_exceed ori_t_value t_value
        (res.set ref ((c + (if ori < t_value then 1 else 0)) % 2 ^ 32)) rest
    | _, _ => none

/-- The loop over the set sizes inside one permutation of `null_set_no_thread`,
lines 1705-1739. -/
def null_set_sizes (e : Background) (ori_t_value : List ℚ) (perm : Nat) :
    PRSice → List Nat → List (Nat × List Nat) → Outcome (PRSice × List Nat)
  | s, res, [] => Outcome.ok (s, res)
  | s, res, (size, refs) :: rest =>
    let s1 := { s with
      m_independent_variables :=
        write_scores s.m_independent_variables s.m_matrix_index (e.null_score perm size)
      m_analysis_done := s.m_analysis_done + 1
      set_perm_fits := s.set_perm_fits + 1 }
    match set_statistic e perm size with
    | none => Outcome.thrown "glm" (s1, res)
    | some t_value =>
      match count_exceed ori_t_value t_value res refs with
      | none => Outcome.undefined
      | some res1 => null_set_sizes e ori_t_value perm s1 res1 rest

/-- The loop `while (processed < num_perm)` of `null_set_no_thread`, lines
1692-1741; `remaining` is `num_perm - processed`. -/
def null_set_perms (e : Background) (set_index : List (Nat × List Nat))
    (ori_t_value : List ℚ) : PRSice → List Nat → Nat → Nat → Outcome (PRSice × List Nat)
  | s, res, _, 0 => Outcome.ok (s, res)
  | s, res, processed, remaining + 1 =>
    match null_set_sizes e ori_t_value processed s res set_index with
    | Outcome.ok (s1, res1) =>
      null_set_perms e set_index ori_t_value s1 res1 (processed + 1) remaining
    | other => other

/-- Function `PRSice::null_set_no_thread`, lines 1679-1742.  Reading
`set_index.rbegin()` of an empty map is undefined, and so is the draw of
`max_size` background positions out of fewer. -/
def null_set_no_thread (s : PRSice) (e : Background) (set_index : List (Nat × List Nat))
    (ori_t_value : List ℚ) (set_perm_res : List Nat) (num_perm : Nat) :
    Outcome (PRSice × List Nat) :=
  match set_index.getLast? with
  | none => Outcome.undefined
  | some (max_size, _) =>
    if num_perm ≠ 0 ∧ e.num_background < max_size then Outcome.undefined
    else null_set_perms e set_index ori_t_value s set_perm_res 0 num_perm

/-- The loop `while (true)` of `consume_prs`, lines 1907-1930, over the payloads
this consumer popped; the state is the number of regressions it ran and its
local `temp_perm_res`. -/
def consume_prs_loop (e : Background) (set_index : List (Nat × List Nat))
    (ori_t_value : List ℚ) : Nat → List Nat → List (Nat × Nat) → Outcome (Nat × List Nat)
  | fits, temp, [] => Outcome.ok (fits, temp)
  | fits, temp, (perm, size) :: rest =>
    match set_statistic e perm size with
    | none => Outcome.terminated
    | some t_value =>
      match count_exceed ori_t_value t_value temp (map_at set_index size) with
      | none => Outcome.undefined
      | some temp1 => consume_prs_loop e set_index ori_t_value (fits + 1) temp1 rest

/-- Function `PRSice::consume_prs`, lines 1893-1940, for a consumer that popped
the payloads `popped`: the local counts, then the locked flush
`set_perm_res[i] += temp_perm_res[i]`. -/
def consume_prs (s : PRSice) (e : Background) (set_index : List (Nat × List Nat))
    (ori_t_value : List ℚ) (set_perm_res : List Nat) (popped : List (Nat × Nat)) :
    Outcome (PRSice × List Nat) :=
  match consume_prs_loop e set_index ori_t_value 0
      (List.replicate set_perm_res.length 0) popped with
  | Outcome.ok (fits, temp) =>
    Outcome.ok ({ s with set_perm_fits := s.set_perm_fits + fits },
      List.zipWith (fun c d => (c + d) % 2 ^ 32) set_perm_res temp)
  | Outcome.thrown w _ => Outcome.thrown w (s, set_perm_res)
  | Outcome.terminated => Outcome.terminated
  | Outcome.undefined => Outcome.undefined

/-- The consumers of `run_competitive` one after the other, in the order of
their final flush. -/
def consume_prs_all (e : Background) (set_index : List (Nat × List Nat))
    (ori_t_value : List ℚ) :
    PRSice → List Nat → List (List (Nat × Nat)) → Outcome (PRSice × List Nat)
  | s, res, [] => Outcome.ok (s, res)
  | s, res, popped :: rest =>
    match consume_prs s e set_index ori_t_value res popped with
    | Outcome.ok (s1, res1) => consume_prs_all e set_index ori_t_value s1 res1 rest
    | other => other

/-- Function `PRSice::produce_null_prs`, lines 1798-1846, as far as it touches the
object: one payload per permutation and set size, counted in `m_analysis_done`.
`none` is the undefined read of `set_index.rbegin()` or draw, as in
`null_set_no_thread`. -/
def produce_null_prs (s : PRSice) (e : Background) (set_index : List (Nat × List Nat))
    (num_perm : Nat) : Option PRSice :=
  match set_index.getLast? with
  | none => none
  | some (max_size, _) =>
    if num_perm ≠ 0 ∧ e.num_background < max_size then none
    else some { s with m_analysis_done := s.m_analysis_done + num_perm * set_index.length }

/-- The loop that writes `competitive_p`, lines 2066-2069. -/
def write_competitive_p (summary : List prsice_result) (set_perm_res : List Nat)
    (num_perm : Nat) : List prsice_result :=
  match summary with
  | [] => []
  | base :: sets =>
    base :: List.zipWith
      (fun r c => { r with competitive_p := ((c : ℚ) + 1) / ((num_perm : ℚ) + 1) })
      sets set_perm_res

/-- The value of `basic_memory_required_per_thread`, lines 2015-2019, a
`size_t`. -/
def basic_memory_required_per_thread (s : PRSice) : Nat :=
  (s.m_independent_variables.length * 8
    * ((s.m_independent_variables.headD []).length * 6 + 15)) % 2 ^ 64

/-- The value of `available_memory`, line 2031, when `used_memory < valid_memory`:
the product with `0.5` converted to `size_t`. -/
def available_memory (e : Background) : Nat :=
  (e.valid_memory - e.used_memory) / 2

/-- The value of `num_thread` after lines 2038-2040. -/
def affordable_threads (s : PRSice) (e : Background) : Nat :=
  if available_memory e / basic_memory_required_per_thread s < e.thread then
    available_memory e / basic_memory_required_per_thread s
  else e.thread

/-- Function `PRSice::run_competitive`, lines 1986-2070. -/
def run_competitive (s : PRSice) (e : Background) : Outcome PRSice :=
  let sets := collect_sets s.m_prs_summary
  if e.valid_memory ≤ e.used_memory then
    Outcome.thrown "Error: Not enough memory for permutation" s
  else if available_memory e < basic_memory_required_per_thread s then
    Outcome.thrown "Error: Not enough memory for permutation" s
  else if basic_memory_required_per_thread s = 0 then Outcome.undefined
  else
    let num_thread := affordable_threads s e
    let counted : Outcome (PRSice × List Nat) :=
      if num_thread > 1 then
        match produce_null_prs { s with set_perm_threads := s.set_perm_threads + num_thread }
            e sets.1 e.set_perm with
        | none => Outcome.undefined
        | some s1 => consume_prs_all e sets.1 sets.2.1 s1 sets.2.2 e.schedule
      else null_set_no_thread s e sets.1 sets.2.1 sets.2.2 e.set_perm
    match counted with
    | Outcome.ok (s1, set_perm_res) =>
      Outcome.ok { s1 with
        m_prs_summary := write_competitive_p s1.m_prs_summary set_perm_res e.set_perm }
    | Outcome.thrown w (s1, _) => Outcome.thrown w s1
    | Outcome.terminated => Outcome.terminated
    | Outcome.undefined => Outcome.undefined

/-- The summand `(ori_t_value[ref] < t_value)` for the set `ref`, `0` when there
is no such set. -/
def exceeds (ori_t_value : List ℚ) (ref : Nat) (t_value : ℚ) : Nat :=
  match ori_t_value[ref]? with
  | some ori => if ori < t_value then 1 else 0
  | none => 0

/-- How often the set `ref` is listed under the sizes of `set_index`, each
occurrence weighted by `f size`. -/
def occurrences (set_index : List (Nat × List Nat)) (ref : Nat) (f : Nat → Nat) : Nat :=
  match set_index with
  | [] => 0
  | (size, refs) :: rest => refs.count ref * f size + occurrences rest ref f

/-- The summand that permutation `perm` contributes to the count of the set
`ref` when the background statistic for the size `size` is compared with it. -/
def exceeds_in (e : Background) (ori_t_value : List ℚ) (ref perm size : Nat) : Nat :=
  match set_statistic e perm size with
  | some t_value => exceeds ori_t_value ref t_value
  | none => 0

/-- The number of the first `num_perm` permutations whose background statistic
for the set size `size` is strictly greater than the observed statistic `ori`. -/
def exceed_count (e : Background) (ori : ℚ) (size num_perm : Nat) : Nat :=
  (List.range num_perm).countP
    (fun perm =>
      match set_statistic e perm size with
      | some t_value => decide (ori < t_value)
      | none => false)

/-- A fit of a set with the given coefficient and SNP count, standard error 1. -/
def example_set (coefficient : ℚ) (num_snp : Nat) : prsice_result :=
  { threshold := 1, r2 := 0, r2_adj := 0, coefficient := coefficient, p := 0, emp_p := -1,
    se := 1, competitive_p := -1, num_snp := num_snp }

/-- An object with a base set and four sets of sizes 2, 1, 2, 7 whose observed
statistics are 3, 5, 4, 1. -/
def example_sets : PRSice :=
  { example_object with
    m_prs_summary :=
      [example_set 0 0, example_set 3 2, example_set 5 1, example_set 4 2, example_set 1 7] }

/-- Four set permutations on one thread with ample memory; the background
statistic of permutation `perm` for the set size `size` is `perm + size`. -/
def example_background : Background :=
  { set_perm := 4, thread := 1, valid_memory := 10000, used_memory := 0, is_binary := false,
    num_background := 100, null_score := fun _ _ _ => 0, glm := fun _ _ => none,
    linear_regression := fun perm size => ((perm : ℚ) + (size : ℚ), 1), schedule := [] }

/-- An object with a design matrix of two rows and two columns, so that one
thread needs `2 * 8 * (2 * 6 + 15) = 432` bytes, and one set of size 5 with
observed statistic 1. -/
def example_tie_sets : PRSice :=
  { example_object with m_prs_summary := [example_set 0 0, example_set 1 5] }

/-- Three threads requested with a budget of 2000 bytes, 100 in use: 950 bytes
are available. -/
def example_budget : Background :=
  { example_background with thread := 3, valid_memory := 2000, used_memory := 100 }

/-- Three set permutations in each of which the background statistic is `1`, the
observed statistic of the set of `example_tie_sets`. -/
def example_tie_background : Background :=
  { example_background with set_perm := 3, linear_regression := fun _ _ => (1, 1) }

/-- The same permutations on two threads: one producer and one consumer, which
pops all three payloads. -/
def example_tie_workers : Background :=
  { example_tie_background with thread := 2, schedule := [[(0, 5), (1, 5), (2, 5)]] }

/-! ## The stages after the scan -/

/-- Function `PRSice::print_best`, lines 931-968, as far as it reads the object:
`none` is a read outside `m_prs_results` or `m_best_sample_score`, `some none` is
the branch that only prints "Cannot output the best PRS score", and
`some (some column)` is the column of best scores it writes to the `.best` file,
one entry per sample.  The column counter of the file is output plumbing and is
left out. -/
def print_best (s : PRSice) (num_sample : Nat) : Option (Option (List ℚ)) :=
  if s.m_best_index < 0 then none
  else
    match s.m_prs_results[s.m_best_index.toNat]? with
    | none => none
    | some best_info =>
      if best_info.num_snp = 0 then some none
      else if num_sample ≤ s.m_best_sample_score.length then
        some (some (s.m_best_sample_score.take num_sample))
      else none

/-- Function `PRSice::output`, lines 1426-1553, as far as it goes through
`m_best_index`; `region_count` is the value of `region.get_count(region_index)`.
`none` is a read outside `m_prs_results`.  The prevalence adjustment, the lines
written to the `.prsice` file and `m_significant_store` are left out. -/
def output (s : PRSice) (region_count : Nat) : Option PRSice :=
  if s.m_best_index = -1 ∨ region_count = 0 then some s
  else if s.m_best_index < 0 then none
  else
    match s.m_prs_results[s.m_best_index.toNat]? with
    | none => none
    | some best_info => some { s with m_prs_summary := s.m_prs_summary ++ [best_info] }

/-- Function `PRSice::run_prsice`, lines 819-929: the scan, then
`process_permutations` when permutations are requested, then `print_best` when
regression is enabled.  The result is the object and what `print_best` wrote to
the best-score export. -/
def run_prsice (s : PRSice) (o : Options) (ths : List Threshold) :
    Outcome (PRSice × Option (List ℚ)) :=
  match run_prsice_scan s o ths with
  | Outcome.ok s1 =>
    match (if o.permutation ≠ 0 then process_permutations s1 else some s1) with
    | none => Outcome.undefined
    | some s2 =>
      if o.no_regress then Outcome.ok (s2, none)
      else
        match print_best s2 o.num_sample with
        | none => Outcome.undefined
        | some exported => Outcome.ok (s2, exported)
  | Outcome.thrown w s1 => Outcome.thrown w (s1, none)
  | Outcome.terminated => Outcome.terminated
  | Outcome.undefined => Outcome.undefined

/-- A scan of three thresholds none of which holds a SNP. -/
def example_empty_scan : List Threshold :=
  [example_threshold 0 0, example_threshold 0 0, example_threshold 0 0]

/-- One slot update of `run_null_perm_no_thread`, lines 1128-1129 and 1160-1161:
`m_perm_result[i] = std::min(obs_t, m_perm_result[i])` with the statistic
`stat i` of draw `i`. -/
def min_update (stat : Nat → ℚ) (r : List ℚ) (i : Nat) : List ℚ :=
  match r[i]? with
  | some old => r.set i (min (stat i) old)
  | none => r

/-- A threshold with `n` SNPs and regression `r2` whose permutation draws all
give `beta = b` with standard error 1, for workers that flush in the order of
`schedule`. -/
def example_null_threshold (n : Nat) (r2 b : ℚ) (schedule : List (List Nat)) : Threshold :=
  { example_threshold n r2 with null_qr := fun _ => (b, 1), schedule := schedule }

/-- A binary threshold whose exact solver gives the statistic `1 / 1` for every
permutation draw but fails to converge for draw 1. -/
def example_failing_draw : Threshold :=
  { example_threshold 10 0 with
    glm := some ⟨0, 1, 1, 1⟩
    null_glm := fun i => if i = 1 then none else some (1, 1) }

/-- An object with exact permutations (`--logit-perm`) and three fresh slots. -/
def example_logit : PRSice :=
  { example_scanned with m_logit_perm := true, m_perm_result := [2, 2, 2] }

/-- A binary threshold with 10 SNPs whose fit does not converge; sample `i` has
the score `i + 1`. -/
def example_failed_fit : Threshold :=
  { example_threshold 10 0 with glm := none, calculate_score := fun i => (i : ℚ) + 1 }

/-- A binary threshold with 50 SNPs whose fit converges with the given `r2`;
sample `i` has the score `i + 5`. -/
def example_converged_fit (r2 : ℚ) : Threshold :=
  { example_threshold 50 0 with
    glm := some ⟨0, r2, 1, 1⟩, calculate_score := fun i => (i : ℚ) + 5 }

/-- Invariant of the scanning loop for the best-sample-score snapshot, after the
thresholds `pre` have been processed with options `o`. -/
structure SnapInv (o : Options) (pre : List Threshold) (s : PRSice) : Prop where
  len : s.m_best_sample_score.length = o.num_sample
  unset : s.m_best_index = -1 → s.m_best_sample_score = List.replicate o.num_sample 0
  best : ∀ b : Nat, s.m_best_index = (b : Int) →
    ∃ th, pre[b]? = some th ∧
      s.m_best_sample_score = (List.range o.num_sample).map th.calculate_score

/-- A threshold with `n` SNPs whose regression has the given `r2` and whose score
of sample `i` is `k + i`. -/
def example_scored (n : Nat) (r2 : ℚ) (k : ℚ) : Threshold :=
  { cur_threshold := 1, num_snp_included := n, calculate_score := fun i => k + (i : ℚ),
    glm := none, linear_regression := ⟨0, r2, 0, 1, 1⟩,
    null_glm := fun _ => none, null_qr := fun _ => (0, 1), schedule := [] }

/-! ## Covariates: `process_cov_file` and `gen_cov_matrix` -/

/-- The members of `PRSice` that `gen_cov_matrix` and `process_cov_file` read or
write.  The `std::unordered_map` `m_sample_with_phenotypes` is a list of
key/value pairs with distinct keys, so that its `size()` is the length of the
list; `m_phenotype` is the list of its entries and `m_independent_variables` the
list of its rows. -/
structure PRSice_cov where
  /-- Member `m_ignore_fid`. -/
  m_ignore_fid : Bool
  /-- Member `m_phenotype`. -/
  m_phenotype : List ℚ
  /-- Member `m_sample_with_phenotypes`. -/
  m_sample_with_phenotypes : List (String × Nat)
  /-- Member `m_independent_variables`. -/
  m_independent_variables : List (List ℚ)

/-- A covariate file: its name, whether `cov.open` succeeds, and for each of its
lines the tokens `misc::split` gives after `misc::trim`, `[]` for a line that is
empty after the trim. -/
structure cov_file where
  /-- The file name `c_cov_file`. -/
  name : String
  /-- Value of `cov.is_open()`. -/
  is_open : Bool
  /-- The tokens of every line. -/
  lines : List (List String)

/-- The by-reference outputs of `process_cov_file`. -/
structure cov_layout where
  /-- Argument `cov_start_index`. -/
  cov_start_index : List Nat
  /-- Argument `num_column`. -/
  num_column : Nat
  /-- Argument `factor_levels`. -/
  factor_levels : List (List (String × Nat))

/-- Assignment `m[key] = v` on an `std::unordered_map`. -/
def map_assign : List (String × Nat) → String → Nat → List (String × Nat)
  | [], key, v => [(key, v)]
  | (k, x) :: rest, key, v =>
    if k = key then (k, v) :: rest else (k, x) :: map_assign rest key v

/-- Expression `(m_ignore_fid) ? token[0] : token[0] + "_" + token[1]`, lines 559
and 783.  `none` is a read outside `token`. -/
def sample_id (ignore_fid : Bool) (token : List String) : Option String :=
  if ignore_fid then token[0]?
  else
    match token[0]?, token[1]? with
    | some fid, some iid => some (fid ++ "_" ++ iid)
    | _, _ => none

/-- The validity loop of `process_cov_file` over `cov_index`, lines 566-590, from
the current `valid` and `factor_level_index`.  `convert` is
`misc::convert<double>`, an error being its exception.  `none` is a read outside
`token` or outside `factor_cov_index`; the latter is read at line 589 whatever
the tests of lines 567-575 gave.  The counters `missing_count` feed the report
only and are left out. -/
def valid_loop (convert : String → Except String ℚ) (factor_cov_index : List Nat)
    (token : List String) : List Nat → Bool → Nat → Option Bool
  | [], valid, _ => some valid
  | header :: rest, valid, factor_level_index =>
    match token[header]? with
    | none => none
    | some t =>
      let valid1 : Bool :=
        if t = "NA" ∨ t = "Na" ∨ t = "nA" ∨ t = "na" then false
        else if factor_cov_index.length ≤ factor_level_index
            ∨ some header ≠ factor_cov_index[factor_level_index]? then
          match convert t with
          | Except.ok _ => valid
          | Except.error _ => false
        else valid
      match factor_cov_index[factor_level_index]? with
      | none => none
      | some f =>
        valid_loop convert factor_cov_index token rest valid1
          (factor_level_index + if header = f then 1 else 0)

/-- The loop of `process_cov_file` over `factor_cov_index` for a valid sample,
lines 599-607: a level not seen before gets the next number of its factor.
`none` is a read outside `token`, `factor_levels` or `current_factor_level`. -/
def add_factor_levels (token : List String) :
    List Nat → Nat → List (List (String × Nat)) → List Nat →
      Option (List (List (String × Nat)) × List Nat)
  | [], _, factor_levels, current_factor_level => some (factor_levels, current_factor_level)
  | factor :: rest, factor_level_index, factor_levels, current_factor_level =>
    match token[factor]?, factor_levels[factor_level_index]?,
      current_factor_level[factor_level_index]? with
    | some t, some cur_level, some c =>
      if (cur_level.lookup t).isNone then
        add_factor_levels token rest (factor_level_index + 1)
          (factor_levels.set factor_level_index (map_assign cur_level t c))
          (current_factor_level.set factor_level_index ((c + 1) % 2 ^ 32))
      else
        add_factor_levels token rest (factor_level_index + 1) factor_levels
          current_factor_level
    | _, _, _ => none

/-- The locals of `process_cov_file` that its loop over the lines updates. -/
structure cov_scan where
  /-- Local `valid_sample_index`. -/
  valid_sample_index : List (String × Nat)
  /-- Argument `factor_levels`. -/
  factor_levels : List (List (String × Nat))
  /-- Local `current_factor_level`. -/
  current_factor_level : List Nat

/-- The loop of `process_cov_file` over the lines of the covariate file, lines
546-610. -/
def process_cov_lines (convert : String → Except String ℚ) (s : PRSice_cov)
    (factor_cov_index cov_index : List Nat) (max_index : Nat) :
    List (List String) → cov_scan → Outcome cov_scan
  | [], acc => Outcome.ok acc
  | token :: rest, acc =>
    if token = [] then
      process_cov_lines convert s factor_cov_index cov_index max_index rest acc
    else if token.length < max_index then
      Outcome.thrown ("Error: Malformed covariate file, should have at least "
        ++ toString max_index ++ " columns") acc
    else
      match sample_id s.m_ignore_fid token with
      | none => Outcome.undefined
      | some id =>
        match s.m_sample_with_phenotypes.lookup id with
        | none => process_cov_lines convert s factor_cov_index cov_index max_index rest acc
        | some index =>
          match valid_loop convert factor_cov_index token cov_index true 0 with
          | none => Outcome.undefined
          | some false =>
            process_cov_lines convert s factor_cov_index cov_index max_index rest acc
          | some true =>
            match add_factor_levels token factor_cov_index 0 acc.factor_levels
                acc.current_factor_level with
            | none => Outcome.undefined
            | some (levels, cur) =>
              process_cov_lines convert s factor_cov_index cov_index max_index rest
                { valid_sample_index := acc.valid_sample_index ++ [(id, index)],
                  factor_levels := levels, current_factor_level := cur }

/-- The loop of `process_cov_file` that counts the columns, lines 626-645, from
the current `total_column`, `factor_level_index` and `cov_start_index`; the
arithmetic is that of `uint32_t`.  `none` is a read outside `factor_levels`. -/
def count_columns (factor_cov_index : List Nat) (factor_levels : List (List (String × Nat))) :
    List Nat → Nat → Nat → List Nat → Option (Nat × List Nat)
  | [], total_column, _, cov_start_index => some (total_column, cov_start_index)
  | cov :: rest, total_column, factor_level_index, cov_start_index =>
    if factor_level_index = factor_cov_index.length
        ∨ some cov ≠ factor_cov_index[factor_level_index]? then
      count_columns factor_cov_index factor_levels rest ((total_column + 1) % 2 ^ 32)
        factor_level_index (cov_start_index ++ [total_column])
    else
      match factor_levels[factor_level_index]? with
      | none => none
      | some level =>
        count_columns factor_cov_index factor_levels rest
          ((total_column + (level.length % 2 ^ 32 + (2 ^ 32 - 1)) % 2 ^ 32) % 2 ^ 32)
          (factor_level_index + 1) (cov_start_index ++ [total_column])

/-- The comparison that `process_cov_file` sorts `valid_sample_index` with, lines
687-693: by original index, then by id. -/
def sample_before (t1 t2 : String × Nat) : Bool :=
  if t1.2 = t2.2 then decide (t1.1 < t2.1) else decide (t1.2 < t2.2)

/-- The loop of `process_cov_file` that rebuilds the sample map and moves the
phenotypes forward, lines 700-709, from position `cur_index`.  `none` is a read or
a write outside `m_phenotype`. -/
def copy_phenotypes :
    List (String × Nat) → Nat → List (String × Nat) → List ℚ →
      Option (List (String × Nat) × List ℚ)
  | [], _, map, pheno => some (map, pheno)
  | (name, original_index) :: rest, cur_index, map, pheno =>
    if original_index ≠ cur_index then
      match pheno[original_index]? with
      | none => none
      | some v =>
        if cur_index < pheno.length then
          copy_phenotypes rest (cur_index + 1) (map_assign map name cur_index)
            (pheno.set cur_index v)
        else none
    else copy_phenotypes rest (cur_index + 1) (map_assign map name cur_index) pheno

/-- Function `PRSice::process_cov_file`, lines 520-713, on the object and the
by-reference arguments `cov_start_index, num_column, factor_levels`.  The report
text and the counters `missing_count` behind it are left out.  `std::sort` is an
insertion sort: two entries that the comparison does not order are the same pair.
`Outcome.undefined` is `cov_index.back()` on an empty vector, a read or write
outside a vector, or `conservativeResize` growing `m_phenotype`, which leaves the
new entries uninitialised. -/
def process_cov_file (convert : String → Except String ℚ) (s : PRSice_cov) (file : cov_file)
    (factor_cov_index cov_index : List Nat) (out : cov_layout) :
    Outcome (PRSice_cov × cov_layout) :=
  match cov_index.getLast? with
  | none => Outcome.undefined
  | some back =>
    let max_index := (back + 1) % 2 ^ 32
    let levels0 := resize out.factor_levels factor_cov_index.length []
    if ¬ file.is_open then
      Outcome.thrown ("Error: Cannot open covariate file: " ++ file.name)
        (s, { out with factor_levels := levels0 })
    else
      match process_cov_lines convert s factor_cov_index cov_index max_index file.lines
          { valid_sample_index := [], factor_levels := levels0,
            current_factor_level := List.replicate factor_cov_index.length 0 } with
      | Outcome.ok acc =>
        match count_columns factor_cov_index acc.factor_levels cov_index 2 0
            out.cov_start_index with
        | none => Outcome.undefined
        | some (total_column, start) =>
          let num_sample := s.m_sample_with_phenotypes.length % 2 ^ 32
          if acc.valid_sample_index.length ≠ num_sample ∧ num_sample ≠ 0 then
            if acc.valid_sample_index.length = 0 then
              Outcome.thrown "Error: All samples removed due to missingness in covariate file!"
                (s, { out with factor_levels := acc.factor_levels, cov_start_index := start })
            else
              let sorted := acc.valid_sample_index.insertionSort
                (fun t1 t2 => sample_before t1 t2 = true)
              match copy_phenotypes sorted 0 [] s.m_phenotype with
              | none => Outcome.undefined
              | some (map, pheno) =>
                if pheno.length < sorted.length then Outcome.undefined
                else
                  Outcome.ok
                    ({ s with m_sample_with_phenotypes := map,
                              m_phenotype := pheno.take sorted.length },
                     { cov_start_index := start, num_column := total_column,
                       factor_levels := acc.factor_levels })
          else
            Outcome.ok (s, { cov_start_index := start, num_column := total_column,
                             factor_levels := acc.factor_levels })
      | Outcome.thrown what acc =>
        Outcome.thrown what (s, { out with factor_levels := acc.factor_levels })
      | Outcome.terminated => Outcome.terminated
      | Outcome.undefined => Outcome.undefined

/-- Assignment `m(i, j) = v` on a matrix stored as a list of rows; `none` when the
cell is outside the matrix. -/
def assign_cell (m : List (List ℚ)) (i j : Nat) (v : ℚ) : Option (List (List ℚ)) :=
  match m[i]? with
  | none => none
  | some row => if j < row.length then some (m.set i (row.set j v)) else none

/-- The loop of `gen_cov_matrix` over the covariates of one sample, lines 790-809,
over the values `i_cov` still to come and from the current `cur_factor_index`.
An absent level reads as `0`, as `operator[]` of the map gives. -/
def fill_covariates (convert : String → Except String ℚ) (token : List String)
    (cov_header_index factor_cov_index cov_start_index : List Nat)
    (factor_list : List (List (String × Nat))) (index : Nat) :
    List Nat → Nat → List (List ℚ) → Outcome (List (List ℚ))
  | [], _, m => Outcome.ok m
  | i_cov :: rest, cur_factor_index, m =>
    match cov_header_index[i_cov]? with
    | none => Outcome.undefined
    | some h =>
      if factor_cov_index.length ≤ cur_factor_index
          ∨ some h ≠ factor_cov_index[cur_factor_index]? then
        match token[h]? with
        | none => Outcome.undefined
        | some t =>
          match convert t with
          | Except.error what => Outcome.thrown what m
          | Except.ok v =>
            match cov_start_index[i_cov]? with
            | none => Outcome.undefined
            | some col =>
              match assign_cell m index col v with
              | none => Outcome.undefined
              | some m1 =>
                fill_covariates convert token cov_header_index factor_cov_index
                  cov_start_index factor_list index rest cur_factor_index m1
      else
        match factor_list[cur_factor_index]?, token[h]? with
        | some levels, some t =>
          let f_level := (levels.lookup t).getD 0
          if f_level ≠ 0 then
            match cov_start_index[i_cov]? with
            | none => Outcome.undefined
            | some col =>
              match assign_cell m index (col + f_level - 1) 1 with
              | none => Outcome.undefined
              | some m1 =>
                fill_covariates convert token cov_header_index factor_cov_index
                  cov_start_index factor_list index rest (cur_factor_index + 1) m1
          else
            fill_covariates convert token cov_header_index factor_cov_index
              cov_start_index factor_list index rest (cur_factor_index + 1) m
        | _, _ => Outcome.undefined

/-- The loop of `gen_cov_matrix` over the lines of the covariate file, lines
773-811, on the design matrix. -/
def fill_lines (convert : String → Except String ℚ) (ignore_fid : Bool)
    (map : List (String × Nat)) (cov_header_index factor_cov_index cov_start_index : List Nat)
    (factor_list : List (List (String × Nat))) (max_index : Nat) :
    List (List String) → List (List ℚ) → Outcome (List (List ℚ))
  | [], m => Outcome.ok m
  | token :: rest, m =>
    if token = [] then
      fill_lines convert ignore_fid map cov_header_index factor_cov_index cov_start_index
        factor_list max_index rest m
    else if token.length < max_index then
      Outcome.thrown ("Error: Malformed covariate file, should contain at least "
        ++ toString max_index ++ " column!") m
    else
      match sample_id ignore_fid token with
      | none => Outcome.undefined
      | some id =>
        match map.lookup id with
        | none =>
          fill_lines convert ignore_fid map cov_header_index factor_cov_index
            cov_start_index factor_list max_index rest m
        | some index =>
          match fill_covariates convert token cov_header_index factor_cov_index
              cov_start_index factor_list index (List.range cov_header_index.length) 0 m with
          | Outcome.ok m1 =>
            fill_lines convert ignore_fid map cov_header_index factor_cov_index
              cov_start_index factor_list max_index rest m1
          | other => other

/-- Function `PRSice::gen_cov_matrix`, lines 715-817.  The local `num_sample` is
the size of the sample map at entry, line 722, and is the row count of the
matrix built at line 755, after `process_cov_file` has run.
`Outcome.undefined` is `col(1)` of a matrix with fewer than two columns,
`cov_header_index.back()` on an empty vector, or a read or write outside a
vector or the matrix. -/
def gen_cov_matrix (convert : String → Except String ℚ) (s : PRSice_cov) (c_cov_file : cov_file)
    (cov_header_index factor_cov_index : List Nat) : Outcome PRSice_cov :=
  let num_sample := s.m_sample_with_phenotypes.length
  if c_cov_file.name = "" then
    Outcome.ok { s with m_independent_variables := List.replicate num_sample [1, 1] }
  else
    let out0 : cov_layout :=
      { cov_start_index := [], num_column := (2 + cov_header_index.length) % 2 ^ 32,
        factor_levels := [] }
    let processed : Outcome (PRSice_cov × cov_layout) :=
      if factor_cov_index.length ≠ 0 then
        process_cov_file convert s c_cov_file factor_cov_index cov_header_index out0
      else
        Outcome.ok (s, { out0 with
          cov_start_index := (List.range cov_header_index.length).map (fun i => i + 2) })
    match processed with
    | Outcome.ok (s1, out) =>
      if out.num_column < 2 then Outcome.undefined
      else
        let m := List.replicate num_sample ([1, 1] ++ List.replicate (out.num_column - 2) (0 : ℚ))
        let s2 := { s1 with m_independent_variables := m }
        if ¬ c_cov_file.is_open then
          Outcome.thrown ("Error: Cannot open covariate file: " ++ c_cov_file.name) s2
        else
          match cov_header_index.getLast? with
          | none => Outcome.undefined
          | some back =>
            match fill_lines convert s1.m_ignore_fid s1.m_sample_with_phenotypes
                cov_header_index factor_cov_index out.cov_start_index out.factor_levels
                ((back + 1) % 2 ^ 32) c_cov_file.lines m with
            | Outcome.ok m1 => Outcome.ok { s1 with m_independent_variables := m1 }
            | Outcome.thrown what m1 =>
              Outcome.thrown what { s1 with m_independent_variables := m1 }
            | Outcome.terminated => Outcome.terminated
            | Outcome.undefined => Outcome.undefined
    | Outcome.thrown what (s1, _) => Outcome.thrown what s1
    | Outcome.terminated => Outcome.terminated
    | Outcome.undefined => Outcome.undefined

/-- A conversion that accepts the numerals `0`, `1`, `2` and rejects every other
token. -/
def example_convert (t : String) : Except String ℚ :=
  if t = "0" then Except.ok 0
  else if t = "1" then Except.ok 1
  else if t = "2" then Except.ok 2
  else Except.error "Error: Cannot convert"

/-- Three phenotyped samples `f_a, f_b, f_c` in rows 0, 1, 2 with phenotypes
10, 20, 30. -/
def example_phenotyped : PRSice_cov :=
  { m_ignore_fid := false, m_phenotype := [10, 20, 30],
    m_sample_with_phenotypes := [("f_a", 0), ("f_b", 1), ("f_c", 2)],
    m_independent_variables := [] }

/-- A covariate file with a header and one factor covariate in column 2; the
covariate of sample `f_b` is missing. -/
def example_cov_file : cov_file :=
  { name := "cov", is_open := true,
    lines := [["FID", "IID", "Sex"], ["f", "a", "M"], ["f", "b", "NA"], ["f", "c", "F"]] }

/-- The value the locked loop of `consume_null_pheno` leaves in slot `i` that held
`old`: the left fold of `max` over the statistics recorded for index `i`. -/
def flush_value (buf : List (ℚ × Nat)) (i : Nat) (old : ℚ) : ℚ :=
  (buf.filter (fun p => p.2 = i)).foldl (fun m p => max m p.1) old

/-- A continuous threshold with 10 SNPs whose fit has the given coefficient with
standard error 1 and whose permutation draws all give `beta = 1` with standard
error 1. -/
def example_effect (coefficient : ℚ) : Threshold :=
  { example_threshold 10 1 with
    linear_regression := ⟨0, 1, 0, coefficient, 1⟩, null_qr := fun _ => (1, 1) }

/-- A binary threshold for exact permutations whose fit has the coefficient 3 with
standard error 1 and whose permutation draws all give the coefficient `-5` with
standard error 1. -/
def example_signed_null : Threshold :=
  { example_threshold 10 1 with
    glm := some ⟨0, 1, 3, 1⟩, null_glm := fun _ => some (-5, 1) }

/-- The partial shuffle of the competitive test, lines 1694-1701 of
`null_set_no_thread` and 1815-1823 of `produce_null_prs`: `num_snp` steps, each
exchanging position `begin` of `background` with the drawn position
`draw begin`, the value `dist(g)` returns at that step.  `none` is the
construction of `std::uniform_int_distribution<int> dist(begin, num_background - 1)`
with `begin` above `num_background - 1`, whose behaviour is undefined, or a read
outside `background`. -/
def shuffle_background (num_background : Nat) (draw : Nat → Nat) :
    Nat → Nat → List Nat → Option (List Nat)
  | 0, _, background => some background
  | num_snp + 1, begin, background =>
    if num_background ≤ begin then none
    else
      match background[begin]?, background[draw begin]? with
      | some x, some y =>
        shuffle_background num_background draw num_snp (begin + 1)
          ((background.set begin y).set (draw begin) x)
      | _, _ => none

/-- The calls `target.get_null_score(set_size.first, prev_size, background,
first_run, require_standardize)` of the loop over `set_index` inside one
permutation, lines 1705-1740 of `null_set_no_thread` and 1826-1840 of
`produce_null_prs`, from the current `prev_size` and `first_run`: for each call
its arguments `(set_size.first, prev_size, background, first_run)`. -/
def get_null_score_calls (background : List Nat) :
    List (Nat × List Nat) → Nat → Bool → List (Nat × Nat × List Nat × Bool)
  | [], _, _ => []
  | (size, _) :: rest, prev_size, first_run =>
    (size, prev_size, background, first_run)
      :: get_null_score_calls background rest size false

/-- One permutation of `null_set_no_thread` (lines 1693-1740) and of
`produce_null_prs` (lines 1813-1840) as the scoring provider sees it: the partial
shuffle of `max_size` positions, then the calls of `get_null_score` on the
shuffled background with `prev_size = 0` and `first_run = true` at the first
one.  `max_size` is the local of that name, the greatest key of `set_index`;
`none` is an undefined shuffle. -/
def null_permutation_calls (num_background : Nat) (draw : Nat → Nat) (max_size : Nat)
    (background : List Nat) (set_index : List (Nat × List Nat)) :
    Option (List Nat × List (Nat × Nat × List Nat × Bool)) :=
  (shuffle_background num_background draw max_size 0 background).map
    (fun shuffled => (shuffled, get_null_score_calls shuffled set_index 0 true))

/-- The payloads `produce_null_prs` queues: for each permutation, in order, one
payload for each key of `set_index`, as `(permutation, set size)`. -/
def queued_payloads (set_index : List (Nat × List Nat)) (num_perm : Nat) : List (Nat × Nat) :=
  (List.range num_perm).flatMap (fun perm => set_index.map (fun g => (perm, g.1)))

/-- The ids of the lines of a covariate file that belong to a phenotyped sample,
in file order: what `process_cov_file` finds with
`m_sample_with_phenotypes.find(id)` at line 560. -/
def line_ids (ignore_fid : Bool) (map : List (String × Nat)) : List (List String) → List String
  | [] => []
  | token :: rest =>
    if token = [] then line_ids ignore_fid map rest
    else
      match sample_id ignore_fid token with
      | none => line_ids ignore_fid map rest
      | some id =>
        if (map.lookup id).isSome then id :: line_ids ignore_fid map rest
        else line_ids ignore_fid map rest

/-! ## Phenotypes: `gen_pheno_vec` -/

/-- What `Genotype` delivers for one sample of the target. -/
structure target_sample where
  /-- Value of `target.sample_id(i_sample)`. -/
  sample_id : String
  /-- Value of `target.pheno_is_na(i_sample)`. -/
  pheno_is_na : Bool
  /-- Value of `target.pheno(i_sample)`. -/
  pheno : String

/-- The arguments of `gen_pheno_vec` and the entries of `pheno_info` it reads. -/
structure pheno_request where
  /-- Value of `pheno_info.use_pheno`. -/
  use_pheno : Bool
  /-- Value of `pheno_info.binary[pheno_index]`. -/
  binary : Bool
  /-- Argument `pheno_index`. -/
  pheno_index : Nat
  /-- Value of `pheno_info.col[pheno_index]`. -/
  pheno_col_index : Nat
  /-- Argument `regress`. -/
  regress : Bool

/-- The locals of `gen_pheno_vec` that its loops over the samples update, with the
sample map. -/
structure pheno_scan where
  /-- Local `pheno_store`. -/
  pheno_store : List ℚ
  /-- Local `max_num`. -/
  max_num : Nat
  /-- Local `num_case`. -/
  num_case : Nat
  /-- Local `num_control`. -/
  num_control : Nat
  /-- Local `invalid_pheno`. -/
  invalid_pheno : Nat
  /-- Local `num_not_found`. -/
  num_not_found : Nat
  /-- Local `sample_index_ct`. -/
  sample_index_ct : Nat
  /-- Local `input_sanity_check`, a set of at most two values. -/
  input_sanity_check : List ℚ
  /-- Member `m_sample_with_phenotypes`. -/
  m_sample_with_phenotypes : List (String × Nat)

/-- The locals of `gen_pheno_vec` as declared at lines 201-211, with the sample
map of the object. -/
def pheno_scan_start (map : List (String × Nat)) : pheno_scan :=
  { pheno_store := [], max_num := 0, num_case := 0, num_control := 0,
    invalid_pheno := 0, num_not_found := 0, sample_index_ct := 0,
    input_sanity_check := [], m_sample_with_phenotypes := map }

/-- The loop of `gen_pheno_vec` over the lines of the phenotype file, lines
233-250: the map `phenotype_info`, the most recent assignment first, so that
`List.lookup` finds the value a later line has overwritten an earlier one with.
`Outcome.undefined` is a read outside `token`. -/
def read_pheno_lines (ignore_fid : Bool) (r : pheno_request) :
    List (List String) → List (String × String) → Outcome (List (String × String))
  | [], phenotype_info => Outcome.ok phenotype_info
  | token :: rest, phenotype_info =>
    if token = [] then read_pheno_lines ignore_fid r rest phenotype_info
    else if token.length ≤ r.pheno_index + 1 + (if ignore_fid then 0 else 1) then
      Outcome.thrown ("Malformed pheno file, should contain at least "
        ++ toString (r.pheno_index + 2 + (if ignore_fid then 0 else 1))
        ++ " columns. Have you use the --ignore-fid option?") phenotype_info
    else
      match sample_id ignore_fid token, token[r.pheno_col_index]? with
      | some id, some value => read_pheno_lines ignore_fid r rest ((id, value) :: phenotype_info)
      | _, _ => Outcome.undefined

/-- The `try` block of `gen_pheno_vec` for one sample with the phenotype text
`value`, lines 257-287 and 304-334: an accepted value is stored and the sample
enters the map, anything else counts as invalid. -/
def store_pheno (convert_int : String → Except String Int)
    (convert : String → Except String ℚ) (binary : Bool) (id value : String)
    (acc : pheno_scan) : pheno_scan :=
  if binary then
    match convert_int value with
    | Except.error _ => { acc with invalid_pheno := acc.invalid_pheno + 1 }
    | Except.ok temp =>
      if 0 ≤ temp ∧ temp ≤ 2 then
        { acc with
          pheno_store := acc.pheno_store ++ [(temp : ℚ)]
          max_num := if temp.toNat > acc.max_num then temp.toNat else acc.max_num
          num_case := acc.num_case + (if temp = 1 then 1 else 0)
          num_control := acc.num_control + (if temp = 0 then 1 else 0)
          m_sample_with_phenotypes :=
            map_assign acc.m_sample_with_phenotypes id acc.sample_index_ct
          sample_index_ct := acc.sample_index_ct + 1 }
      else { acc with invalid_pheno := acc.invalid_pheno + 1 }
  else
    match convert value with
    | Except.error _ => { acc with invalid_pheno := acc.invalid_pheno + 1 }
    | Except.ok x =>
      { acc with
        pheno_store := acc.pheno_store ++ [x]
        input_sanity_check :=
          if acc.input_sanity_check.length < 2 ∧ x ∉ acc.input_sanity_check then
            acc.input_sanity_check ++ [x]
          else acc.input_sanity_check
        m_sample_with_phenotypes :=
          map_assign acc.m_sample_with_phenotypes id acc.sample_index_ct
        sample_index_ct := acc.sample_index_ct + 1 }

/-- The loops of `gen_pheno_vec` over the samples of the target, lines 252-293
(phenotype file) and 299-335 (fam file). -/
def collect_phenotypes (convert_int : String → Except String Int)
    (convert : String → Except String ℚ) (r : pheno_request)
    (phenotype_info : List (String × String)) : List target_sample → pheno_scan → pheno_scan
  | [], acc => acc
  | sample :: rest, acc =>
    if r.use_pheno then
      match phenotype_info.lookup sample.sample_id with
      | some value =>
        if value ≠ "NA" then
          collect_phenotypes convert_int convert r phenotype_info rest
            (store_pheno convert_int convert r.binary sample.sample_id value acc)
        else
          collect_phenotypes convert_int convert r phenotype_info rest
            { acc with num_not_found := acc.num_not_found + 1 }
      | none =>
        collect_phenotypes convert_int convert r phenotype_info rest
          { acc with num_not_found := acc.num_not_found + 1 }
    else if sample.pheno_is_na then
      collect_phenotypes convert_int convert r phenotype_info rest acc
    else
      collect_phenotypes convert_int convert r phenotype_info rest
        (store_pheno convert_int convert r.binary sample.sample_id sample.pheno acc)

/-- The loop of `gen_pheno_vec` that moves a 1/2 encoding to 0/1, lines 390-398,
from the current `pheno_store` done so far, `error`, `num_case` and
`num_control`. -/
def recode_phenotypes : List ℚ → List ℚ × Bool × Nat × Nat → List ℚ × Bool × Nat × Nat
  | [], acc => acc
  | pheno :: rest, (done, error, num_case, num_control) =>
    if pheno - 1 < 0 then
      recode_phenotypes rest (done ++ [pheno - 1], true, num_case, num_control)
    else if pheno - 1 = 1 then
      recode_phenotypes rest (done ++ [pheno - 1], error, num_case + 1, num_control)
    else
      recode_phenotypes rest (done ++ [pheno - 1], error, num_case, num_control + 1)

/-- The part of `gen_pheno_vec` after the loops over the samples, lines 338-428:
the object and the counts `(num_case, num_control)` the report is built from.
`Outcome.undefined` is `*input_sanity_check.begin()` on an empty set. -/
def finish_pheno (s : PRSice_cov) (r : pheno_request) (sample_ct : Nat) (acc : pheno_scan) :
    Outcome (PRSice_cov × Nat × Nat) :=
  let s1 := { s with m_sample_with_phenotypes := acc.m_sample_with_phenotypes }
  if acc.num_not_found = sample_ct ∧ r.regress then
    Outcome.thrown "Error: No sample left" (s1, acc.num_case, acc.num_control)
  else if acc.invalid_pheno = sample_ct ∧ r.regress then
    Outcome.thrown "Error: No sample left" (s1, acc.num_case, acc.num_control)
  else if acc.input_sanity_check.length < 2 ∧ ¬ r.binary ∧ r.regress then
    if acc.input_sanity_check = [] then Outcome.undefined
    else Outcome.thrown "Not enough valid phenotype" (s1, acc.num_case, acc.num_control)
  else
    let recoded : List ℚ × Bool × Nat × Nat :=
      if acc.max_num > 1 ∧ r.binary then recode_phenotypes acc.pheno_store ([], false, 0, 0)
      else (acc.pheno_store, false, acc.num_case, acc.num_control)
    if recoded.2.1 ∧ r.regress then
      Outcome.thrown "Mixed encoding! Both 0/1 and 1/2 encoding found!"
        (s1, recoded.2.2.1, recoded.2.2.2)
    else if recoded.1.length = 0 ∧ r.regress then
      Outcome.thrown "No phenotype presented" (s1, recoded.2.2.1, recoded.2.2.2)
    else
      let s2 := { s1 with m_phenotype := recoded.1 }
      if r.binary ∧ r.regress ∧ recoded.2.2.2 = 0 then
        Outcome.thrown "There are no control samples" (s2, recoded.2.2.1, recoded.2.2.2)
      else if r.binary ∧ r.regress ∧ recoded.2.2.1 = 0 then
        Outcome.thrown "There are no cases" (s2, recoded.2.2.1, recoded.2.2.2)
      else Outcome.ok (s2, recoded.2.2.1, recoded.2.2.2)

/-- The map `phenotype_info` of `gen_pheno_vec`, lines 216-251: read from the
phenotype file when `pheno_info.use_pheno`, unused otherwise. -/
def read_pheno_file (ignore_fid : Bool) (r : pheno_request) (pheno_file : cov_file) :
    Outcome (List (String × String)) :=
  if r.use_pheno then
    if ¬ pheno_file.is_open then
      Outcome.thrown ("Cannot open phenotype file: " ++ pheno_file.name) []
    else read_pheno_lines ignore_fid r pheno_file.lines []
  else Outcome.ok []

/-- Function `PRSice::gen_pheno_vec`, lines 197-429.  `convert_int` and `convert`
are `misc::convert<int>` and `misc::convert<double>`, an error being their
exception; `pheno_file` is the phenotype file, in the representation of
`cov_file`; the result carries the counts `(num_case, num_control)`.  The text of
the report is left out. -/
def gen_pheno_vec (convert_int : String → Except String Int)
    (convert : String → Except String ℚ) (s : PRSice_cov) (target : List target_sample)
    (r : pheno_request) (pheno_file : cov_file) : Outcome (PRSice_cov × Nat × Nat) :=
  match read_pheno_file s.m_ignore_fid r pheno_file with
  | Outcome.ok phenotype_info =>
    finish_pheno s r target.length
      (collect_phenotypes convert_int convert r phenotype_info target
        (pheno_scan_start s.m_sample_with_phenotypes))
  | Outcome.thrown what _ => Outcome.thrown what (s, 0, 0)
  | Outcome.terminated => Outcome.terminated
  | Outcome.undefined => Outcome.undefined

/-- A conversion to `int` that accepts the numerals `0` to `3`. -/
def example_convert_int (t : String) : Except String Int :=
  if t = "0" then Except.ok 0
  else if t = "1" then Except.ok 1
  else if t = "2" then Except.ok 2
  else if t = "3" then Except.ok 3
  else Except.error "Error: Cannot convert"

/-- A target of four samples with the given phenotype texts in the fam file. -/
def example_target (a b c d : String) : List target_sample :=
  [⟨"f_a", false, a⟩, ⟨"f_b", false, b⟩, ⟨"f_c", false, c⟩, ⟨"f_d", false, d⟩]

/-- A binary phenotype taken from the fam file, with regression. -/
def example_request : pheno_request :=
  { use_pheno := false, binary := true, pheno_index := 0, pheno_col_index := 0,
    regress := true }

/-- An object before `gen_pheno_vec`, as `init_matrix` leaves it. -/
def example_cleared : PRSice_cov :=
  { m_ignore_fid := false, m_phenotype := [], m_sample_with_phenotypes := [],
    m_independent_variables := [] }

/-- Invariant of the loops of `gen_pheno_vec` over the samples for a binary
phenotype, after `n` samples. -/
structure BinaryInv (acc : pheno_scan) (n : Nat) : Prop where
  range : ∀ x ∈ acc.pheno_store, x = 0 ∨ x = 1 ∨ x = 2
  max : 1 < acc.max_num ↔ (2 : ℚ) ∈ acc.pheno_store
  cases : acc.num_case = acc.pheno_store.count 1
  controls : acc.num_control = acc.pheno_store.count 0
  seen : acc.num_not_found + acc.invalid_pheno + acc.pheno_store.length ≤ n

/-! # Theorems -/

/-! ## Frame of the permutation stage -/

theorem perm_frame_refl (s : PRSice) : perm_frame s s := rfl

theorem perm_frame_mk (s : PRSice) (r : List ℚ) (a : Nat) :
    perm_frame s { s with m_perm_result := r, m_analysis_done := a } := rfl

theorem perm_frame_trans {s t u : PRSice} (h1 : perm_frame s t) (h2 : perm_frame t u) :
    perm_frame s u := by
  unfold perm_frame at *
  rw [h2, h1]

theorem null_perm_loop_frame (run_glm : Bool) (th : Threshold) (remaining : Nat) :
    ∀ (s : PRSice) (processed : Nat) (t : PRSice),
      null_perm_loop run_glm th s processed remaining = Outcome.ok t → perm_frame s t := by
  induction remaining with
  | zero =>
    intro s processed t h
    simp only [null_perm_loop, Outcome.ok.injEq] at h
    subst h
    exact perm_frame_refl s
  | succ n ih =>
    intro s processed t h
    simp only [null_perm_loop] at h
    split at h
    · exact absurd h (by simp)
    · split at h
      · exact absurd h (by simp)
      · exact perm_frame_trans (perm_frame_mk s _ _) (ih _ _ _ h)

theorem consume_all_frame (run_glm : Bool) (th : Threshold) (sched : List (List Nat)) :
    ∀ (s t : PRSice), consume_all run_glm th s sched = Outcome.ok t → perm_frame s t := by
  induction sched with
  | nil =>
    intro s t h
    simp only [consume_all, Outcome.ok.injEq] at h
    subst h
    exact perm_frame_refl s
  | cons popped rest ih =>
    intro s t h
    simp only [consume_all] at h
    split at h
    · rename_i s1 h1
      refine perm_frame_trans ?_ (ih _ _ h)
      simp only [consume_null_pheno] at h1
      split at h1
      · exact absurd h1 (by simp)
      · split at h1
        · exact absurd h1 (by simp)
        · simp only [Outcome.ok.injEq] at h1
          subst h1
          exact perm_frame_mk s _ _
    · rename_i hne
      exact absurd h (fun hh => hne t hh)

theorem permutation_frame (s t : PRSice) (n_thread : Nat) (is_binary : Bool) (th : Threshold)
    (h : permutation s n_thread is_binary th = Outcome.ok t) : perm_frame s t := by
  simp only [permutation] at h
  split at h
  · exact null_perm_loop_frame _ _ _ _ _ _ h
  · exact perm_frame_trans (perm_frame_mk s _ _) (consume_all_frame _ _ _ _ _ h)

theorem scan_r2_append (binary : Bool) (pre rest : List Threshold) (j : Nat)
    (h : j < pre.length) : scan_r2 binary (pre ++ rest) j = scan_r2 binary pre j := by
  simp [scan_r2, List.getElem?_append_left h]

theorem scan_num_snp_append (pre rest : List Threshold) (j : Nat)
    (h : j < pre.length) : scan_num_snp (pre ++ rest) j = scan_num_snp pre j := by
  simp [scan_num_snp, List.getElem?_append_left h]

theorem scan_num_snp_last (pre : List Threshold) (th : Threshold) :
    scan_num_snp (pre ++ [th]) pre.length = th.num_snp_included := by
  simp [scan_num_snp]

theorem scan_r2_last (binary : Bool) (pre : List Threshold) (th : Threshold) :
    scan_r2 binary (pre ++ [th]) pre.length = (fitted binary th).r2 := by
  simp [scan_r2]

/-- What `regress_score` does when it does not return early. -/
theorem regress_score_run (s t : PRSice) (th : Threshold) (binary : Bool)
    (num_sample it : Nat) (slot : prsice_result)
    (h0 : s.m_num_snp_included ≠ 0) (hslot : s.m_prs_results[it]? = some slot)
    (hne : s.m_num_snp_included ≠ slot.num_snp)
    (h : regress_score s th binary num_sample it = some t) :
    t.regressed = it :: s.regressed ∧
    (∃ cur, cur.r2 = (fitted binary th).r2 ∧ cur.num_snp = s.m_num_snp_included ∧
      t.m_prs_results = s.m_prs_results.set it cur) ∧
    ((t.m_best_index = it ∧
        (it = 0 ∨ s.m_best_index < 0 ∨
          ∃ r, s.m_prs_results[s.m_best_index.toNat]? = some r ∧ r.r2 < (fitted binary th).r2)) ∨
     (t.m_best_index = s.m_best_index ∧ it ≠ 0 ∧ 0 ≤ s.m_best_index ∧
          ∃ r, s.m_prs_results[s.m_best_index.toNat]? = some r ∧
            ¬ r.r2 < (fitted binary th).r2)) := by
  simp only [regress_score, if_neg h0, hslot, if_neg hne] at h
  split at h
  · exact absurd h (by simp)
  · rename_i b hb
    simp only [Option.some.injEq] at h
    subst h
    refine ⟨rfl, ⟨_, rfl, rfl, rfl⟩, ?_⟩
    split at hb
    · rename_i hc
      simp only [Option.some.injEq] at hb
      subst hb
      left
      refine ⟨by simp, ?_⟩
      rcases hc with hc | hc
      · exact Or.inl hc
      · exact Or.inr (Or.inl hc)
    · rename_i hc
      push_neg at hc
      cases hr : s.m_prs_results[s.m_best_index.toNat]? with
      | none => rw [hr] at hb; simp at hb
      | some r =>
        rw [hr] at hb
        simp only [Option.map_some', Option.some.injEq] at hb
        by_cases hlt : r.r2 < (fitted binary th).r2
        · left
          have : b = true := by rw [← hb]; simpa using hlt
          subst this
          exact ⟨by simp, Or.inr (Or.inr ⟨r, rfl, hlt⟩)⟩
        · right
          have : b = false := by rw [← hb]; simpa using hlt
          subst this
          exact ⟨by simp, hc.1, hc.2, r, rfl, hlt⟩

theorem ScanInv.log_lt {o : Options} {pre : List Threshold} {s : PRSice}
    (inv : ScanInv o pre s) {j : Nat} (hj : j ∈ s.regressed) : j < pre.length := by
  obtain ⟨_, th, hth, _⟩ := (inv.log_iff j).1 hj
  exact (List.getElem?_eq_some.1 hth).1

theorem ScanInv.of_frame {o : Options} {pre : List Threshold} {s t : PRSice}
    (inv : ScanInv o pre s) (h : perm_frame s t) : ScanInv o pre t := by
  have h1 : t.regressed = s.regressed := by
    have := congrArg PRSice.regressed h; simpa using this
  have h2 : t.m_prs_results = s.m_prs_results := by
    have := congrArg PRSice.m_prs_results h; simpa using this
  have h3 : t.m_best_index = s.m_best_index := by
    have := congrArg PRSice.m_best_index h; simpa using this
  constructor
  · rw [h1]; exact inv.log_iff
  · rw [h1, h2]; exact inv.slot_r2
  · rw [h2]; exact inv.untouched
  · rw [h1, h3]; exact inv.best

theorem ScanInv.skip {o : Options} {pre : List Threshold} {s t : PRSice} {th : Threshold}
    (inv : ScanInv o pre s) (hskip : o.no_regress = true ∨ th.num_snp_included = 0)
    (h1 : t.regressed = s.regressed) (h2 : t.m_prs_results = s.m_prs_results)
    (h3 : t.m_best_index = s.m_best_index) : ScanInv o (pre ++ [th]) t := by
  have hlt : ∀ j ∈ s.regressed, j < pre.length := fun j hj => inv.log_lt hj
  constructor
  · intro j
    rw [h1, inv.log_iff j]
    constructor
    · rintro ⟨hn, th', hth, hz⟩
      refine ⟨hn, th', ?_, hz⟩
      have hj := (List.getElem?_eq_some.1 hth).1
      rw [List.getElem?_append_left hj]; exact hth
    · rintro ⟨hn, th', hth, hz⟩
      refine ⟨hn, th', ?_, hz⟩
      by_cases hj : j < pre.length
      · rw [List.getElem?_append_left hj] at hth; exact hth
      · exfalso
        have hj2 := (List.getElem?_eq_some.1 hth).1
        simp only [List.length_append, List.length_singleton] at hj2
        have hje : j = pre.length := by omega
        subst hje
        simp only [List.getElem?_concat_length, Option.some.injEq] at hth
        subst hth
        rcases hskip with hs | hs
        · rw [hs] at hn; exact absurd hn (by simp)
        · exact hz hs
  · intro j hj
    rw [h1] at hj
    rw [h2, scan_r2_append _ _ _ _ (hlt j hj), scan_num_snp_append _ _ _ (hlt j hj)]
    exact inv.slot_r2 j hj
  · intro j r hj hr
    rw [h2] at hr
    simp only [List.length_append, List.length_singleton] at hj
    exact inv.untouched j r (by omega) hr
  · rw [h1, h3]
    rcases inv.best with hb | ⟨b, hb1, hb2, hb3⟩
    · exact Or.inl hb
    · right
      refine ⟨b, hb1, hb2, fun j hj => ?_⟩
      rw [scan_r2_append _ _ _ _ (hlt j hj), scan_r2_append _ _ _ _ (hlt b hb2)]
      exact hb3 j hj

theorem ScanInv.run {o : Options} {pre : List Threshold} {s t : PRSice} {th : Threshold}
    {num_sample : Nat}
    (inv : ScanInv o pre s) (hreg : o.no_regress = false) (hnz : th.num_snp_included ≠ 0)
    (hs : s.m_num_snp_included = th.num_snp_included)
    (h : regress_score s th o.is_binary num_sample pre.length = some t) :
    ScanInv o (pre ++ [th]) t := by
  have hlt : ∀ j ∈ s.regressed, j < pre.length := fun j hj => inv.log_lt hj
  have h0 : s.m_num_snp_included ≠ 0 := by rw [hs]; exact hnz
  cases hslot : s.m_prs_results[pre.length]? with
  | none => simp [regress_score, h0, hslot] at h
  | some slot =>
    have hz : slot.num_snp = 0 := inv.untouched _ _ (Nat.le_refl _) hslot
    have hne : s.m_num_snp_included ≠ slot.num_snp := by rw [hz]; exact h0
    obtain ⟨hlog, ⟨cur, hcur, hcurn, hres⟩, hbest⟩ :=
      regress_score_run s t th o.is_binary num_sample pre.length slot h0 hslot hne h
    have hlen : pre.length < s.m_prs_results.length := (List.getElem?_eq_some.1 hslot).1
    have hR : ∀ j ∈ s.regressed,
        scan_r2 o.is_binary (pre ++ [th]) j = scan_r2 o.is_binary pre j :=
      fun j hj => scan_r2_append _ _ _ _ (hlt j hj)
    have hx := scan_r2_last o.is_binary pre th
    constructor
    · intro j
      rw [hlog, List.mem_cons, inv.log_iff j]
      constructor
      · rintro (hj | ⟨hn, th', hth, hz'⟩)
        · subst hj
          exact ⟨hreg, th, by simp, hnz⟩
        · refine ⟨hn, th', ?_, hz'⟩
          have hj := (List.getElem?_eq_some.1 hth).1
          rw [List.getElem?_append_left hj]; exact hth
      · rintro ⟨hn, th', hth, hz'⟩
        by_cases hj : j < pre.length
        · right
          rw [List.getElem?_append_left hj] at hth
          exact ⟨hn, th', hth, hz'⟩
        · left
          have hj2 := (List.getElem?_eq_some.1 hth).1
          simp only [List.length_append, List.length_singleton] at hj2
          omega
    · intro j hj
      rw [hlog, List.mem_cons] at hj
      rw [hres]
      rcases hj with hj | hj
      · subst hj
        refine ⟨cur, by simp [List.getElem?_set, hlen], by rw [hcur, hx], ?_⟩
        rw [hcurn, hs, scan_num_snp_last]
      · have hjl := hlt j hj
        obtain ⟨r, hr1, hr2, hr3⟩ := inv.slot_r2 j hj
        refine ⟨r, ?_, by rw [hr2, hR j hj], by rw [hr3, scan_num_snp_append _ _ _ hjl]⟩
        rw [List.getElem?_set, if_neg (by omega)]
        exact hr1
    · intro j r hj hr
      simp only [List.length_append, List.length_singleton] at hj
      rw [hres, List.getElem?_set, if_neg (by omega)] at hr
      exact inv.untouched j r (by omega) hr
    · right
      rcases hbest with ⟨hb, hwhy⟩ | ⟨hb, hit, hpos, r, hr, hnlt⟩
      · refine ⟨pre.length, hb, by rw [hlog]; exact List.mem_cons_self _ _, ?_⟩
        intro j hj
        rw [hlog, List.mem_cons] at hj
        rcases hj with hj | hj
        · subst hj; exact ⟨le_refl _, fun _ => le_refl _⟩
        · rcases inv.best with ⟨hemp, _⟩ | ⟨b, hb1, hb2, hb3⟩
          · rw [hemp] at hj; exact absurd hj (List.not_mem_nil _)
          · have hbl := hlt b hb2
            have hlt_x : scan_r2 o.is_binary pre b < (fitted o.is_binary th).r2 := by
              rcases hwhy with h1 | h1 | ⟨r, hr, hrlt⟩
              · omega
              · rw [hb1] at h1; omega
              · obtain ⟨r', hr1, hr2, _⟩ := inv.slot_r2 b hb2
                rw [hb1, Int.toNat_ofNat, hr1] at hr
                simp only [Option.some.injEq] at hr
                subst hr
                rw [← hr2]; exact hrlt
            have hjb := (hb3 j hj).1
            rw [hR j hj, hx]
            exact ⟨le_of_lt (lt_of_le_of_lt hjb hlt_x),
              fun he => absurd (he ▸ lt_of_le_of_lt hjb hlt_x) (lt_irrefl _)⟩
      · rcases inv.best with ⟨_, hneg⟩ | ⟨b, hb1, hb2, hb3⟩
        · rw [hneg] at hpos; omega
        · have hbl := hlt b hb2
          obtain ⟨r', hr1, hr2, _⟩ := inv.slot_r2 b hb2
          rw [hb1, Int.toNat_ofNat, hr1] at hr
          simp only [Option.some.injEq] at hr
          subst hr
          rw [hr2] at hnlt
          refine ⟨b, by rw [hb, hb1], by rw [hlog]; exact List.mem_cons_of_mem _ hb2, ?_⟩
          intro j hj
          rw [hlog, List.mem_cons] at hj
          rw [hR b hb2]
          rcases hj with hj | hj
          · subst hj
            rw [hx]
            exact ⟨not_lt.1 hnlt, fun _ => le_of_lt hbl⟩
          · rw [hR j hj]; exact hb3 j hj

theorem ScanInv.congr {o : Options} {pre : List Threshold} {s t : PRSice}
    (inv : ScanInv o pre s) (h1 : t.regressed = s.regressed)
    (h2 : t.m_prs_results = s.m_prs_results) (h3 : t.m_best_index = s.m_best_index) :
    ScanInv o pre t := by
  constructor
  · rw [h1]; exact inv.log_iff
  · rw [h1, h2]; exact inv.slot_r2
  · rw [h2]; exact inv.untouched
  · rw [h1, h3]; exact inv.best

theorem regress_score_skip (s : PRSice) (th : Threshold) (binary : Bool)
    (num_sample it : Nat) (h : s.m_num_snp_included = 0) :
    regress_score s th binary num_sample it = some s := by
  simp [regress_score, h]

theorem run_prsice_loop_inv (o : Options) (rest : List Threshold) :
    ∀ (pre : List Threshold) (s t : PRSice), ScanInv o pre s →
      run_prsice_loop o s pre.length rest = Outcome.ok t → ScanInv o (pre ++ rest) t := by
  induction rest with
  | nil =>
    intro pre s t inv h
    simp only [run_prsice_loop, Outcome.ok.injEq] at h
    subst h
    simpa using inv
  | cons th rest ih =>
    intro pre s t inv h
    have hpre : (pre ++ [th]).length = pre.length + 1 := by simp
    rw [show pre ++ th :: rest = (pre ++ [th]) ++ rest by simp]
    simp only [run_prsice_loop] at h
    split at h
    · rename_i hno
      rw [← hpre] at h
      refine ih _ _ _ ?_ h
      exact inv.skip (Or.inl hno) rfl rfl rfl
    · rename_i hno
      split at h
      · exact absurd h (by simp)
      · rename_i s2 hs2
        have inv2 : ScanInv o (pre ++ [th]) s2 := by
          by_cases hz : th.num_snp_included = 0
          · rw [regress_score_skip _ _ _ _ _ hz] at hs2
            simp only [Option.some.injEq] at hs2
            subst hs2
            exact inv.skip (Or.inr hz) rfl rfl rfl
          · refine ScanInv.run ?_ (by simpa using hno) hz ?_ hs2
            · exact inv.congr rfl rfl rfl
            · rfl
        split at h
        · rename_i s3 hs3
          rw [← hpre] at h
          refine ih _ _ _ ?_ h
          split at hs3
          · exact inv2.of_frame (permutation_frame _ _ _ _ _ hs3)
          · simp only [Outcome.ok.injEq] at hs3
            subst hs3
            exact inv2
        · rename_i hne
          exact (hne t h).elim

theorem run_prsice_reset_inv (s : PRSice) (o : Options) :
    ScanInv o [] (run_prsice_reset s o.num_threshold o.num_sample) := by
  constructor
  · intro j; simp [run_prsice_reset]
  · intro j hj; simp [run_prsice_reset] at hj
  · intro j r _ hr
    simp only [run_prsice_reset, List.getElem?_map, Option.map_eq_some'] at hr
    obtain ⟨a, _, ha⟩ := hr
    rw [← ha]
  · left; exact ⟨rfl, rfl⟩

theorem regress_score_returns {o : Options} {pre : List Threshold} {s : PRSice}
    (inv : ScanInv o pre s) (th : Threshold) (binary : Bool) (num_sample : Nat)
    (hlen : pre.length < s.m_prs_results.length) :
    ∃ t, regress_score s th binary num_sample pre.length = some t ∧
      t.m_prs_results.length = s.m_prs_results.length := by
  by_cases h0 : s.m_num_snp_included = 0
  · exact ⟨s, regress_score_skip _ _ _ _ _ h0, rfl⟩
  · have hslot : s.m_prs_results[pre.length]? = some s.m_prs_results[pre.length] :=
      List.getElem?_eq_getElem hlen
    simp only [regress_score, if_neg h0, hslot]
    split
    · exact ⟨s, rfl, rfl⟩
    · have hb : ∃ b, (if pre.length = 0 ∨ s.m_best_index < 0 then some true
          else (s.m_prs_results[s.m_best_index.toNat]?).map
            (fun b => decide (b.r2 < (fitted binary th).r2))) = some b := by
        split
        · exact ⟨true, rfl⟩
        · rename_i hc
          push_neg at hc
          rcases inv.best with ⟨_, hneg⟩ | ⟨b, hb1, hb2, _⟩
          · rw [hneg] at hc; omega
          · obtain ⟨r, hr, _⟩ := inv.slot_r2 b hb2
            rw [hb1, Int.toNat_ofNat, hr]
            exact ⟨_, rfl⟩
      obtain ⟨b, hb⟩ := hb
      rw [hb]
      exact ⟨_, rfl, by simp⟩

theorem run_prsice_loop_returns (o : Options) (hperm : o.permutation = 0)
    (rest : List Threshold) :
    ∀ (pre : List Threshold) (s : PRSice), ScanInv o pre s →
      pre.length + rest.length ≤ s.m_prs_results.length →
      ∃ t, run_prsice_loop o s pre.length rest = Outcome.ok t := by
  induction rest with
  | nil => intro pre s _ _; exact ⟨s, rfl⟩
  | cons th rest ih =>
    intro pre s inv hlen
    have hpre : (pre ++ [th]).length = pre.length + 1 := by simp
    simp only [List.length_cons] at hlen
    simp only [run_prsice_loop]
    split
    · rename_i hno
      rw [← hpre]
      refine ih _ _ ?_ ?_
      · exact inv.skip (Or.inl hno) rfl rfl rfl
      · rw [hpre]; simp only; omega
    · rename_i hno
      have inv1 : ScanInv o pre { s with m_num_snp_included := th.num_snp_included
                                         m_analysis_done := s.m_analysis_done + 1 } :=
        inv.congr rfl rfl rfl
      obtain ⟨s2, hs2, hl2⟩ :=
        regress_score_returns inv1 th o.is_binary o.num_sample (by simp only; omega)
      rw [hs2]
      simp only [hperm, ne_eq, not_true_eq_false, if_false]
      rw [← hpre]
      refine ih _ _ ?_ ?_
      · by_cases hz : th.num_snp_included = 0
        · rw [regress_score_skip _ _ _ _ _ hz] at hs2
          simp only [Option.some.injEq] at hs2
          subst hs2
          exact inv.skip (Or.inr hz) rfl rfl rfl
        · exact ScanInv.run inv1 (by simpa using hno) hz rfl hs2
      · rw [hpre, hl2]; simp only; omega

/-- The scan returns when `get_score` delivers at most `num_threshold` thresholds
and no permutation is requested. -/
theorem run_prsice_scan_returns (s : PRSice) (o : Options) (ths : List Threshold)
    (hlen : ths.length ≤ o.num_threshold) (hperm : o.permutation = 0) :
    ∃ t, run_prsice_scan s o ths = Outcome.ok t := by
  have h := run_prsice_loop_returns o hperm ths [] _ (run_prsice_reset_inv s o)
    (by simp [run_prsice_reset, resize]; omega)
  simpa [run_prsice_scan] using h

theorem run_prsice_scan_inv (s t : PRSice) (o : Options) (ths : List Threshold)
    (h : run_prsice_scan s o ths = Outcome.ok t) : ScanInv o ths t := by
  have := run_prsice_loop_inv o ths [] _ t (run_prsice_reset_inv s o) h
  simpa using this

/-! ## C1: the best model is the first maximum of r2 -/

/-- C1. Whenever the scan of `run_prsice` (reset, then one `regress_score` per
threshold) returns, `m_best_index` is `-1` exactly when no threshold reached the
regression call; otherwise it is a threshold that reached it, no such threshold
has a greater `r2`, and every such threshold with the same `r2` comes later.  The
`r2` of a threshold is the value `regress_score` holds after its regression call
and records in the result slot (`0` when a binary fit threw).  The thresholds
that reach the regression call are those with a non-zero SNP count in a scan with
regression; the thresholds `regress_score` skips occur nowhere in the
characterisation. -/
theorem best_index_first_maximum (s0 : PRSice) (o : Options) (ths : List Threshold)
    (t : PRSice) (h : run_prsice_scan s0 o ths = Outcome.ok t) :
    (t.m_best_index = -1 ↔ t.regressed = []) ∧
    (∀ j ∈ t.regressed, j < ths.length ∧
      ∃ r, t.m_prs_results[j]? = some r ∧ r.r2 = scan_r2 o.is_binary ths j) ∧
    (t.regressed ≠ [] →
      ∃ b : Nat, t.m_best_index = (b : Int) ∧ b ∈ t.regressed ∧
        (∀ j ∈ t.regressed, scan_r2 o.is_binary ths j ≤ scan_r2 o.is_binary ths b) ∧
        (∀ j ∈ t.regressed,
          scan_r2 o.is_binary ths j = scan_r2 o.is_binary ths b → b ≤ j)) ∧
    (∀ j, j ∈ t.regressed ↔
      (o.no_regress = false ∧ ∃ th, ths[j]? = some th ∧ th.num_snp_included ≠ 0)) := by
  have inv := run_prsice_scan_inv s0 t o ths h
  refine ⟨?_, ?_, ?_, inv.log_iff⟩
  · rcases inv.best with ⟨he, hb⟩ | ⟨b, hb1, hb2, _⟩
    · exact ⟨fun _ => he, fun _ => hb⟩
    · constructor
      · intro hneg; rw [hb1] at hneg; omega
      · intro he; rw [he] at hb2; exact absurd hb2 (List.not_mem_nil _)
  · intro j hj
    obtain ⟨r, hr1, hr2, _⟩ := inv.slot_r2 j hj
    exact ⟨inv.log_lt hj, r, hr1, hr2⟩
  · intro hne
    rcases inv.best with ⟨he, _⟩ | ⟨b, hb1, hb2, hb3⟩
    · exact absurd he hne
    · exact ⟨b, hb1, hb2, fun j hj => (hb3 j hj).1, fun j hj => (hb3 j hj).2⟩

/-- C1 at `example_scan`, three computed thresholds with r2 `0, 1, 1`: the best
index is 1, the earlier of the two maxima. -/
theorem best_index_first_maximum_witness :
    ∃ t, run_prsice_scan example_object example_options example_scan = Outcome.ok t ∧
      t.m_best_index = 1 ∧ t.regressed = [2, 1, 0] ∧
      (t.m_best_index = -1 ↔ t.regressed = []) ∧
      (t.regressed ≠ [] →
        ∃ b : Nat, t.m_best_index = (b : Int) ∧ b ∈ t.regressed ∧
          (∀ j ∈ t.regressed, scan_r2 false example_scan j ≤ scan_r2 false example_scan b) ∧
          (∀ j ∈ t.regressed,
            scan_r2 false example_scan j = scan_r2 false example_scan b → b ≤ j)) :=
  ⟨_, rfl, rfl, rfl,
    (best_index_first_maximum example_object example_options example_scan _ rfl).1,
    (best_index_first_maximum example_object example_options example_scan _ rfl).2.2.1⟩

/-! ## C2: an unchanged SNP count does not skip the regression -/

/-- During a scan `regress_score` calls the regression provider at every
threshold with a non-zero SNP count, whatever the count of the threshold before:
the slot it compares with was reset to `num_snp = 0` by `run_prsice`. -/
theorem regressed_iff_nonzero_count (s0 : PRSice) (o : Options) (ths : List Threshold)
    (t : PRSice) (h : run_prsice_scan s0 o ths = Outcome.ok t) (j : Nat) :
    j ∈ t.regressed ↔
      (o.no_regress = false ∧ ∃ th, ths[j]? = some th ∧ th.num_snp_included ≠ 0) :=
  (run_prsice_scan_inv s0 t o ths h).log_iff j

/-- C2 (code at the failing input). With SNP counts 10/50/50 and the same fit at
the second and third threshold, the scan calls the regression provider at all
three thresholds and fills the third result slot. -/
theorem unchanged_count_is_regressed :
    ∃ t, run_prsice_scan example_object example_options
        [example_threshold 10 0, example_threshold 50 1, example_threshold 50 1]
          = Outcome.ok t ∧
      t.regressed = [2, 1, 0] ∧
      t.m_prs_results.map (fun r => (r.num_snp, r.r2, r.emp_p)) =
        [(10, 0, -1), (50, 1, -1), (50, 1, -1)] ∧
      t.m_best_index = 1 :=
  ⟨_, rfl, rfl, rfl, rfl⟩

/-! ## C3 and C4: the empirical p-value -/

theorem run_prsice_reset_perm_length (s : PRSice) (num_threshold num_sample : Nat) :
    (run_prsice_reset s num_threshold num_sample).m_perm_result.length = s.m_num_perm := by
  simp only [run_prsice_reset, resize, List.length_append, List.length_take,
    List.length_replicate]
  omega

/-- What `process_permutations` does when the best index points into
`m_prs_results`. -/
theorem process_permutations_set (s : PRSice) (b : Nat) (best : prsice_result)
    (hb : s.m_best_index = (b : Int)) (hbest : s.m_prs_results[b]? = some best) :
    process_permutations s = some { s with
      m_prs_results := s.m_prs_results.set b { best with
        emp_p := ((s.m_perm_result.countP
            (fun x => decide (x > best.coefficient / best.se)) : ℚ) + 1)
          / ((s.m_num_perm : ℚ) + 1) } } := by
  have h1 : ¬ s.m_best_index = -1 := by rw [hb]; omega
  have h2 : ¬ s.m_best_index < 0 := by rw [hb]; omega
  unfold process_permutations
  rw [if_neg h1, if_neg h2]
  simp only [hb, Int.toNat_ofNat, hbest]

theorem process_permutations_slot (s : PRSice) (b : Nat) (best : prsice_result)
    (hbest : s.m_prs_results[b]? = some best) (r : prsice_result) :
    (s.m_prs_results.set b r)[b]? = some r := by
  have hlt : b < s.m_prs_results.length := (List.getElem?_eq_some.1 hbest).1
  simp [List.getElem?_set, hlt]

/-- C3. When the best index points to the result `best`, `process_permutations`
returns, replaces the `emp_p` of that result by `(k + 1) / (m_num_perm + 1)` with
`k` the number of entries of `m_perm_result` strictly greater than
`best.coefficient / best.se`, and changes no other result and no other member;
with the best index at `-1` it returns the object as it was. -/
theorem process_permutations_emp_p (s : PRSice) (b : Nat) (best : prsice_result)
    (hb : s.m_best_index = (b : Int)) (hbest : s.m_prs_results[b]? = some best) :
    (∃ t, process_permutations s = some t ∧
      t.m_prs_results[b]? = some { best with
        emp_p := ((s.m_perm_result.countP
            (fun x => decide (best.coefficient / best.se < x)) : ℚ) + 1)
          / ((s.m_num_perm : ℚ) + 1) } ∧
      (∀ j, j ≠ b → t.m_prs_results[j]? = s.m_prs_results[j]?) ∧
      t.m_prs_results.length = s.m_prs_results.length ∧
      t = { s with m_prs_results := t.m_prs_results }) ∧
    process_permutations { s with m_best_index := -1 } = some { s with m_best_index := -1 } := by
  have hlt : b < s.m_prs_results.length := (List.getElem?_eq_some.1 hbest).1
  refine ⟨⟨_, process_permutations_set s b best hb hbest, ?_, ?_, ?_, rfl⟩, ?_⟩
  · exact process_permutations_slot s b best hbest _
  · intro j hj
    simp only [List.getElem?_set, if_neg (Ne.symm hj)]
  · simp
  · simp [process_permutations]

/-- C3 at `example_scanned`: one null statistic exceeds `2`, so `emp_p = 2/4`. -/
theorem process_permutations_emp_p_witness :
    (∃ t, process_permutations example_scanned = some t ∧
      t.m_prs_results[1]? = some { (⟨1, 1, 0, 2, 0, -1, 1, -1, 50⟩ : prsice_result) with
        emp_p := (((([1, 3, 2] : List ℚ).countP
            (fun x => decide ((2 : ℚ) / 1 < x)) : ℕ) : ℚ) + 1) / (((3 : ℕ) : ℚ) + 1) } ∧
      (∀ j, j ≠ 1 → t.m_prs_results[j]? = example_scanned.m_prs_results[j]?) ∧
      t.m_prs_results.length = example_scanned.m_prs_results.length ∧
      t = { example_scanned with m_prs_results := t.m_prs_results }) ∧
    process_permutations { example_scanned with m_best_index := -1 }
      = some { example_scanned with m_best_index := -1 } :=
  process_permutations_emp_p example_scanned 1 ⟨1, 1, 0, 2, 0, -1, 1, -1, 50⟩ rfl rfl

/-- C4. When `m_perm_result` has `m_num_perm` entries, as `run_prsice` sizes it,
the `emp_p` written by `process_permutations` lies between `1 / (m_num_perm + 1)`
and `1`, hence in `(0, 1]`, whatever the entries are, and it equals
`1 / (m_num_perm + 1)` exactly when no entry is greater than the observed
statistic `best.coefficient / best.se`. -/
theorem emp_p_bounds (s : PRSice) (b : Nat) (best : prsice_result)
    (hb : s.m_best_index = (b : Int)) (hbest : s.m_prs_results[b]? = some best)
    (hlen : s.m_perm_result.length = s.m_num_perm) :
    ∃ t r, process_permutations s = some t ∧ t.m_prs_results[b]? = some r ∧
      1 / ((s.m_num_perm : ℚ) + 1) ≤ r.emp_p ∧ r.emp_p ≤ 1 ∧ 0 < r.emp_p ∧
      (r.emp_p = 1 / ((s.m_num_perm : ℚ) + 1) ↔
        ∀ x ∈ s.m_perm_result, ¬ best.coefficient / best.se < x) := by
  have hlt : b < s.m_prs_results.length := (List.getElem?_eq_some.1 hbest).1
  refine ⟨_, _, process_permutations_set s b best hb hbest,
    process_permutations_slot s b best hbest _, ?_⟩
  have hN : (0 : ℚ) < (s.m_num_perm : ℚ) + 1 := by positivity
  have hk : s.m_perm_result.countP (fun x => decide (x > best.coefficient / best.se))
      ≤ s.m_num_perm := by
    rw [← hlen]; exact List.countP_le_length _
  have hkq : ((s.m_perm_result.countP
      (fun x => decide (x > best.coefficient / best.se)) : ℕ) : ℚ) ≤ (s.m_num_perm : ℚ) := by
    exact_mod_cast hk
  simp only
  refine ⟨?_, ?_, ?_, ?_⟩
  · apply div_le_div_of_nonneg_right _ (le_of_lt hN)
    have : (0 : ℚ) ≤ ((s.m_perm_result.countP
      (fun x => decide (x > best.coefficient / best.se)) : ℕ) : ℚ) := by positivity
    linarith
  · rw [div_le_one hN]; linarith
  · positivity
  · rw [div_left_inj' (ne_of_gt hN)]
    constructor
    · intro h
      have h0 : s.m_perm_result.countP
          (fun x => decide (x > best.coefficient / best.se)) = 0 := by
        have : ((s.m_perm_result.countP
          (fun x => decide (x > best.coefficient / best.se)) : ℕ) : ℚ) = 0 := by linarith
        exact_mod_cast this
      intro x hx
      have := (List.countP_eq_zero.1 h0) x hx
      simpa using this
    · intro h
      have h0 : s.m_perm_result.countP
          (fun x => decide (x > best.coefficient / best.se)) = 0 := by
        rw [List.countP_eq_zero]
        intro x hx
        simpa using h x hx
      rw [h0]; simp

/-- C4 at `example_scanned`, whose three null statistics are `1, 3, 2`. -/
theorem emp_p_bounds_witness :
    ∃ t r, process_permutations example_scanned = some t ∧
      t.m_prs_results[1]? = some r ∧
      1 / (((3 : ℕ) : ℚ) + 1) ≤ r.emp_p ∧ r.emp_p ≤ 1 ∧ 0 < r.emp_p ∧
      (r.emp_p = 1 / (((3 : ℕ) : ℚ) + 1) ↔
        ∀ x ∈ ([1, 3, 2] : List ℚ), ¬ (2 : ℚ) / 1 < x) :=
  emp_p_bounds example_scanned 1 ⟨1, 1, 0, 2, 0, -1, 1, -1, 50⟩ rfl rfl rfl

/-! ## C7 and C10: `gen_perm_memory` -/

theorem resize_length {α : Type} (l : List α) (n : Nat) (v : α) :
    (resize l n v).length = n := by
  simp only [resize, List.length_append, List.length_take, List.length_replicate]
  omega

theorem half_margin_of_le (v u : Nat) (h : u ≤ v) :
    half_margin v u = (((v - u) / 2 : Nat) : Int) := by
  have : (v : Int) - u = ((v - u : Nat) : Int) := by omega
  rw [half_margin, this]
  rfl

theorem half_margin_of_lt (v u : Nat) (h : v < u) :
    half_margin v u = -(((u - v) / 2 : Nat) : Int) := by
  have : (v : Int) - u = -((u - v : Nat) : Int) := by omega
  rw [half_margin, this, Int.neg_tdiv]
  rfl

theorem half_margin_lt_pow (v u : Nat) (hv : v < 2 ^ 64) : half_margin v u < 2 ^ 63 := by
  rcases Nat.lt_or_ge v u with h | h
  · rw [half_margin_of_lt v u h]; omega
  · rw [half_margin_of_le v u h]; omega

theorem to_intptr_of_small (n : Int) (h0 : 0 ≤ n) (h1 : n < 2 ^ 63) : to_intptr n = n := by
  unfold to_intptr; omega

/-- The error of `gen_perm_memory` is raised exactly when the halved margin is
negative, and then the object is as it was. -/
theorem gen_perm_memory_thrown_iff (s : PRSice) (sample_ct valid_memory used max_size : Nat)
    (w : String) (t : PRSice) :
    gen_perm_memory s sample_ct valid_memory used max_size = Outcome.thrown w t ↔
      (half_margin valid_memory used < 0 ∧
        w = "Error: Insufficient memory for permutation!" ∧ t = s) := by
  unfold gen_perm_memory
  simp only
  split
  · rename_i h
    simp only [Outcome.thrown.injEq, h, true_and]
    constructor
    · rintro ⟨h1, h2⟩; exact ⟨h1.symm, h2.symm⟩
    · rintro ⟨h1, h2⟩; exact ⟨h1.symm, h2.symm⟩
  · rename_i h
    simp only [h, false_and, iff_false]
    split
    · simp
    · split
      · split <;> simp
      · simp

/-- What `gen_perm_memory` does when the halved margin is not negative and the
chosen slice fits the storage. -/
theorem gen_perm_memory_ok (s : PRSice) (sample_ct valid_memory used max_size chosen : Nat)
    (h0 : 0 ≤ half_margin valid_memory used)
    (hc : perm_per_slice_choice (half_margin valid_memory used)
      (to_intptr (((8 * sample_ct) % 2 ^ 64 : Nat) : Int))
      (to_intptr (to_intptr (((8 * sample_ct) % 2 ^ 64 : Nat) : Int) * (s.m_num_perm : Int)))
      s.m_num_perm = some chosen)
    (hfit : chosen * sample_ct < 2 ^ 64) (hmax : chosen * sample_ct ≤ max_size) :
    gen_perm_memory s sample_ct valid_memory used max_size = Outcome.ok { s with
      m_perm_per_slice := chosen
      m_permuted_pheno := resize s.m_permuted_pheno (sample_ct * chosen) 0 } := by
  unfold gen_perm_memory
  simp only [if_neg (not_lt.2 h0), hc]
  have h1 : (chosen * sample_ct) % 2 ^ 64 = chosen * sample_ct := Nat.mod_eq_of_lt hfit
  have h2 : (sample_ct * chosen) % 2 ^ 64 = sample_ct * chosen := by
    rw [Nat.mul_comm]; exact h1
  rw [h1, if_neg (not_lt.2 hmax), h2]

/-- C7 (counterexample). With 100 samples, a budget of 100 bytes and no memory in
use, half the margin is 50, less than the 800 bytes of one replicate, and the
call returns with one permutation per slice and a storage of 100 entries. -/
theorem gen_perm_memory_small_margin_returns :
    half_margin 100 0 < 8 * 100 ∧
    ∃ t, gen_perm_memory example_object 100 100 0 (2 ^ 60 - 1) = Outcome.ok t ∧
      t.m_perm_per_slice = 1 ∧ t.m_permuted_pheno.length = 100 :=
  ⟨by decide, _, rfl, rfl, rfl⟩

/-- C7 (amended). `gen_perm_memory` fails with the insufficient-memory error,
leaving the object and so the permutation storage as they were, exactly when half
of (budget - current usage) is negative.  When that half is not negative but
smaller than the footprint `8 * sample_ct` of one replicate, the call returns
with `m_perm_per_slice = 1` and a storage of `sample_ct` entries. -/
theorem gen_perm_memory_fails_iff_negative (s : PRSice)
    (sample_ct valid_memory used max_size : Nat) :
    (gen_perm_memory s sample_ct valid_memory used max_size
        = Outcome.thrown "Error: Insufficient memory for permutation!" s ↔
      half_margin valid_memory used < 0) ∧
    (∀ w t, gen_perm_memory s sample_ct valid_memory used max_size = Outcome.thrown w t →
      t = s) ∧
    (0 ≤ half_margin valid_memory used →
      half_margin valid_memory used < 8 * (sample_ct : Int) →
      8 * sample_ct < 2 ^ 63 → sample_ct ≤ max_size →
      ∃ t, gen_perm_memory s sample_ct valid_memory used max_size = Outcome.ok t ∧
        t.m_perm_per_slice = 1 ∧ t.m_permuted_pheno.length = sample_ct) := by
  refine ⟨?_, ?_, ?_⟩
  · rw [gen_perm_memory_thrown_iff]
    exact ⟨fun h => h.1, fun h => ⟨h, rfl, rfl⟩⟩
  · intro w t h
    exact ((gen_perm_memory_thrown_iff _ _ _ _ _ _ _).1 h).2.2
  · intro h0 hsmall hsc hms
    have hmin : to_intptr (((8 * sample_ct) % 2 ^ 64 : Nat) : Int) = 8 * (sample_ct : Int) := by
      rw [Nat.mod_eq_of_lt (by omega)]
      rw [to_intptr_of_small _ (by omega) (by omega)]
      omega
    have hc : perm_per_slice_choice (half_margin valid_memory used)
        (to_intptr (((8 * sample_ct) % 2 ^ 64 : Nat) : Int))
        (to_intptr (to_intptr (((8 * sample_ct) % 2 ^ 64 : Nat) : Int) * (s.m_num_perm : Int)))
        s.m_num_perm = some 1 := by
      rw [hmin]
      simp only [perm_per_slice_choice, if_pos hsmall]
    refine ⟨_, gen_perm_memory_ok s sample_ct valid_memory used max_size 1 h0 hc
      (by omega) (by omega), rfl, ?_⟩
    simp only [resize_length]
    omega

/-- C7 (amended) at 100 samples, a budget of 100 bytes and no memory in use. -/
theorem gen_perm_memory_fails_iff_negative_witness :
    ∃ t, gen_perm_memory example_object 100 100 0 (2 ^ 60 - 1) = Outcome.ok t ∧
        t.m_perm_per_slice = 1 ∧ t.m_permuted_pheno.length = 100 :=
  (gen_perm_memory_fails_iff_negative example_object 100 100 0 (2 ^ 60 - 1)).2.2
    (by decide) (by decide) (by decide) (by decide)

/-- C10 (counterexample). With no permutation requested, 100 samples, a budget of
200 bytes and no memory in use, half the margin is 100 and exceeds the total
footprint `8 * 100 * 0 = 0`, yet `m_perm_per_slice` becomes 1, not `m_num_perm = 0`,
and the storage gets 100 entries, not 0. -/
theorem gen_perm_memory_zero_perm_one_slice :
    (8 * 100 * 0 : Int) < half_margin 200 0 ∧
    ∃ t, gen_perm_memory { example_object with m_num_perm := 0 } 100 200 0 (2 ^ 60 - 1)
        = Outcome.ok t ∧
      t.m_num_perm = 0 ∧ t.m_perm_per_slice = 1 ∧ t.m_permuted_pheno.length = 100 :=
  ⟨by decide, _, rfl, rfl, rfl, rfl⟩

/-- C10 (amended). If half of (budget - current usage) exceeds the total
footprint `8 * sample_ct * m_num_perm` and is not smaller than the footprint
`8 * sample_ct` of one replicate (as it is whenever `m_num_perm ≥ 1`), then
`gen_perm_memory` returns with `m_perm_per_slice = m_num_perm` and a storage of
`sample_ct * m_num_perm` entries.  `valid_memory` is a `size_t` and `max_size` is
at least the bound `2 ^ 60 - 1` of a vector of doubles. -/
theorem gen_perm_memory_one_slice (s : PRSice) (sample_ct valid_memory used max_size : Nat)
    (hbig : 8 * (sample_ct : Int) * (s.m_num_perm : Int) < half_margin valid_memory used)
    (hone : 8 * (sample_ct : Int) ≤ half_margin valid_memory used)
    (hv : valid_memory < 2 ^ 64) (hmax : 2 ^ 60 - 1 ≤ max_size) :
    ∃ t, gen_perm_memory s sample_ct valid_memory used max_size = Outcome.ok t ∧
      t.m_perm_per_slice = s.m_num_perm ∧
      t.m_permuted_pheno.length = sample_ct * s.m_num_perm ∧
      t = { s with m_perm_per_slice := t.m_perm_per_slice
                   m_permuted_pheno := t.m_permuted_pheno } := by
  have hlt := half_margin_lt_pow valid_memory used hv
  have hP : (0 : Int) ≤ (sample_ct : Int) * (s.m_num_perm : Int) := by positivity
  have hassoc : 8 * (sample_ct : Int) * (s.m_num_perm : Int)
      = 8 * ((sample_ct : Int) * (s.m_num_perm : Int)) := by ring
  have h0 : 0 ≤ half_margin valid_memory used := by omega
  have hmin : to_intptr (((8 * sample_ct) % 2 ^ 64 : Nat) : Int) = 8 * (sample_ct : Int) := by
    rw [Nat.mod_eq_of_lt (by omega)]
    rw [to_intptr_of_small _ (by omega) (by omega)]
    omega
  have hreq : to_intptr (8 * (sample_ct : Int) * (s.m_num_perm : Int))
      = 8 * (sample_ct : Int) * (s.m_num_perm : Int) :=
    to_intptr_of_small _ (by omega) (by omega)
  have hc : perm_per_slice_choice (half_margin valid_memory used)
      (to_intptr (((8 * sample_ct) % 2 ^ 64 : Nat) : Int))
      (to_intptr (to_intptr (((8 * sample_ct) % 2 ^ 64 : Nat) : Int) * (s.m_num_perm : Int)))
      s.m_num_perm = some s.m_num_perm := by
    rw [hmin, hreq]
    simp only [perm_per_slice_choice, if_neg (not_lt.2 hone), gt_iff_lt, if_pos hbig]
  have hprod : s.m_num_perm * sample_ct < 2 ^ 60 := by
    have : ((s.m_num_perm * sample_ct : Nat) : Int)
        = (sample_ct : Int) * (s.m_num_perm : Int) := by push_cast; ring
    omega
  refine ⟨_, gen_perm_memory_ok s sample_ct valid_memory used max_size s.m_num_perm h0 hc
    (by omega) (by omega), rfl, ?_, rfl⟩
  simp only [resize_length]

/-- C10 (amended) at 100 samples, 3 permutations, a budget of 10000 bytes. -/
theorem gen_perm_memory_one_slice_witness :
    ∃ t, gen_perm_memory example_object 100 10000 0 (2 ^ 60 - 1) = Outcome.ok t ∧
      t.m_perm_per_slice = 3 ∧
      t.m_permuted_pheno.length = 100 * 3 ∧
      t = { example_object with m_perm_per_slice := t.m_perm_per_slice
                                m_permuted_pheno := t.m_permuted_pheno } :=
  gen_perm_memory_one_slice example_object 100 10000 0 (2 ^ 60 - 1)
    (by decide) (by decide) (by decide) (by decide)

/-! ## Counting in the competitive test -/

theorem count_exceed_spec (ori_t_value : List ℚ) (t_value : ℚ) (refs : List Nat) :
    ∀ (res res1 : List Nat), count_exceed ori_t_value t_value res refs = some res1 →
      res1.length = res.length ∧
      (∀ j, (res1[j]?.getD 0) % 2 ^ 32
        = (res[j]?.getD 0 + refs.count j * exceeds ori_t_value j t_value) % 2 ^ 32) ∧
      ((∀ c ∈ res, c < 2 ^ 32) → ∀ c ∈ res1, c < 2 ^ 32) := by
  induction refs with
  | nil =>
    intro res res1 h
    simp only [count_exceed, Option.some.injEq] at h
    subst h
    simp
  | cons ref rest ih =>
    intro res res1 h
    simp only [count_exceed] at h
    split at h
    · rename_i ori c hori hc
      obtain ⟨h1, h2, h3⟩ := ih _ _ h
      have hlt : ref < res.length := (List.getElem?_eq_some.1 hc).1
      refine ⟨by rw [h1, List.length_set], ?_, ?_⟩
      · intro j
        rw [h2 j, List.getElem?_set, List.count_cons]
        by_cases hj : ref = j
        · subst hj
          have he : exceeds ori_t_value ref t_value = if ori < t_value then 1 else 0 := by
            simp only [exceeds, hori]
          simp only [if_true, if_pos hlt, Option.getD_some, hc, beq_self_eq_true, he]
          generalize List.count ref rest = k
          split <;> simp only [Nat.mul_one, Nat.mul_zero, Nat.add_zero] <;> omega
        · have hb : (ref == j) = false := by simpa using hj
          simp only [if_neg hj, hb, Bool.false_eq_true, if_false, Nat.add_zero]
      · intro hall
        apply h3
        intro x hx
        rcases List.mem_or_eq_of_mem_set hx with hx | hx
        · exact hall x hx
        · rw [hx]; exact Nat.mod_lt _ (by norm_num)
    · exact absurd h (by simp)

theorem null_set_sizes_spec (e : Background) (ori_t_value : List ℚ) (perm : Nat)
    (groups : List (Nat × List Nat)) :
    ∀ (s : PRSice) (res : List Nat) (s1 : PRSice) (res1 : List Nat),
      null_set_sizes e ori_t_value perm s res groups = Outcome.ok (s1, res1) →
      res1.length = res.length ∧
      (∀ j, (res1[j]?.getD 0) % 2 ^ 32
        = (res[j]?.getD 0
            + occurrences groups j (exceeds_in e ori_t_value j perm)) % 2 ^ 32) ∧
      ((∀ c ∈ res, c < 2 ^ 32) → ∀ c ∈ res1, c < 2 ^ 32) ∧
      s1.m_prs_summary = s.m_prs_summary ∧ s1.set_perm_threads = s.set_perm_threads := by
  induction groups with
  | nil =>
    intro s res s1 res1 h
    simp only [null_set_sizes, Outcome.ok.injEq, Prod.mk.injEq] at h
    obtain ⟨h1, h2⟩ := h
    subst h1 h2
    simp [occurrences]
  | cons g rest ih =>
    intro s res s1 res1 h
    obtain ⟨size, refs⟩ := g
    simp only [null_set_sizes] at h
    split at h
    · exact absurd h (by simp)
    · rename_i t_value ht
      split at h
      · exact absurd h (by simp)
      · rename_i res2 hres2
        obtain ⟨h1, h2, h3⟩ := count_exceed_spec ori_t_value t_value refs res res2 hres2
        obtain ⟨k1, k2, k3, k4, k5⟩ := ih _ _ _ _ h
        refine ⟨by rw [k1, h1], ?_, fun hall => k3 (h3 hall), by rw [k4], by rw [k5]⟩
        intro j
        rw [k2 j]
        have he : exceeds_in e ori_t_value j perm size = exceeds ori_t_value j t_value := by
          simp only [exceeds_in, ht]
        simp only [occurrences, he]
        have := h2 j
        omega

theorem null_set_perms_spec (e : Background) (set_index : List (Nat × List Nat))
    (ori_t_value : List ℚ) (remaining : Nat) :
    ∀ (s : PRSice) (res : List Nat) (processed : Nat) (s1 : PRSice) (res1 : List Nat),
      null_set_perms e set_index ori_t_value s res processed remaining
        = Outcome.ok (s1, res1) →
      res1.length = res.length ∧
      (∀ j, (res1[j]?.getD 0) % 2 ^ 32
        = (res[j]?.getD 0
            + ((List.range' processed remaining).map
                (fun perm => occurrences set_index j
                  (exceeds_in e ori_t_value j perm))).sum) % 2 ^ 32) ∧
      ((∀ c ∈ res, c < 2 ^ 32) → ∀ c ∈ res1, c < 2 ^ 32) ∧
      s1.m_prs_summary = s.m_prs_summary ∧ s1.set_perm_threads = s.set_perm_threads := by
  induction remaining with
  | zero =>
    intro s res processed s1 res1 h
    simp only [null_set_perms, Outcome.ok.injEq, Prod.mk.injEq] at h
    obtain ⟨h1, h2⟩ := h
    subst h1 h2
    simp
  | succ n ih =>
    intro s res processed s1 res1 h
    simp only [null_set_perms] at h
    split at h
    · rename_i s2 res2 hstep
      obtain ⟨h1, h2, h3, h4, h5⟩ :=
        null_set_sizes_spec e ori_t_value processed set_index s res s2 res2 hstep
      obtain ⟨k1, k2, k3, k4, k5⟩ := ih _ _ _ _ _ h
      refine ⟨by rw [k1, h1], ?_, fun hall => k3 (h3 hall), by rw [k4, h4], by rw [k5, h5]⟩
      intro j
      rw [k2 j, List.range'_succ, List.map_cons, List.sum_cons]
      have := h2 j
      omega
    · rename_i hne
      exfalso
      cases hr : null_set_sizes e ori_t_value processed s res set_index with
      | ok p => exact hne p.1 p.2 (by rw [hr])
      | thrown w p => rw [hr] at h; exact absurd h (by simp)
      | terminated => rw [hr] at h; exact absurd h (by simp)
      | undefined => rw [hr] at h; exact absurd h (by simp)

theorem occurrences_map_push (m : List (Nat × List Nat)) (key idx j : Nat) (f : Nat → Nat) :
    occurrences (map_push m key idx) j f
      = occurrences m j f + (if j = idx then f key else 0) := by
  have hone : List.count j [idx] = if j = idx then 1 else 0 := by
    by_cases h : j = idx
    · subst h; simp
    · have : idx ≠ j := fun hh => h hh.symm
      simp [h, this]
  induction m with
  | nil =>
    simp only [map_push, occurrences, hone]
    split <;> simp
  | cons g rest ih =>
    obtain ⟨k, v⟩ := g
    simp only [map_push]
    split
    · simp only [occurrences, hone]
      split <;> simp
      omega
    · split
      · rename_i hk
        subst hk
        simp only [occurrences, List.count_append, hone]
        split <;> simp [Nat.add_mul]
        omega
      · simp only [occurrences, ih]
        omega

theorem collect_sets_spec (sets : List prsice_result) :
    (List.foldl
      (fun (acc : List (Nat × List Nat) × List ℚ × List Nat) (res : prsice_result) =>
        (map_push acc.1 res.num_snp acc.2.1.length,
         acc.2.1 ++ [|res.coefficient / res.se|],
         acc.2.2 ++ [0]))
      ([], [], []) sets).2.1 = sets.map (fun r => |r.coefficient / r.se|) ∧
    (List.foldl
      (fun (acc : List (Nat × List Nat) × List ℚ × List Nat) (res : prsice_result) =>
        (map_push acc.1 res.num_snp acc.2.1.length,
         acc.2.1 ++ [|res.coefficient / res.se|],
         acc.2.2 ++ [0]))
      ([], [], []) sets).2.2 = List.replicate sets.length 0 ∧
    ∀ (j : Nat) (f : Nat → Nat),
      occurrences (List.foldl
        (fun (acc : List (Nat × List Nat) × List ℚ × List Nat) (res : prsice_result) =>
          (map_push acc.1 res.num_snp acc.2.1.length,
           acc.2.1 ++ [|res.coefficient / res.se|],
           acc.2.2 ++ [0]))
        ([], [], []) sets).1 j f
      = match sets[j]? with
        | some r => f r.num_snp
        | none => 0 := by
  induction sets using List.reverseRecOn with
  | nil => simp [occurrences]
  | append_singleton l a ih =>
    obtain ⟨h1, h2, h3⟩ := ih
    rw [List.foldl_append]
    simp only [List.foldl_cons, List.foldl_nil]
    refine ⟨?_, ?_, ?_⟩
    · rw [h1]; simp
    · rw [h2]; simp [List.replicate_succ']
    · intro j f
      rw [occurrences_map_push, h3 j f, h1, List.length_map]
      by_cases hj : j < l.length
      · rw [List.getElem?_append_left hj, if_neg (by omega)]
        simp
      · by_cases hj2 : j = l.length
        · subst hj2
          simp
        · have hgt : l.length < j := by omega
          have h4 : l[j]? = none := List.getElem?_eq_none (by omega)
          have h5 : (l ++ [a])[j]? = none :=
            List.getElem?_eq_none (by simp; omega)
          rw [h4, h5, if_neg hj2]

theorem sum_exceeds_in (e : Background) (ori_t_value : List ℚ) (j : Nat) (ori : ℚ)
    (size : Nat) (ho : ori_t_value[j]? = some ori) (l : List Nat) :
    (l.map (fun perm => exceeds_in e ori_t_value j perm size)).sum
      = l.countP
        (fun perm =>
          match set_statistic e perm size with
          | some t_value => decide (ori < t_value)
          | none => false) := by
  induction l with
  | nil => simp
  | cons p rest ih =>
    rw [List.map_cons, List.sum_cons, ih, List.countP_cons]
    have : exceeds_in e ori_t_value j p size
        = if (match set_statistic e p size with
              | some t_value => decide (ori < t_value)
              | none => false) = true then 1 else 0 := by
      simp only [exceeds_in, exceeds, ho]
      cases set_statistic e p size with
      | none => simp
      | some t => simp
    rw [this]
    omega

theorem exceed_count_le (e : Background) (ori : ℚ) (size num_perm : Nat) :
    exceed_count e ori size num_perm ≤ num_perm := by
  unfold exceed_count
  calc _ ≤ (List.range num_perm).length := List.countP_le_length _
    _ = num_perm := List.length_range _

theorem null_set_no_thread_counts (s : PRSice) (e : Background) (base : prsice_result)
    (sets : List prsice_result) (hsum : s.m_prs_summary = base :: sets) (num_perm : Nat)
    (hN : num_perm < 2 ^ 32) (s1 : PRSice) (res : List Nat)
    (h : null_set_no_thread s e (collect_sets s.m_prs_summary).1
      (collect_sets s.m_prs_summary).2.1 (collect_sets s.m_prs_summary).2.2 num_perm
        = Outcome.ok (s1, res)) :
    res = sets.map (fun r => exceed_count e |r.coefficient / r.se| r.num_snp num_perm) ∧
    s1.m_prs_summary = s.m_prs_summary ∧ s1.set_perm_threads = s.set_perm_threads := by
  obtain ⟨c1, c2, c3⟩ := collect_sets_spec sets
  have hcol : collect_sets s.m_prs_summary = List.foldl
      (fun (acc : List (Nat × List Nat) × List ℚ × List Nat) (res : prsice_result) =>
        (map_push acc.1 res.num_snp acc.2.1.length,
         acc.2.1 ++ [|res.coefficient / res.se|],
         acc.2.2 ++ [0]))
      ([], [], []) sets := by
    rw [hsum]; rfl
  rw [hcol] at h
  simp only [null_set_no_thread] at h
  split at h
  · exact absurd h (by simp)
  · split at h
    · exact absurd h (by simp)
    · obtain ⟨k1, k2, k3, k4, k5⟩ := null_set_perms_spec _ _ _ _ _ _ _ _ _ h
      refine ⟨?_, k4, k5⟩
      rw [c2] at k1 k2 k3
      rw [c1] at k2
      have hb : ∀ c ∈ res, c < 2 ^ 32 := by
        apply k3
        intro c hc
        rw [List.eq_of_mem_replicate hc]
        norm_num
      apply List.ext_getElem?
      intro j
      rw [List.getElem?_map]
      by_cases hj : j < sets.length
      · have hres : j < res.length := by rw [k1, List.length_replicate]; exact hj
        have hget : res[j]? = some res[j] := List.getElem?_eq_getElem hres
        have hsets : sets[j]? = some sets[j] := List.getElem?_eq_getElem hj
        have hlt : res[j] < 2 ^ 32 := hb _ (List.getElem_mem _)
        have key := k2 j
        rw [hget, List.getElem?_replicate, if_pos hj] at key
        simp only [Option.getD_some, Nat.zero_add] at key
        have hocc : ∀ perm, occurrences (List.foldl
            (fun (acc : List (Nat × List Nat) × List ℚ × List Nat) (res : prsice_result) =>
              (map_push acc.1 res.num_snp acc.2.1.length,
               acc.2.1 ++ [|res.coefficient / res.se|],
               acc.2.2 ++ [0]))
            ([], [], []) sets).1 j
            (exceeds_in e (sets.map (fun r => |r.coefficient / r.se|)) j perm)
            = exceeds_in e (sets.map (fun r => |r.coefficient / r.se|)) j perm
                sets[j].num_snp := by
          intro perm
          rw [c3 j, hsets]
        simp only [hocc] at key
        rw [sum_exceeds_in e _ j |sets[j].coefficient / sets[j].se| sets[j].num_snp
          (by rw [List.getElem?_map, hsets]; rfl), ← List.range_eq_range'] at key
        have hle := exceed_count_le e |sets[j].coefficient / sets[j].se| sets[j].num_snp
          num_perm
        unfold exceed_count at hle
        rw [hget, hsets]
        simp only [Option.map_some', Option.some.injEq, exceed_count]
        omega
      · have h1 : res[j]? = none :=
          List.getElem?_eq_none (by rw [k1, List.length_replicate]; omega)
        have h2 : sets[j]? = none := List.getElem?_eq_none (by omega)
        rw [h1, h2]; rfl

/-! ## C5: the competitive p-value of the sequential run -/

/-- The sequential `run_competitive` returns the object `null_set_no_thread`
leaves, with `competitive_p` written from its counts. -/
theorem run_competitive_sequential (s : PRSice) (e : Background) (t : PRSice)
    (h : run_competitive s e = Outcome.ok t) (hseq : affordable_threads s e ≤ 1) :
    ∃ s1 res, null_set_no_thread s e (collect_sets s.m_prs_summary).1
        (collect_sets s.m_prs_summary).2.1 (collect_sets s.m_prs_summary).2.2 e.set_perm
          = Outcome.ok (s1, res) ∧
      t = { s1 with m_prs_summary := write_competitive_p s1.m_prs_summary res e.set_perm } := by
  simp only [run_competitive] at h
  split at h
  · exact absurd h (by simp)
  · split at h
    · exact absurd h (by simp)
    · split at h
      · exact absurd h (by simp)
      · rw [if_neg (by omega)] at h
        split at h
        · rename_i s1 res hres
          simp only [Outcome.ok.injEq] at h
          exact ⟨s1, res, hres, h.symm⟩
        · exact absurd h (by simp)
        · exact absurd h (by simp)
        · exact absurd h (by simp)

/-- The result of a non-base set after the sequential `run_competitive`. -/
theorem run_competitive_sequential_set (s : PRSice) (e : Background) (t : PRSice)
    (h : run_competitive s e = Outcome.ok t) (hseq : affordable_threads s e ≤ 1)
    (hN : e.set_perm < 2 ^ 32) (i : Nat) (r0 : prsice_result)
    (hi : s.m_prs_summary[i + 1]? = some r0) :
    t.m_prs_summary[i + 1]? = some { r0 with
      competitive_p :=
        ((exceed_count e |r0.coefficient / r0.se| r0.num_snp e.set_perm : ℚ) + 1)
          / ((e.set_perm : ℚ) + 1) } := by
  obtain ⟨s1, res, hres, ht⟩ := run_competitive_sequential s e t h hseq
  cases hsum : s.m_prs_summary with
  | nil => rw [hsum] at hi; simp at hi
  | cons base sets =>
    obtain ⟨k1, k2, _⟩ :=
      null_set_no_thread_counts s e base sets hsum e.set_perm hN s1 res hres
    have hsets : sets[i]? = some r0 := by
      rw [hsum] at hi; simpa using hi
    rw [ht]
    simp only [k2, hsum, write_competitive_p, List.getElem?_cons_succ,
      List.getElem?_zipWith, hsets, k1, List.getElem?_map, Option.map_some']

/-- C5. When `run_competitive` returns on the sequential path (at most one
affordable thread), with fewer than `2 ^ 32` set permutations `N`, every non-base
set `i` keeps its result except for `competitive_p`, which becomes
`(c + 1) / (N + 1)`: `c` is the number of permutations among the `N` whose
background statistic `|coefficient / se|` for the set's own SNP count is strictly
greater than the set's own observed `|coefficient / se|`.  So `c ≤ N`, the value
lies in `(0, 1]`, and it is `1 / (N + 1)` with `c = 0` when no permutation
exceeds the observed statistic. -/
theorem competitive_p_sequential (s : PRSice) (e : Background) (t : PRSice)
    (h : run_competitive s e = Outcome.ok t) (hseq : affordable_threads s e ≤ 1)
    (hN : e.set_perm < 2 ^ 32) (i : Nat) (r0 : prsice_result)
    (hi : s.m_prs_summary[i + 1]? = some r0) :
    ∃ r, t.m_prs_summary[i + 1]? = some r ∧
      r = { r0 with competitive_p :=
        ((exceed_count e |r0.coefficient / r0.se| r0.num_snp e.set_perm : ℚ) + 1)
          / ((e.set_perm : ℚ) + 1) } ∧
      exceed_count e |r0.coefficient / r0.se| r0.num_snp e.set_perm ≤ e.set_perm ∧
      0 < r.competitive_p ∧ r.competitive_p ≤ 1 ∧
      ((∀ perm < e.set_perm, ∀ t_value, set_statistic e perm r0.num_snp = some t_value →
          ¬ |r0.coefficient / r0.se| < t_value) →
        exceed_count e |r0.coefficient / r0.se| r0.num_snp e.set_perm = 0 ∧
        r.competitive_p = 1 / ((e.set_perm : ℚ) + 1)) := by
  refine ⟨_, run_competitive_sequential_set s e t h hseq hN i r0 hi, rfl, ?_⟩
  have hle := exceed_count_le e |r0.coefficient / r0.se| r0.num_snp e.set_perm
  have hq : ((exceed_count e |r0.coefficient / r0.se| r0.num_snp e.set_perm : ℕ) : ℚ)
      ≤ (e.set_perm : ℚ) := by exact_mod_cast hle
  have hpos : (0 : ℚ) < (e.set_perm : ℚ) + 1 := by positivity
  refine ⟨hle, by positivity, ?_, ?_⟩
  · simp only
    rw [div_le_one hpos]; linarith
  · intro hnever
    have h0 : exceed_count e |r0.coefficient / r0.se| r0.num_snp e.set_perm = 0 := by
      unfold exceed_count
      rw [List.countP_eq_zero]
      intro perm hperm
      have hlt : perm < e.set_perm := List.mem_range.1 hperm
      cases hst : set_statistic e perm r0.num_snp with
      | none => simp
      | some tv => simpa using hnever perm hlt tv hst
    refine ⟨h0, ?_⟩
    simp only [h0]
    simp

/-- C5 at `example_sets`: the set of size 2 with observed statistic 3 meets the
background statistics 2, 3, 4, 5, of which two exceed it. -/
theorem competitive_p_sequential_witness :
    ∃ t r, run_competitive example_sets example_background = Outcome.ok t ∧
      t.m_prs_summary[1]? = some r ∧
      r = { example_set 3 2 with competitive_p :=
        ((exceed_count example_background |(3 : ℚ) / 1| 2 4 : ℚ) + 1) / (((4 : ℕ) : ℚ) + 1) } ∧
      exceed_count example_background |(3 : ℚ) / 1| 2 4 = 2 ∧
      exceed_count example_background |(3 : ℚ) / 1| 2 4 ≤ 4 ∧
      0 < r.competitive_p ∧ r.competitive_p ≤ 1 := by
  have hrun : ∃ t, run_competitive example_sets example_background = Outcome.ok t :=
    ⟨_, by with_unfolding_all rfl⟩
  obtain ⟨t, ht⟩ := hrun
  obtain ⟨r, h1, h2, h3, h4, h5, _⟩ :=
    competitive_p_sequential example_sets example_background t ht
      (by with_unfolding_all decide) (by decide) 0 (example_set 3 2) rfl
  exact ⟨t, r, ht, h1, h2, by with_unfolding_all decide, h3, h4, h5⟩

/-! ## C8 and C9: the memory check of `run_competitive` -/

theorem null_set_sizes_thrown (e : Background) (ori_t_value : List ℚ) (perm : Nat)
    (groups : List (Nat × List Nat)) :
    ∀ (s : PRSice) (res : List Nat) (w : String) (x : PRSice × List Nat),
      null_set_sizes e ori_t_value perm s res groups = Outcome.thrown w x → w = "glm" := by
  induction groups with
  | nil => intro s res w x h; simp [null_set_sizes] at h
  | cons g rest ih =>
    intro s res w x h
    obtain ⟨size, refs⟩ := g
    simp only [null_set_sizes] at h
    split at h
    · simp only [Outcome.thrown.injEq] at h
      exact h.1.symm
    · split at h
      · exact absurd h (by simp)
      · exact ih _ _ _ _ h

theorem null_set_perms_thrown (e : Background) (set_index : List (Nat × List Nat))
    (ori_t_value : List ℚ) (remaining : Nat) :
    ∀ (s : PRSice) (res : List Nat) (processed : Nat) (w : String) (x : PRSice × List Nat),
      null_set_perms e set_index ori_t_value s res processed remaining
        = Outcome.thrown w x → w = "glm" := by
  induction remaining with
  | zero => intro s res processed w x h; simp [null_set_perms] at h
  | succ n ih =>
    intro s res processed w x h
    simp only [null_set_perms] at h
    split at h
    · exact ih _ _ _ _ _ h
    · exact null_set_sizes_thrown _ _ _ _ _ _ _ _ h

theorem consume_prs_loop_not_thrown (e : Background) (set_index : List (Nat × List Nat))
    (ori_t_value : List ℚ) (popped : List (Nat × Nat)) :
    ∀ (fits : Nat) (temp : List Nat) (w : String) (x : Nat × List Nat),
      consume_prs_loop e set_index ori_t_value fits temp popped ≠ Outcome.thrown w x := by
  induction popped with
  | nil => intro fits temp w x h; simp [consume_prs_loop] at h
  | cons p rest ih =>
    intro fits temp w x h
    obtain ⟨perm, size⟩ := p
    simp only [consume_prs_loop] at h
    split at h
    · exact absurd h (by simp)
    · split at h
      · exact absurd h (by simp)
      · exact ih _ _ _ _ h

theorem consume_prs_all_spec (e : Background) (set_index : List (Nat × List Nat))
    (ori_t_value : List ℚ) (sched : List (List (Nat × Nat))) :
    ∀ (s : PRSice) (res : List Nat),
      (∀ w x, consume_prs_all e set_index ori_t_value s res sched ≠ Outcome.thrown w x) ∧
      (∀ s1 res1, consume_prs_all e set_index ori_t_value s res sched = Outcome.ok (s1, res1) →
        s1.set_perm_threads = s.set_perm_threads ∧ s1.m_prs_summary = s.m_prs_summary) := by
  induction sched with
  | nil =>
    intro s res
    refine ⟨fun w x h => by simp [consume_prs_all] at h, fun s1 res1 h => ?_⟩
    simp only [consume_prs_all, Outcome.ok.injEq, Prod.mk.injEq] at h
    rw [← h.1]; exact ⟨rfl, rfl⟩
  | cons popped rest ih =>
    intro s res
    have hone : (∀ w x, consume_prs s e set_index ori_t_value res popped
          ≠ Outcome.thrown w x) ∧
        (∀ s1 res1, consume_prs s e set_index ori_t_value res popped = Outcome.ok (s1, res1) →
          s1.set_perm_threads = s.set_perm_threads ∧ s1.m_prs_summary = s.m_prs_summary) := by
      unfold consume_prs
      cases hl : consume_prs_loop e set_index ori_t_value 0
          (List.replicate res.length 0) popped with
      | ok p =>
        refine ⟨fun w x h => by simp at h, fun s1 res1 h => ?_⟩
        simp only [Outcome.ok.injEq, Prod.mk.injEq] at h
        rw [← h.1]; exact ⟨rfl, rfl⟩
      | thrown w p => exact absurd hl (consume_prs_loop_not_thrown _ _ _ _ _ _ _ _)
      | terminated => exact ⟨fun w x h => by simp at h, fun s1 res1 h => by simp at h⟩
      | undefined => exact ⟨fun w x h => by simp at h, fun s1 res1 h => by simp at h⟩
    cases hc : consume_prs s e set_index ori_t_value res popped with
    | ok p =>
      obtain ⟨s2, res2⟩ := p
      obtain ⟨i1, i2⟩ := ih s2 res2
      obtain ⟨j1, j2⟩ := hone.2 s2 res2 hc
      simp only [consume_prs_all, hc]
      refine ⟨i1, fun s1 res1 h => ?_⟩
      obtain ⟨k1, k2⟩ := i2 s1 res1 h
      exact ⟨by rw [k1, j1], by rw [k2, j2]⟩
    | thrown w p => exact absurd hc (hone.1 w p)
    | terminated =>
      simp only [consume_prs_all, hc]
      exact ⟨fun w x h => by simp at h, fun s1 res1 h => by simp at h⟩
    | undefined =>
      simp only [consume_prs_all, hc]
      exact ⟨fun w x h => by simp at h, fun s1 res1 h => by simp at h⟩

theorem run_competitive_thrown_after_check (s : PRSice) (e : Background) (w : String)
    (t : PRSice) (h1 : ¬ e.valid_memory ≤ e.used_memory)
    (h2 : ¬ available_memory e < basic_memory_required_per_thread s)
    (h : run_competitive s e = Outcome.thrown w t) : w = "glm" := by
  simp only [run_competitive, if_neg h1, if_neg h2] at h
  split at h
  · exact absurd h (by simp)
  · split at h
    · exact absurd h (by simp)
    · rename_i s1 res hc
      simp only [Outcome.thrown.injEq] at h
      rw [← h.1]
      split at hc
      · split at hc
        · exact absurd hc (by simp)
        · exact absurd hc ((consume_prs_all_spec _ _ _ _ _ _).1 _ _)
      · simp only [null_set_no_thread] at hc
        split at hc
        · exact absurd hc (by simp)
        · split at hc
          · exact absurd hc (by simp)
          · exact null_set_perms_thrown _ _ _ _ _ _ _ _ _ hc
    · exact absurd h (by simp)
    · exact absurd h (by simp)

/-- C8. For a design matrix whose per-thread footprint
`rows * 8 * (cols * 6 + 15)` fits a `size_t`, `run_competitive` raises the
not-enough-memory error exactly when the budget is at most the memory in use or
half of their difference, rounded down, is smaller than that footprint; the
object at the throw is the object at the call, so no thread has been
constructed, no regression has run and no `competitive_p` has changed. -/
theorem run_competitive_memory_error (s : PRSice) (e : Background)
    (hfit : s.m_independent_variables.length * 8
      * ((s.m_independent_variables.headD []).length * 6 + 15) < 2 ^ 64) :
    ((∃ t, run_competitive s e
        = Outcome.thrown "Error: Not enough memory for permutation" t) ↔
      (e.valid_memory ≤ e.used_memory ∨
        (e.valid_memory - e.used_memory) / 2
          < s.m_independent_variables.length * 8
            * ((s.m_independent_variables.headD []).length * 6 + 15))) ∧
    (∀ t, run_competitive s e = Outcome.thrown "Error: Not enough memory for permutation" t →
      t = s ∧ t.set_perm_threads = s.set_perm_threads ∧ t.set_perm_fits = s.set_perm_fits ∧
        t.m_prs_summary = s.m_prs_summary) := by
  have hb : basic_memory_required_per_thread s = s.m_independent_variables.length * 8
      * ((s.m_independent_variables.headD []).length * 6 + 15) := Nat.mod_eq_of_lt hfit
  rw [← hb]
  have hav : (e.valid_memory - e.used_memory) / 2 = available_memory e := rfl
  rw [hav]
  by_cases h1 : e.valid_memory ≤ e.used_memory
  · have hrun : run_competitive s e
        = Outcome.thrown "Error: Not enough memory for permutation" s := by
      simp only [run_competitive, if_pos h1]
    rw [hrun]
    refine ⟨⟨fun _ => Or.inl h1, fun _ => ⟨s, rfl⟩⟩, fun t ht => ?_⟩
    simp only [Outcome.thrown.injEq, true_and] at ht
    subst ht
    exact ⟨rfl, rfl, rfl, rfl⟩
  · by_cases h2 : available_memory e < basic_memory_required_per_thread s
    · have hrun : run_competitive s e
          = Outcome.thrown "Error: Not enough memory for permutation" s := by
        simp only [run_competitive, if_neg h1, if_pos h2]
      rw [hrun]
      refine ⟨⟨fun _ => Or.inr h2, fun _ => ⟨s, rfl⟩⟩, fun t ht => ?_⟩
      simp only [Outcome.thrown.injEq, true_and] at ht
      subst ht
      exact ⟨rfl, rfl, rfl, rfl⟩
    · have hno : ∀ t, run_competitive s e
          ≠ Outcome.thrown "Error: Not enough memory for permutation" t := by
        intro t ht
        have := run_competitive_thrown_after_check s e _ t h1 h2 ht
        exact absurd this (by decide)
      refine ⟨⟨fun ⟨t, ht⟩ => absurd ht (hno t), fun hc => ?_⟩, fun t ht => absurd ht (hno t)⟩
      rcases hc with hc | hc
      · exact absurd hc h1
      · exact absurd hc h2

/-- C8 at `example_tie_sets` with a budget of 600 bytes, 100 of them in use: the
250 available bytes are fewer than the 432 one thread needs. -/
theorem run_competitive_memory_error_witness :
    ((∃ t, run_competitive example_tie_sets { example_budget with valid_memory := 600 }
        = Outcome.thrown "Error: Not enough memory for permutation" t) ↔
      ((600 : ℕ) ≤ 100 ∨ (600 - 100) / 2 < 2 * 8 * (2 * 6 + 15))) ∧
    (∀ t, run_competitive example_tie_sets { example_budget with valid_memory := 600 }
        = Outcome.thrown "Error: Not enough memory for permutation" t →
      t = example_tie_sets ∧ t.set_perm_threads = example_tie_sets.set_perm_threads ∧
        t.set_perm_fits = example_tie_sets.set_perm_fits ∧
        t.m_prs_summary = example_tie_sets.m_prs_summary) :=
  run_competitive_memory_error example_tie_sets { example_budget with valid_memory := 600 }
    (by decide)

/-- The worker path and the sequential path leave the count of constructed
threads as `run_competitive` set it. -/
theorem run_competitive_threads (s : PRSice) (e : Background) (t : PRSice)
    (h : run_competitive s e = Outcome.ok t) :
    t.set_perm_threads = s.set_perm_threads
      + (if 1 < affordable_threads s e then affordable_threads s e else 0) := by
  simp only [run_competitive] at h
  split at h
  · exact absurd h (by simp)
  · split at h
    · exact absurd h (by simp)
    · split at h
      · exact absurd h (by simp)
      · split at h
        · rename_i s1 res hc
          simp only [Outcome.ok.injEq] at h
          rw [← h]
          simp only
          split at hc
          · rename_i hgt
            rw [if_pos hgt]
            split at hc
            · exact absurd hc (by simp)
            · rename_i s2 hp
              have hk := ((consume_prs_all_spec _ _ _ _ _ _).2 _ _ hc).1
              rw [hk]
              simp only [produce_null_prs] at hp
              split at hp
              · exact absurd hp (by simp)
              · split at hp
                · exact absurd hp (by simp)
                · simp only [Option.some.injEq] at hp
                  rw [← hp]
          · rename_i hgt
            rw [if_neg (by omega)]
            simp only [null_set_no_thread] at hc
            split at hc
            · exact absurd hc (by simp)
            · split at hc
              · exact absurd hc (by simp)
              · have hk := (null_set_perms_spec _ _ _ _ _ _ _ _ _ hc).2.2.2.2
                rw [hk]; rfl
        · exact absurd h (by simp)
        · exact absurd h (by simp)
        · exact absurd h (by simp)

/-- C9. Once the memory check of `run_competitive` has passed (the footprint of
one thread is at most the available memory, which then forces the budget above
the memory in use), with a per-thread footprint that is not zero, the thread
count it goes on with is the minimum of
the requested count and `available / footprint`, where `available` is half of
(budget - used) rounded down; that count times the footprint is at most
`available`, at least one thread is affordable, and a run that returns has
constructed exactly that many threads when the count exceeds 1 and none
otherwise. -/
theorem affordable_threads_is_min (s : PRSice) (e : Background)
    (hpass2 : basic_memory_required_per_thread s ≤ (e.valid_memory - e.used_memory) / 2)
    (hpos : 0 < basic_memory_required_per_thread s) :
    affordable_threads s e
      = min e.thread (((e.valid_memory - e.used_memory) / 2)
          / basic_memory_required_per_thread s) ∧
    affordable_threads s e * basic_memory_required_per_thread s
      ≤ (e.valid_memory - e.used_memory) / 2 ∧
    1 ≤ ((e.valid_memory - e.used_memory) / 2) / basic_memory_required_per_thread s ∧
    (∀ t, run_competitive s e = Outcome.ok t →
      t.set_perm_threads = s.set_perm_threads
        + (if 1 < affordable_threads s e then affordable_threads s e else 0) ∧
      t.set_perm_threads - s.set_perm_threads ≤ affordable_threads s e) := by
  have hav : (e.valid_memory - e.used_memory) / 2 = available_memory e := rfl
  rw [hav] at hpass2 ⊢
  have hmin : affordable_threads s e
      = min e.thread (available_memory e / basic_memory_required_per_thread s) := by
    unfold affordable_threads
    split
    · rw [min_eq_right (by omega)]
    · rw [min_eq_left (by omega)]
  have hdiv : available_memory e / basic_memory_required_per_thread s
      * basic_memory_required_per_thread s ≤ available_memory e := Nat.div_mul_le_self _ _
  refine ⟨hmin, ?_, ?_, ?_⟩
  · calc affordable_threads s e * basic_memory_required_per_thread s
        ≤ available_memory e / basic_memory_required_per_thread s
            * basic_memory_required_per_thread s :=
          Nat.mul_le_mul_right _ (by rw [hmin]; exact min_le_right _ _)
      _ ≤ available_memory e := hdiv
  · exact (Nat.one_le_div_iff hpos).2 hpass2
  · intro t ht
    have := run_competitive_threads s e t ht
    refine ⟨this, ?_⟩
    rw [this]
    split <;> omega

/-- C9 at `example_tie_sets`: three threads requested, 950 bytes available, 432
bytes per thread, so two threads are used. -/
theorem affordable_threads_is_min_witness :
    affordable_threads example_tie_sets example_budget = min 3 (((2000 - 100) / 2) / 432) ∧
    affordable_threads example_tie_sets example_budget * 432 ≤ (2000 - 100) / 2 ∧
    1 ≤ ((2000 - 100) / 2) / 432 ∧
    (∀ t, run_competitive example_tie_sets example_budget = Outcome.ok t →
      t.set_perm_threads = example_tie_sets.set_perm_threads
        + (if 1 < affordable_threads example_tie_sets example_budget
            then affordable_threads example_tie_sets example_budget else 0) ∧
      t.set_perm_threads - example_tie_sets.set_perm_threads
        ≤ affordable_threads example_tie_sets example_budget) :=
  affordable_threads_is_min example_tie_sets example_budget (by decide) (by decide)

/-! ## C6: a tie is not an exceedance -/

theorem consume_prs_loop_spec (e : Background) (set_index : List (Nat × List Nat))
    (ori_t_value : List ℚ) (popped : List (Nat × Nat)) :
    ∀ (fits : Nat) (temp : List Nat) (fits1 : Nat) (temp1 : List Nat),
      consume_prs_loop e set_index ori_t_value fits temp popped = Outcome.ok (fits1, temp1) →
      temp1.length = temp.length ∧
      (∀ j, (temp1[j]?.getD 0) % 2 ^ 32
        = (temp[j]?.getD 0
            + (popped.map (fun p =>
                (map_at set_index p.2).count j
                  * exceeds_in e ori_t_value j p.1 p.2)).sum) % 2 ^ 32) ∧
      ((∀ c ∈ temp, c < 2 ^ 32) → ∀ c ∈ temp1, c < 2 ^ 32) := by
  induction popped with
  | nil =>
    intro fits temp fits1 temp1 h
    simp only [consume_prs_loop, Outcome.ok.injEq, Prod.mk.injEq] at h
    obtain ⟨_, h2⟩ := h
    subst h2
    simp
  | cons p rest ih =>
    intro fits temp fits1 temp1 h
    obtain ⟨perm, size⟩ := p
    simp only [consume_prs_loop] at h
    split at h
    · exact absurd h (by simp)
    · rename_i t_value ht
      split at h
      · exact absurd h (by simp)
      · rename_i temp2 htemp2
        obtain ⟨h1, h2, h3⟩ := count_exceed_spec ori_t_value t_value _ temp temp2 htemp2
        obtain ⟨k1, k2, k3⟩ := ih _ _ _ _ h
        refine ⟨by rw [k1, h1], ?_, fun hall => k3 (h3 hall)⟩
        intro j
        rw [k2 j, List.map_cons, List.sum_cons]
        have he : exceeds_in e ori_t_value j perm size = exceeds ori_t_value j t_value := by
          simp only [exceeds_in, ht]
        simp only [he]
        have := h2 j
        omega

/-- A consumer whose payloads never exceed the observed statistic of a set
listed under their size leaves the shared counts as they were. -/
theorem consume_prs_no_exceed (s : PRSice) (e : Background)
    (set_index : List (Nat × List Nat)) (ori_t_value : List ℚ) (res : List Nat)
    (popped : List (Nat × Nat)) (s1 : PRSice) (res1 : List Nat)
    (hres : ∀ c ∈ res, c < 2 ^ 32)
    (h : consume_prs s e set_index ori_t_value res popped = Outcome.ok (s1, res1))
    (htie : ∀ p ∈ popped, ∀ t_value, set_statistic e p.1 p.2 = some t_value →
      ∀ ref ∈ map_at set_index p.2, ∀ ori, ori_t_value[ref]? = some ori → t_value ≤ ori) :
    res1 = res := by
  unfold consume_prs at h
  split at h
  · rename_i fits temp hl
    simp only [Outcome.ok.injEq, Prod.mk.injEq] at h
    obtain ⟨k1, k2, k3⟩ := consume_prs_loop_spec e set_index ori_t_value popped _ _ _ _ hl
    rw [List.length_replicate] at k1
    have hzero : ∀ j, (popped.map (fun p =>
        (map_at set_index p.2).count j * exceeds_in e ori_t_value j p.1 p.2)).sum = 0 := by
      intro j
      apply List.sum_eq_zero
      intro x hx
      obtain ⟨p, hp, rfl⟩ := List.mem_map.1 hx
      by_cases hc : (map_at set_index p.2).count j = 0
      · rw [hc, Nat.zero_mul]
      · have hmem : j ∈ map_at set_index p.2 := List.count_pos_iff.1 (Nat.pos_of_ne_zero hc)
        have : exceeds_in e ori_t_value j p.1 p.2 = 0 := by
          unfold exceeds_in
          cases hst : set_statistic e p.1 p.2 with
          | none => rfl
          | some tv =>
            simp only [exceeds]
            cases ho : ori_t_value[j]? with
            | none => rfl
            | some o =>
              have := htie p hp tv hst j hmem o ho
              simp only [if_neg (not_lt.2 this)]
        rw [this, Nat.mul_zero]
    have hb : ∀ c ∈ temp, c < 2 ^ 32 := by
      apply k3
      intro c hc
      rw [List.eq_of_mem_replicate hc]
      norm_num
    rw [← h.2]
    apply List.ext_getElem?
    intro j
    rw [List.getElem?_zipWith]
    by_cases hj : j < res.length
    · have h1 : res[j]? = some res[j] := List.getElem?_eq_getElem hj
      have h2 : temp[j]? = some temp[j] := List.getElem?_eq_getElem (by omega)
      have hk := k2 j
      rw [h2, hzero j, List.getElem?_replicate, if_pos hj] at hk
      simp only [Option.getD_some, Nat.add_zero, Nat.zero_mod] at hk
      have ht0 : temp[j] = 0 := by
        have := hb temp[j] (List.getElem_mem _)
        omega
      have hr := hres res[j] (List.getElem_mem _)
      rw [h1, h2]
      simp only [ht0, Nat.add_zero, Option.some.injEq]
      omega
    · have h1 : res[j]? = none := List.getElem?_eq_none (by omega)
      rw [h1]
  · exact absurd h (by simp)
  · exact absurd h (by simp)
  · exact absurd h (by simp)

/-- C6 (counterexample). The set of `example_tie_sets` has the observed statistic
`|1 / 1| = 1` and every one of the three permutations has the background
statistic `1`, equal to it.  Counting equal-or-larger statistics would give the
count 3 and `competitive_p = 4/4`; the sequential run and the run with a
consumer thread both give `competitive_p = 1/4`, the count 0. -/
theorem tie_is_not_counted :
    (∀ perm < 3, set_statistic example_tie_background perm 5 = some |(1 : ℚ) / 1|) ∧
    (∃ t, run_competitive example_tie_sets example_tie_background = Outcome.ok t ∧
      t.m_prs_summary.map (fun r => r.competitive_p) = [-1, 1 / 4]) ∧
    (∃ t, run_competitive example_tie_sets example_tie_workers = Outcome.ok t ∧
      t.set_perm_threads = 2 ∧
      t.m_prs_summary.map (fun r => r.competitive_p) = [-1, 1 / 4]) :=
  ⟨by with_unfolding_all decide,
   ⟨_, by with_unfolding_all rfl, by with_unfolding_all decide⟩,
   ⟨_, by with_unfolding_all rfl, by with_unfolding_all decide, by with_unfolding_all decide⟩⟩

/-- C6 (amended). The exceed count of a set counts the permutations whose
background statistic for the set's size is strictly greater than the set's
observed statistic.  After a sequential `run_competitive` the set's
`competitive_p` is built from that count; the count is 0 when every permutation's
statistic is at most the observed one, ties included, and it is the number of
permutations when every statistic is strictly greater.  In `consume_prs` a
consumer whose payloads are all at most the observed statistics of the sets
listed under their size adds nothing to the shared counts. -/
theorem exceed_count_is_strict (s : PRSice) (e : Background) (t : PRSice)
    (h : run_competitive s e = Outcome.ok t) (hseq : affordable_threads s e ≤ 1)
    (hN : e.set_perm < 2 ^ 32) (i : Nat) (r0 : prsice_result)
    (hi : s.m_prs_summary[i + 1]? = some r0) :
    t.m_prs_summary[i + 1]? = some { r0 with
      competitive_p :=
        ((exceed_count e |r0.coefficient / r0.se| r0.num_snp e.set_perm : ℚ) + 1)
          / ((e.set_perm : ℚ) + 1) } ∧
    ((∀ perm < e.set_perm, ∀ t_value, set_statistic e perm r0.num_snp = some t_value →
        t_value ≤ |r0.coefficient / r0.se|) →
      exceed_count e |r0.coefficient / r0.se| r0.num_snp e.set_perm = 0) ∧
    ((∀ perm < e.set_perm, ∃ t_value, set_statistic e perm r0.num_snp = some t_value ∧
        |r0.coefficient / r0.se| < t_value) →
      exceed_count e |r0.coefficient / r0.se| r0.num_snp e.set_perm = e.set_perm) ∧
    (∀ (set_index : List (Nat × List Nat)) (ori_t_value : List ℚ) (res : List Nat)
      (popped : List (Nat × Nat)) (s1 : PRSice) (res1 : List Nat),
      (∀ c ∈ res, c < 2 ^ 32) →
      consume_prs s e set_index ori_t_value res popped = Outcome.ok (s1, res1) →
      (∀ p ∈ popped, ∀ t_value, set_statistic e p.1 p.2 = some t_value →
        ∀ ref ∈ map_at set_index p.2, ∀ ori, ori_t_value[ref]? = some ori →
          t_value ≤ ori) →
      res1 = res) := by
  refine ⟨run_competitive_sequential_set s e t h hseq hN i r0 hi, ?_, ?_, ?_⟩
  · intro htie
    unfold exceed_count
    rw [List.countP_eq_zero]
    intro perm hperm
    have hlt : perm < e.set_perm := List.mem_range.1 hperm
    cases hst : set_statistic e perm r0.num_snp with
    | none => simp
    | some tv => simpa using htie perm hlt tv hst
  · intro hall
    unfold exceed_count
    have : List.countP
        (fun perm =>
          match set_statistic e perm r0.num_snp with
          | some t_value => decide (|r0.coefficient / r0.se| < t_value)
          | none => false) (List.range e.set_perm) = (List.range e.set_perm).length := by
      rw [List.countP_eq_length]
      intro perm hperm
      obtain ⟨tv, hst, hlt⟩ := hall perm (List.mem_range.1 hperm)
      simp only [hst]
      simpa using hlt
    rw [this, List.length_range]
  · intro set_index ori_t_value res popped s1 res1 hres hc htie
    exact consume_prs_no_exceed s e set_index ori_t_value res popped s1 res1 hres hc htie

/-- C6 (amended) at `example_tie_sets`, whose three permutations all tie the
observed statistic: the count is 0. -/
theorem exceed_count_is_strict_witness :
    ∃ t, run_competitive example_tie_sets example_tie_background = Outcome.ok t ∧
      t.m_prs_summary[1]? = some { example_set 1 5 with
        competitive_p :=
          ((exceed_count example_tie_background |(1 : ℚ) / 1| 5 3 : ℚ) + 1)
            / (((3 : ℕ) : ℚ) + 1) } ∧
      exceed_count example_tie_background |(1 : ℚ) / 1| 5 3 = 0 := by
  have hrun : ∃ t, run_competitive example_tie_sets example_tie_background = Outcome.ok t :=
    ⟨_, by with_unfolding_all rfl⟩
  obtain ⟨t, ht⟩ := hrun
  obtain ⟨h1, h2, _, _⟩ :=
    exceed_count_is_strict example_tie_sets example_tie_background t ht
      (by with_unfolding_all decide) (by decide) 0 (example_set 1 5) rfl
  refine ⟨t, ht, h1, h2 ?_⟩
  intro perm hperm t_value hst
  have hval : set_statistic example_tie_background perm 5 = some |(1 : ℚ) / 1| := by
    simp [set_statistic, example_tie_background, example_background]
  have hnum : (example_set 1 5).num_snp = 5 := rfl
  rw [hnum, hval] at hst
  simp only [Option.some.injEq] at hst
  rw [← hst]
  exact le_refl _

/-! ## The size of the null-statistic array -/

theorem null_perm_loop_length (run_glm : Bool) (th : Threshold) (remaining : Nat) :
    ∀ (s : PRSice) (processed : Nat) (t : PRSice),
      null_perm_loop run_glm th s processed remaining = Outcome.ok t →
      t.m_perm_result.length = s.m_perm_result.length := by
  induction remaining with
  | zero =>
    intro s processed t h
    simp only [null_perm_loop, Outcome.ok.injEq] at h
    rw [h]
  | succ n ih =>
    intro s processed t h
    simp only [null_perm_loop] at h
    split at h
    · exact absurd h (by simp)
    · split at h
      · exact absurd h (by simp)
      · rw [ih _ _ _ h]
        simp

theorem consume_flush_length (buf : List (ℚ × Nat)) :
    ∀ (r r1 : List ℚ), consume_flush r buf = some r1 → r1.length = r.length := by
  induction buf with
  | nil =>
    intro r r1 h
    simp only [consume_flush, Option.some.injEq] at h
    rw [h]
  | cons p rest ih =>
    intro r r1 h
    obtain ⟨obs_t, index⟩ := p
    simp only [consume_flush] at h
    split at h
    · exact absurd h (by simp)
    · rw [ih _ _ h]
      split <;> simp

theorem consume_all_length (run_glm : Bool) (th : Threshold) (sched : List (List Nat)) :
    ∀ (s t : PRSice), consume_all run_glm th s sched = Outcome.ok t →
      t.m_perm_result.length = s.m_perm_result.length := by
  induction sched with
  | nil =>
    intro s t h
    simp only [consume_all, Outcome.ok.injEq] at h
    rw [h]
  | cons popped rest ih =>
    intro s t h
    simp only [consume_all] at h
    split at h
    · rename_i s1 h1
      rw [ih _ _ h]
      simp only [consume_null_pheno] at h1
      split at h1
      · exact absurd h1 (by simp)
      · split at h1
        · exact absurd h1 (by simp)
        · rename_i r hr
          simp only [Outcome.ok.injEq] at h1
          rw [← h1]
          exact consume_flush_length _ _ _ hr
    · rename_i hne
      exact absurd h (fun hh => hne t hh)

theorem permutation_length (s t : PRSice) (n_thread : Nat) (is_binary : Bool) (th : Threshold)
    (h : permutation s n_thread is_binary th = Outcome.ok t) :
    t.m_perm_result.length = s.m_perm_result.length := by
  simp only [permutation] at h
  split at h
  · exact null_perm_loop_length _ _ _ _ _ _ h
  · exact (consume_all_length _ _ _ _ _ h).trans rfl

theorem regress_score_perm (s t : PRSice) (th : Threshold) (binary : Bool)
    (num_sample it : Nat) (h : regress_score s th binary num_sample it = some t) :
    t.m_perm_result = s.m_perm_result ∧ t.m_num_perm = s.m_num_perm := by
  simp only [regress_score] at h
  split at h
  · simp only [Option.some.injEq] at h; rw [← h]; exact ⟨rfl, rfl⟩
  · split at h
    · exact absurd h (by simp)
    · split at h
      · simp only [Option.some.injEq] at h; rw [← h]; exact ⟨rfl, rfl⟩
      · split at h
        · exact absurd h (by simp)
        · simp only [Option.some.injEq] at h; rw [← h]; exact ⟨rfl, rfl⟩

theorem run_prsice_loop_perm_length (o : Options) (rest : List Threshold) :
    ∀ (s t : PRSice) (it : Nat), s.m_perm_result.length = s.m_num_perm →
      run_prsice_loop o s it rest = Outcome.ok t →
      t.m_perm_result.length = t.m_num_perm := by
  induction rest with
  | nil =>
    intro s t it hs h
    simp only [run_prsice_loop, Outcome.ok.injEq] at h
    rw [← h]; exact hs
  | cons th rest ih =>
    intro s t it hs h
    simp only [run_prsice_loop] at h
    split at h
    · refine ih _ _ _ ?_ h
      exact hs
    · split at h
      · exact absurd h (by simp)
      · rename_i s2 hs2
        obtain ⟨r1, r2⟩ := regress_score_perm _ _ _ _ _ _ hs2
        have hs2len : s2.m_perm_result.length = s2.m_num_perm := by
          rw [r1, r2]; exact hs
        split at h
        · rename_i s3 hs3
          refine ih _ _ _ ?_ h
          split at hs3
          · have hf := permutation_frame _ _ _ _ _ hs3
            have hn : s3.m_num_perm = s2.m_num_perm := by
              have := congrArg PRSice.m_num_perm hf; simpa using this
            rw [permutation_length _ _ _ _ _ hs3, hn]; exact hs2len
          · simp only [Outcome.ok.injEq] at hs3
            rw [← hs3]; exact hs2len
        · rename_i hne
          exact (hne t h).elim

/-- After a scan of `run_prsice` the null-statistic array has `m_num_perm`
entries. -/
theorem run_prsice_scan_perm_length (s t : PRSice) (o : Options) (ths : List Threshold)
    (h : run_prsice_scan s o ths = Outcome.ok t) :
    t.m_perm_result.length = t.m_num_perm :=
  run_prsice_loop_perm_length o ths _ t 0
    (run_prsice_reset_perm_length s o.num_threshold o.num_sample) h

/-! ## C11: no valid model -/

/-- C11 (code at the failing input). When no threshold of a scan holds a SNP the
scan ends with `m_best_index = -1`; `process_permutations` and `output` then
return without touching a result, but `print_best` reads
`m_prs_results[m_best_index]` before any test of the index, so `run_prsice` with
regression enabled makes an out-of-range read.  For every object with the index
at `-1`, `print_best` is that out-of-range read. -/
theorem print_best_reads_unset_index :
    (∃ t, run_prsice_scan example_object example_options example_empty_scan = Outcome.ok t ∧
      t.m_best_index = -1 ∧ t.regressed = [] ∧
      process_permutations t = some t ∧ output t 5 = some t ∧
      print_best t 2 = none) ∧
    run_prsice example_object example_options example_empty_scan = Outcome.undefined ∧
    run_prsice example_object { example_options with permutation := 3 } example_empty_scan
      = Outcome.undefined ∧
    (∀ (s : PRSice) (num_sample : Nat),
      print_best { s with m_best_index := -1 } num_sample = none) :=
  ⟨⟨_, rfl, rfl, rfl, rfl, rfl, rfl⟩, rfl, rfl, fun _ _ => rfl⟩

/-! ## The one-thread permutation loop -/

theorem null_perm_loop_spec (run_glm : Bool) (th : Threshold) (stat : Nat → ℚ)
    (remaining : Nat) :
    ∀ (s : PRSice) (processed : Nat),
      processed + remaining ≤ s.m_perm_result.length →
      (∀ i, processed ≤ i → i < processed + remaining →
        null_statistic run_glm th i = some (stat i)) →
      ∃ t, null_perm_loop run_glm th s processed remaining = Outcome.ok t ∧
        t.m_perm_result
          = (List.range' processed remaining).foldl (min_update stat) s.m_perm_result ∧
        t.m_analysis_done = s.m_analysis_done + remaining := by
  induction remaining with
  | zero =>
    intro s processed _ _
    exact ⟨s, rfl, rfl, rfl⟩
  | succ n ih =>
    intro s processed hlen hstat
    have hs := hstat processed (Nat.le_refl _) (by omega)
    have hold : s.m_perm_result[processed]? = some s.m_perm_result[processed] :=
      List.getElem?_eq_getElem (by omega)
    simp only [null_perm_loop, hs, hold]
    obtain ⟨t, h1, h2, h3⟩ := ih
      { s with
        m_analysis_done := s.m_analysis_done + 1
        m_perm_result := s.m_perm_result.set processed
          (min (stat processed) s.m_perm_result[processed]) }
      (processed + 1) (by simp only [List.length_set]; omega)
      (fun i h1 h2 => hstat i (by omega) (by omega))
    refine ⟨t, h1, ?_, ?_⟩
    · rw [h2, List.range'_succ, List.foldl_cons]
      simp only [min_update, hold]
    · rw [h3]; simp only; omega

theorem min_update_length (stat : Nat → ℚ) (r : List ℚ) (i : Nat) :
    (min_update stat r i).length = r.length := by
  unfold min_update
  split <;> simp

theorem foldl_min_update_length (stat : Nat → ℚ) (l : List Nat) :
    ∀ r : List ℚ, (l.foldl (min_update stat) r).length = r.length := by
  induction l with
  | nil => intro r; rfl
  | cons i rest ih => intro r; rw [List.foldl_cons, ih, min_update_length]

theorem foldl_min_update_getElem? (stat : Nat → ℚ) (len : Nat) :
    ∀ (start : Nat) (r : List ℚ) (i : Nat),
      ((List.range' start len).foldl (min_update stat) r)[i]?
        = if start ≤ i ∧ i < start + len then (r[i]?).map (fun old => min (stat i) old)
          else r[i]? := by
  induction len with
  | zero =>
    intro start r i
    simp only [List.range'_zero, List.foldl_nil, Nat.add_zero]
    rw [if_neg (by omega)]
  | succ n ih =>
    intro start r i
    rw [List.range'_succ, List.foldl_cons, ih]
    by_cases h1 : start + 1 ≤ i ∧ i < start + 1 + n
    · rw [if_pos h1, if_pos (by omega)]
      have hne : start ≠ i := by omega
      unfold min_update
      split
      · rw [List.getElem?_set, if_neg hne]
      · rfl
    · rw [if_neg h1]
      by_cases h2 : start = i
      · subst h2
        rw [if_pos (by omega)]
        unfold min_update
        cases hr : r[start]? with
        | none => simp [hr]
        | some old =>
          simp only [Option.map_some']
          have hlt : start < r.length := (List.getElem?_eq_some.1 hr).1
          simp [List.getElem?_set, hlt]
      · rw [if_neg (by omega)]
        unfold min_update
        split
        · rw [List.getElem?_set, if_neg h2]
        · rfl

/-- What one call of `run_null_perm_no_thread` returns when the array has
`m_num_perm` slots and every draw has a statistic. -/
theorem run_null_perm_no_thread_spec (s : PRSice) (run_glm : Bool) (th : Threshold)
    (stat : Nat → ℚ) (hlen : s.m_perm_result.length = s.m_num_perm)
    (hstat : ∀ i < s.m_num_perm, null_statistic run_glm th i = some (stat i)) :
    ∃ t, run_null_perm_no_thread s run_glm th = Outcome.ok t ∧
      t.m_perm_result = (List.range s.m_num_perm).foldl (min_update stat) s.m_perm_result ∧
      t.m_analysis_done = s.m_analysis_done + s.m_num_perm ∧
      (∀ i, t.m_perm_result[i]? = (s.m_perm_result[i]?).map (fun old => min (stat i) old)) ∧
      perm_frame s t := by
  obtain ⟨t, h1, h2, h3⟩ := null_perm_loop_spec run_glm th stat s.m_num_perm s 0
    (by omega) (fun i _ hi => hstat i (by omega))
  refine ⟨t, h1, by rw [h2, List.range_eq_range'], h3, ?_, null_perm_loop_frame _ _ _ _ _ _ h1⟩
  intro i
  rw [h2, foldl_min_update_getElem?]
  by_cases hi : i < s.m_num_perm
  · rw [if_pos (by omega)]
  · rw [if_neg (by omega)]
    have : s.m_perm_result[i]? = none := List.getElem?_eq_none (by omega)
    rw [this]; rfl

/-! ## C18: the one-thread path is a min-fold over the draws in order -/

/-- C18. With an array of `N = m_num_perm` slots and a statistic for every
draw, one call of `run_null_perm_no_thread` returns after exactly `N` slot
updates, applied to the indices `0, 1, ..., N - 1` in this order (the array is
the left fold of the update over `List.range N`, and `m_analysis_done` has grown
by `N`); the array still has `N` slots, slot `i` holds
`min (statistic of draw i) (old value)`, and no slot has increased. -/
theorem run_null_perm_no_thread_min_fold (s : PRSice) (run_glm : Bool) (th : Threshold)
    (stat : Nat → ℚ) (hlen : s.m_perm_result.length = s.m_num_perm)
    (hstat : ∀ i < s.m_num_perm, null_statistic run_glm th i = some (stat i)) :
    ∃ t, run_null_perm_no_thread s run_glm th = Outcome.ok t ∧
      t.m_perm_result = (List.range s.m_num_perm).foldl (min_update stat) s.m_perm_result ∧
      (List.range s.m_num_perm).length = s.m_num_perm ∧
      t.m_analysis_done = s.m_analysis_done + s.m_num_perm ∧
      t.m_perm_result.length = s.m_num_perm ∧
      (∀ i old, s.m_perm_result[i]? = some old →
        t.m_perm_result[i]? = some (min (stat i) old) ∧ min (stat i) old ≤ old) := by
  obtain ⟨t, h1, h2, h3, h4, _⟩ := run_null_perm_no_thread_spec s run_glm th stat hlen hstat
  refine ⟨t, h1, h2, List.length_range _, h3, ?_, ?_⟩
  · rw [h2, foldl_min_update_length, hlen]
  · intro i old hold
    rw [h4 i, hold]
    exact ⟨rfl, min_le_right _ _⟩

/-- C18 at `example_scanned`, whose three slots hold `1, 3, 2`, with the statistic
`|0 / 1|` for every draw. -/
theorem run_null_perm_no_thread_min_fold_witness :
    ∃ t, run_null_perm_no_thread example_scanned false (example_threshold 10 0)
        = Outcome.ok t ∧
      t.m_perm_result = (List.range 3).foldl (min_update (fun _ => |(0 : ℚ) / 1|)) [1, 3, 2] ∧
      (List.range 3).length = 3 ∧
      t.m_analysis_done = 5 + 3 ∧
      t.m_perm_result.length = 3 ∧
      (∀ (i : Nat) (old : ℚ), ([1, 3, 2] : List ℚ)[i]? = some old →
        t.m_perm_result[i]? = some (min (|(0 : ℚ) / 1|) old) ∧ min (|(0 : ℚ) / 1|) old ≤ old) :=
  run_null_perm_no_thread_min_fold example_scanned false (example_threshold 10 0)
    (fun _ => |(0 : ℚ) / 1|) rfl (fun _ _ => rfl)

/-! ## C19: the one-thread permutation stage is repeatable -/

/-- C19. On one thread, with an array of `m_num_perm` slots and a statistic for
every draw, the permutation stage run a second time on the same threshold
returns with the null-statistic array the first run left: the statistic of draw
`i` is the same in both runs (`rand_gen` is seeded with `m_seed` at the head of
each call, so `null_statistic` depends on the draw only), and
`min (stat i) (min (stat i) old) = min (stat i) old`. -/
theorem permutation_twice (s : PRSice) (is_binary : Bool) (th : Threshold) (stat : Nat → ℚ)
    (hlen : s.m_perm_result.length = s.m_num_perm)
    (hstat : ∀ i < s.m_num_perm,
      null_statistic (!(!is_binary || !s.m_logit_perm)) th i = some (stat i)) :
    ∃ t t2, permutation s 1 is_binary th = Outcome.ok t ∧
      permutation t 1 is_binary th = Outcome.ok t2 ∧
      t2.m_perm_result = t.m_perm_result ∧
      (∀ i, t.m_perm_result[i]? = (s.m_perm_result[i]?).map (fun old => min (stat i) old)) := by
  obtain ⟨t, h1, h2, _, h4, h5⟩ :=
    run_null_perm_no_thread_spec s _ th stat hlen hstat
  have hn : t.m_num_perm = s.m_num_perm := by
    have := congrArg PRSice.m_num_perm h5; simpa using this
  have hl : t.m_logit_perm = s.m_logit_perm := by
    have := congrArg PRSice.m_logit_perm h5; simpa using this
  have hlen2 : t.m_perm_result.length = t.m_num_perm := by
    rw [h2, foldl_min_update_length, hlen, hn]
  obtain ⟨t2, k1, _, _, k4, _⟩ :=
    run_null_perm_no_thread_spec t (!(!is_binary || !s.m_logit_perm)) th stat hlen2
      (by rw [hn]; exact hstat)
  refine ⟨t, t2, ?_, ?_, ?_, h4⟩
  · simp only [permutation, if_true]; exact h1
  · simp only [permutation, if_true, hl]; exact k1
  · apply List.ext_getElem?
    intro i
    rw [k4 i, h4 i]
    cases s.m_perm_result[i]? with
    | none => rfl
    | some old => simp

/-- C19 at `example_scanned` and a continuous phenotype. -/
theorem permutation_twice_witness :
    ∃ t t2, permutation example_scanned 1 false (example_threshold 10 0) = Outcome.ok t ∧
      permutation t 1 false (example_threshold 10 0) = Outcome.ok t2 ∧
      t2.m_perm_result = t.m_perm_result ∧
      (∀ i : Nat, t.m_perm_result[i]?
        = (([1, 3, 2] : List ℚ)[i]?).map (fun old => min (|(0 : ℚ) / 1|) old)) :=
  permutation_twice example_scanned false (example_threshold 10 0)
    (fun _ => |(0 : ℚ) / 1|) rfl (fun _ _ => rfl)

/-! ## C12: a failed fit of a permutation draw -/

/-- C12 (code at the failing input). With the exact solver and three draws of
which draw 1 does not converge, `run_null_perm_no_thread` ends by the exception
of `Regression::glm`: slot 0 has been updated, slot 2 has not, so the draw after
the failing one is never processed; in the worker path the exception escapes the
consumer that popped draw 1, and the scan that called the permutation stage ends
by the same exception. -/
theorem failed_draw_aborts_permutation :
    (∃ t, run_null_perm_no_thread example_logit true example_failing_draw
        = Outcome.thrown "glm" t ∧
      t.m_perm_result = [1, 2, 2] ∧ t.m_analysis_done = example_logit.m_analysis_done + 2) ∧
    null_statistic true example_failing_draw 2 = some 1 ∧
    permutation example_logit 3 true { example_failing_draw with schedule := [[0, 2], [1]] }
      = Outcome.terminated ∧
    (∃ t, run_prsice_scan { example_object with m_logit_perm := true }
        { example_options with permutation := 3, is_binary := true }
        [example_failing_draw, example_failing_draw] = Outcome.thrown "glm" t ∧
      t.regressed = [0]) :=
  ⟨⟨_, by with_unfolding_all rfl, by with_unfolding_all decide, by with_unfolding_all decide⟩,
   by with_unfolding_all decide, by with_unfolding_all rfl,
   ⟨_, by with_unfolding_all rfl, by with_unfolding_all decide⟩⟩

/-! ## C16: the fold of the null statistics over the thresholds -/

/-- C16 (code at the failing input). Two thresholds, three draws; every draw has
the statistic `|0 / 1| = 0` at the first threshold and `|1 / 1| = 1` at the
second, so the maximum over the thresholds is 1 for every draw.  After the scan
the one-thread path holds `0` in every slot (the minimum, folded with `std::min`
from the initial 2) and the worker path holds `2` (the initial value, which the
comparison `m_perm_result[index] < obs_t` never replaces). -/
theorem null_fold_is_not_max :
    (∀ i, null_statistic false (example_null_threshold 10 0 0 []) i = some 0) ∧
    (∀ i, null_statistic false (example_null_threshold 50 1 1 []) i = some 1) ∧
    (∃ t, run_prsice_scan example_object { example_options with permutation := 3 }
        [example_null_threshold 10 0 0 [], example_null_threshold 50 1 1 []]
          = Outcome.ok t ∧
      t.m_perm_result = [0, 0, 0]) ∧
    (∃ t, run_prsice_scan example_object { example_options with permutation := 3, thread := 3 }
        [example_null_threshold 10 0 0 [[0, 1], [2]],
         example_null_threshold 50 1 1 [[2, 0], [1]]] = Outcome.ok t ∧
      t.m_perm_result = [2, 2, 2]) :=
  ⟨fun _ => by simp [null_statistic, example_null_threshold],
   fun _ => by simp [null_statistic, example_null_threshold],
   ⟨_, by with_unfolding_all rfl, by with_unfolding_all decide⟩,
   ⟨_, by with_unfolding_all rfl, by with_unfolding_all decide⟩⟩

/-! ## C17: the null-statistic array at the start of a scan -/

theorem resize_of_length {α : Type} (l : List α) (v : α) : resize l l.length v = l := by
  simp [resize]

/-- C17 (code at the failing input). The reset of `run_prsice` sets a fresh array
to the initial value 2 in every slot, but an array that already has
`m_num_perm` slots, as on every later call on the same object, keeps its
entries: `resize(m_num_perm, 2)` only fills slots it appends.  On
`example_scanned` the slots `1, 3, 2` of the previous scan are still there when
the permutation loop starts. -/
theorem reset_keeps_stale_null_statistics :
    (run_prsice_reset example_object 3 2).m_perm_result = [2, 2, 2] ∧
    (run_prsice_reset example_scanned 3 2).m_perm_result = [1, 3, 2] ∧
    (∃ t, run_prsice_scan example_scanned { example_options with permutation := 3 }
        [example_null_threshold 10 0 2 []] = Outcome.ok t ∧
      t.m_perm_result = [1, 2, 2]) ∧
    (∀ (s : PRSice) (num_threshold num_sample : Nat),
      s.m_perm_result.length = s.m_num_perm →
      (run_prsice_reset s num_threshold num_sample).m_perm_result = s.m_perm_result) :=
  ⟨rfl, rfl, ⟨_, by with_unfolding_all rfl, by with_unfolding_all decide⟩, by
    intro s nt ns h
    simp only [run_prsice_reset]
    rw [← h]
    exact resize_of_length _ _⟩

/-! ## C13: a fit that does not converge does not stop the scan -/

theorem run_prsice_loop_done (o : Options) (hperm : o.permutation = 0)
    (rest : List Threshold) :
    ∀ (s t : PRSice) (it : Nat), run_prsice_loop o s it rest = Outcome.ok t →
      t.m_analysis_done = s.m_analysis_done + rest.length := by
  induction rest with
  | nil =>
    intro s t it h
    simp only [run_prsice_loop, Outcome.ok.injEq] at h
    rw [← h]; rfl
  | cons th rest ih =>
    intro s t it h
    simp only [run_prsice_loop] at h
    split at h
    · rw [ih _ _ _ h]; simp only [List.length_cons]; omega
    · split at h
      · exact absurd h (by simp)
      · rename_i s2 hs2
        simp only [hperm, ne_eq, not_true_eq_false, if_false] at h
        rw [ih _ _ _ h]
        have hd : s2.m_analysis_done = s.m_analysis_done + 1 := by
          simp only [regress_score] at hs2
          split at hs2
          · simp only [Option.some.injEq] at hs2; rw [← hs2]
          · split at hs2
            · exact absurd hs2 (by simp)
            · split at hs2
              · simp only [Option.some.injEq] at hs2; rw [← hs2]
              · split at hs2
                · exact absurd hs2 (by simp)
                · simp only [Option.some.injEq] at hs2; rw [← hs2]
        rw [hd]; simp only [List.length_cons]; omega

/-- Whether `regress_score` returns does not depend on the outcome of the fit. -/
theorem regress_score_returns_whatever_fit (s : PRSice) (th : Threshold) (fit : Option glm_out)
    (binary : Bool) (num_sample it : Nat) :
    (regress_score s { th with glm := fit } binary num_sample it).isSome
      = (regress_score s th binary num_sample it).isSome := by
  simp only [regress_score]
  split
  · rfl
  · split
    · rfl
    · split
      · rfl
      · by_cases hc : it = 0 ∨ s.m_best_index < 0
        · simp only [if_pos hc]
          rfl
        · simp only [if_neg hc]
          cases s.m_prs_results[s.m_best_index.toNat]? with
          | none => rfl
          | some b => rfl

/-- C13. For a binary phenotype, a scan over at most `num_threshold` thresholds
(no permutation requested) returns whichever fits fail to converge: every
threshold is iterated (`m_analysis_done` grows by their number), every
threshold with SNPs reaches the regression call and gets its result recorded,
the failing ones with the `r2 = 0` the caught exception leaves, and a failing fit
never changes whether `regress_score` returns. -/
theorem failed_fit_does_not_stop_scan (s0 : PRSice) (o : Options) (ths : List Threshold)
    (hbin : o.is_binary = true) (hlen : ths.length ≤ o.num_threshold)
    (hperm : o.permutation = 0) :
    ∃ t, run_prsice_scan s0 o ths = Outcome.ok t ∧
      t.m_analysis_done = s0.m_analysis_done + ths.length ∧
      (∀ j th, ths[j]? = some th → o.no_regress = false → th.num_snp_included ≠ 0 →
        j ∈ t.regressed ∧
        ∃ r, t.m_prs_results[j]? = some r ∧ r.r2 = (fitted true th).r2 ∧
          (th.glm = none → r.r2 = 0)) ∧
      (∀ (s : PRSice) (th : Threshold) (num_sample it : Nat),
        (regress_score s { th with glm := none } true num_sample it).isSome
          = (regress_score s th true num_sample it).isSome) := by
  obtain ⟨t, ht⟩ := run_prsice_scan_returns s0 o ths hlen hperm
  have inv := run_prsice_scan_inv s0 t o ths ht
  refine ⟨t, ht, ?_, ?_, fun s th n it => regress_score_returns_whatever_fit s th none true n it⟩
  · have := run_prsice_loop_done o hperm ths _ t 0 ht
    rw [this]; rfl
  · intro j th hj hreg hnz
    have hmem : j ∈ t.regressed := (inv.log_iff j).2 ⟨hreg, th, hj, hnz⟩
    obtain ⟨r, hr1, hr2, _⟩ := inv.slot_r2 j hmem
    have hr2' : r.r2 = (fitted true th).r2 := by
      rw [hr2, hbin]; simp only [scan_r2, hj]
    refine ⟨hmem, r, hr1, hr2', fun hnone => ?_⟩
    rw [hr2']; simp only [fitted, hnone, if_true]

/-- C13 at a binary scan whose first fit fails and whose second converges. -/
theorem failed_fit_does_not_stop_scan_witness :
    ∃ t, run_prsice_scan example_object { example_options with is_binary := true }
        [example_failed_fit, example_converged_fit 1] = Outcome.ok t ∧
      t.m_analysis_done = example_object.m_analysis_done + 2 ∧
      (∀ j th, [example_failed_fit, example_converged_fit 1][j]? = some th →
        ({ example_options with is_binary := true } : Options).no_regress = false →
        th.num_snp_included ≠ 0 →
        j ∈ t.regressed ∧
        ∃ r, t.m_prs_results[j]? = some r ∧ r.r2 = (fitted true th).r2 ∧
          (th.glm = none → r.r2 = 0)) ∧
      (∀ (s : PRSice) (th : Threshold) (num_sample it : Nat),
        (regress_score s { th with glm := none } true num_sample it).isSome
          = (regress_score s th true num_sample it).isSome) :=
  failed_fit_does_not_stop_scan example_object { example_options with is_binary := true }
    [example_failed_fit, example_converged_fit 1] rfl (by decide) rfl

/-! ## C14: a fit that does not converge is recorded like any other -/

/-- C14 (code at the failing input). A binary scan whose only threshold does not
converge ends with that threshold as best model: its result slot is filled
(threshold 1, `r2 = p = coefficient = se = 0`, 10 SNPs), `m_best_index` is 0 and
the best-sample-score snapshot holds its scores `1, 2`, where the reset had left
a slot with threshold `-1`, the index `-1` and the scores `0, 0`.  When a
converging threshold with `r2 = 0` follows, the failed fit stays the best
model. -/
theorem failed_fit_is_recorded_and_selected :
    ((run_prsice_reset example_object 3 2).m_best_index = -1 ∧
      (run_prsice_reset example_object 3 2).m_best_sample_score = [0, 0] ∧
      ((run_prsice_reset example_object 3 2).m_prs_results[0]?).map (fun r => r.threshold)
        = some (-1 : ℚ)) ∧
    (∃ t, run_prsice_scan example_object { example_options with is_binary := true }
        [example_failed_fit] = Outcome.ok t ∧
      t.m_best_index = 0 ∧ t.regressed = [0] ∧
      t.m_prs_results[0]? = some ⟨1, 0, 0, 0, 0, -1, 0, -1, 10⟩ ∧
      t.m_best_sample_score = [1, 2]) ∧
    (∃ t, run_prsice_scan example_object { example_options with is_binary := true }
        [example_failed_fit, example_converged_fit 0] = Outcome.ok t ∧
      t.m_best_index = 0 ∧ t.m_best_sample_score = [1, 2]) :=
  ⟨⟨rfl, rfl, rfl⟩,
   ⟨_, by with_unfolding_all rfl, by with_unfolding_all decide, by with_unfolding_all decide,
     by with_unfolding_all decide, by with_unfolding_all decide⟩,
   ⟨_, by with_unfolding_all rfl, by with_unfolding_all decide, by with_unfolding_all decide⟩⟩

/-! ## The best-sample-score snapshot -/

theorem foldl_set_getElem? (f : Nat → ℚ) (len : Nat) :
    ∀ (start : Nat) (l : List ℚ) (i : Nat),
      ((List.range' start len).foldl (fun acc s => acc.set s (f s)) l)[i]?
        = if start ≤ i ∧ i < start + len then (l[i]?).map (fun _ => f i) else l[i]? := by
  induction len with
  | zero =>
    intro start l i
    simp only [List.range'_zero, List.foldl_nil, Nat.add_zero]
    rw [if_neg (by omega)]
  | succ n ih =>
    intro start l i
    rw [List.range'_succ, List.foldl_cons, ih]
    by_cases h1 : start + 1 ≤ i ∧ i < start + 1 + n
    · rw [if_pos h1, if_pos (by omega), List.getElem?_set, if_neg (by omega)]
    · rw [if_neg h1]
      by_cases h2 : start = i
      · subst h2
        rw [if_pos (by omega), List.getElem?_set, if_pos rfl]
        by_cases hlt : start < l.length
        · rw [if_pos hlt, List.getElem?_eq_getElem hlt]; rfl
        · rw [if_neg hlt, List.getElem?_eq_none (by omega)]; rfl
      · rw [if_neg (by omega), List.getElem?_set, if_neg h2]

theorem snapshot_scores_eq (best : List ℚ) (num_sample : Nat) (score : Nat → ℚ)
    (h : best.length = num_sample) :
    snapshot_scores best num_sample score = (List.range num_sample).map score := by
  apply List.ext_getElem?
  intro i
  rw [snapshot_scores, List.range_eq_range', foldl_set_getElem?, ← List.range_eq_range',
    List.getElem?_map]
  by_cases hi : i < num_sample
  · rw [if_pos (by omega), List.getElem?_eq_getElem (by omega),
      List.getElem?_eq_getElem (by simpa using hi)]
    simp
  · rw [if_neg (by omega), List.getElem?_eq_none (by omega),
      List.getElem?_eq_none (by simp; omega)]
    rfl

/-- What `regress_score` does to the best model and to the snapshot when it does
not return early. -/
theorem regress_score_update (s t : PRSice) (th : Threshold) (binary : Bool)
    (num_sample it : Nat) (slot : prsice_result)
    (h0 : s.m_num_snp_included ≠ 0) (hslot : s.m_prs_results[it]? = some slot)
    (hne : s.m_num_snp_included ≠ slot.num_snp)
    (h : regress_score s th binary num_sample it = some t) :
    (t.m_best_index = it ∧
      t.m_best_sample_score
        = snapshot_scores s.m_best_sample_score num_sample th.calculate_score) ∨
    (t.m_best_index = s.m_best_index ∧ t.m_best_sample_score = s.m_best_sample_score ∧
      it ≠ 0 ∧ 0 ≤ s.m_best_index) := by
  simp only [regress_score, if_neg h0, hslot, if_neg hne] at h
  split at h
  · exact absurd h (by simp)
  · rename_i b hb
    simp only [Option.some.injEq] at h
    subst h
    cases b with
    | true => left; exact ⟨by simp, by simp⟩
    | false =>
      right
      refine ⟨by simp, by simp, ?_⟩
      split at hb
      · simp at hb
      · rename_i hc
        push_neg at hc
        exact hc

theorem SnapInv.transfer {o : Options} {pre : List Threshold} {s t : PRSice}
    (inv : SnapInv o pre s) (h1 : t.m_best_sample_score = s.m_best_sample_score)
    (h2 : t.m_best_index = s.m_best_index) : SnapInv o pre t := by
  constructor
  · rw [h1]; exact inv.len
  · rw [h1, h2]; exact inv.unset
  · rw [h1, h2]; exact inv.best

theorem SnapInv.extend {o : Options} {pre : List Threshold} {s : PRSice} (th : Threshold)
    (inv : SnapInv o pre s) : SnapInv o (pre ++ [th]) s := by
  refine ⟨inv.len, inv.unset, fun b hb => ?_⟩
  obtain ⟨th', h1, h2⟩ := inv.best b hb
  have hlt := (List.getElem?_eq_some.1 h1).1
  exact ⟨th', by rw [List.getElem?_append_left hlt]; exact h1, h2⟩

theorem SnapInv.step {o : Options} {pre : List Threshold} {s t : PRSice} {th : Threshold}
    (inv : SnapInv o pre s) (sinv : ScanInv o pre s) (hnz : th.num_snp_included ≠ 0)
    (hs : s.m_num_snp_included = th.num_snp_included)
    (h : regress_score s th o.is_binary o.num_sample pre.length = some t) :
    SnapInv o (pre ++ [th]) t := by
  have h0 : s.m_num_snp_included ≠ 0 := by rw [hs]; exact hnz
  cases hslot : s.m_prs_results[pre.length]? with
  | none => simp [regress_score, h0, hslot] at h
  | some slot =>
    have hz : slot.num_snp = 0 := sinv.untouched _ _ (Nat.le_refl _) hslot
    have hne : s.m_num_snp_included ≠ slot.num_snp := by rw [hz]; exact h0
    rcases regress_score_update s t th o.is_binary o.num_sample pre.length slot h0 hslot hne h
      with ⟨hb, hsnap⟩ | ⟨hb, hsnap, _, _⟩
    · rw [snapshot_scores_eq _ _ _ inv.len] at hsnap
      refine ⟨by rw [hsnap]; simp, fun hneg => ?_, fun b hbb => ?_⟩
      · rw [hb] at hneg; omega
      · rw [hb] at hbb
        have : b = pre.length := by omega
        subst this
        exact ⟨th, by simp, hsnap⟩
    · exact (inv.extend th).transfer hsnap hb

theorem run_prsice_reset_snap (s : PRSice) (o : Options) :
    SnapInv o [] (run_prsice_reset s o.num_threshold o.num_sample) := by
  refine ⟨by simp [run_prsice_reset, resize], fun _ => by simp [run_prsice_reset, resize],
    fun b hb => ?_⟩
  simp only [run_prsice_reset] at hb
  omega

theorem perm_frame_fields {s t : PRSice} (h : perm_frame s t) :
    t.m_best_index = s.m_best_index ∧ t.m_best_sample_score = s.m_best_sample_score ∧
    t.regressed = s.regressed ∧ t.m_prs_results = s.m_prs_results := by
  refine ⟨?_, ?_, ?_, ?_⟩
  · have := congrArg PRSice.m_best_index h; simpa using this
  · have := congrArg PRSice.m_best_sample_score h; simpa using this
  · have := congrArg PRSice.regressed h; simpa using this
  · have := congrArg PRSice.m_prs_results h; simpa using this

/-- One iteration of the scanning loop: either regression is disabled and only
the counters move, or `regress_score` runs and the permutation stage follows. -/
theorem run_prsice_step_cases (o : Options) (s t : PRSice) (it : Nat) (th : Threshold)
    (h : run_prsice_loop o s it [th] = Outcome.ok t) :
    (o.no_regress = true ∧
      t = { s with m_num_snp_included := th.num_snp_included
                   m_analysis_done := s.m_analysis_done + 1 }) ∨
    (o.no_regress = false ∧
      ∃ s2, regress_score { s with m_num_snp_included := th.num_snp_included
                                   m_analysis_done := s.m_analysis_done + 1 }
          th o.is_binary o.num_sample it = some s2 ∧ perm_frame s2 t) := by
  simp only [run_prsice_loop] at h
  split at h
  · rename_i hno
    simp only [Outcome.ok.injEq] at h
    exact Or.inl ⟨hno, h.symm⟩
  · rename_i hno
    right
    refine ⟨by simpa using hno, ?_⟩
    split at h
    · exact absurd h (by simp)
    · rename_i s2 hs2
      refine ⟨s2, hs2, ?_⟩
      split at h
      · rename_i s3 hs3
        simp only [Outcome.ok.injEq] at h
        subst h
        split at hs3
        · exact permutation_frame _ _ _ _ _ hs3
        · simp only [Outcome.ok.injEq] at hs3
          subst hs3
          exact perm_frame_refl _
      · rename_i hne
        exact (hne t h).elim

theorem run_prsice_loop_append (o : Options) (l1 l2 : List Threshold) :
    ∀ (s : PRSice) (it : Nat),
      run_prsice_loop o s it (l1 ++ l2)
        = match run_prsice_loop o s it l1 with
          | Outcome.ok s1 => run_prsice_loop o s1 (it + l1.length) l2
          | other => other := by
  induction l1 with
  | nil => intro s it; simp [run_prsice_loop]
  | cons th rest ih =>
    intro s it
    have hlen : it + (th :: rest).length = it + 1 + rest.length := by
      simp only [List.length_cons]; omega
    simp only [List.cons_append, run_prsice_loop, hlen]
    split
    · exact ih _ _
    · split
      · rfl
      · generalize (if o.permutation ≠ 0 then permutation _ o.thread o.is_binary th
          else Outcome.ok _) = x
        cases x with
        | ok s3 => exact ih _ _
        | thrown w p => rfl
        | terminated => rfl
        | undefined => rfl

theorem run_prsice_loop_snap (o : Options) (rest : List Threshold) :
    ∀ (pre : List Threshold) (s t : PRSice), ScanInv o pre s → SnapInv o pre s →
      run_prsice_loop o s pre.length rest = Outcome.ok t → SnapInv o (pre ++ rest) t := by
  induction rest with
  | nil =>
    intro pre s t _ snap h
    simp only [run_prsice_loop, Outcome.ok.injEq] at h
    subst h
    simpa using snap
  | cons th rest ih =>
    intro pre s t inv snap h
    have hpre : (pre ++ [th]).length = pre.length + 1 := by simp
    have happ := run_prsice_loop_append o [th] rest s pre.length
    simp only [List.singleton_append, List.length_singleton] at happ
    rw [happ] at h
    rw [show pre ++ th :: rest = (pre ++ [th]) ++ rest by simp]
    split at h
    · rename_i s1 hstep
      rw [← hpre] at h
      have inv1 : ScanInv o (pre ++ [th]) s1 := by
        have := run_prsice_loop_inv o [th] pre s s1 inv hstep
        exact this
      refine ih _ _ _ inv1 ?_ h
      rcases run_prsice_step_cases o s s1 pre.length th hstep with ⟨_, hs1⟩ | ⟨_, s2, hs2, hf⟩
      · rw [hs1]
        exact (snap.extend th).transfer rfl rfl
      · obtain ⟨f1, f2, _, _⟩ := perm_frame_fields hf
        have snap2 : SnapInv o (pre ++ [th]) s2 := by
          by_cases hz : th.num_snp_included = 0
          · rw [regress_score_skip _ _ _ _ _ hz] at hs2
            simp only [Option.some.injEq] at hs2
            rw [← hs2]
            exact (snap.extend th).transfer rfl rfl
          · refine SnapInv.step ?_ ?_ hz ?_ hs2
            · exact snap.transfer rfl rfl
            · exact inv.congr rfl rfl rfl
            · rfl
        exact snap2.transfer f2 f1
    · rename_i hne
      exact (hne t h).elim

theorem run_prsice_scan_snap (s t : PRSice) (o : Options) (ths : List Threshold)
    (h : run_prsice_scan s o ths = Outcome.ok t) : SnapInv o ths t := by
  have := run_prsice_loop_snap o ths [] _ t (run_prsice_reset_inv s o)
    (run_prsice_reset_snap s o) h
  simpa using this

/-! ## C15: when the best model and its snapshot are updated -/

theorem ScanInv.best_cases {o : Options} {pre : List Threshold} {s : PRSice}
    (inv : ScanInv o pre s) :
    (s.regressed = [] ∧ s.m_best_index = -1) ∨
    ∃ b : Nat, s.m_best_index = (b : Int) ∧ b < pre.length ∧ s.regressed ≠ [] := by
  rcases inv.best with h | ⟨b, hb1, hb2, _⟩
  · exact Or.inl h
  · exact Or.inr ⟨b, hb1, inv.log_lt hb2, List.ne_nil_of_mem hb2⟩

/-- C15. Take a scan of `run_prsice` that has processed the thresholds `pre` and
processes one more, `th`.  If `regress_score` reaches its regression call at `th`
(`pre.length` enters the log), the best model becomes `th` if and only if no
earlier threshold reached the call or the `r2` stored for the current best model
is strictly smaller than the `r2` of `th`; when the best model becomes `th` the
snapshot `m_best_sample_score` holds the scores of `th`, and otherwise best model
and snapshot are both unchanged.  If the call is not reached, both are unchanged.
In every case, after the step the snapshot holds the scores of the threshold
`m_best_index` points at. -/
theorem best_model_update_rule (s0 : PRSice) (o : Options) (pre : List Threshold)
    (th : Threshold) (s1 s2 : PRSice)
    (h1 : run_prsice_scan s0 o pre = Outcome.ok s1)
    (h2 : run_prsice_scan s0 o (pre ++ [th]) = Outcome.ok s2) :
    (pre.length ∈ s2.regressed →
      (s2.m_best_index = (pre.length : Int) ↔
        (s1.regressed = [] ∨
          ∃ (b : Nat) (r : prsice_result), s1.m_best_index = (b : Int) ∧
            s1.m_prs_results[b]? = some r ∧ r.r2 < (fitted o.is_binary th).r2)) ∧
      (s2.m_best_index = (pre.length : Int) →
        s2.m_best_sample_score = (List.range o.num_sample).map th.calculate_score) ∧
      (s2.m_best_index ≠ (pre.length : Int) →
        s2.m_best_index = s1.m_best_index ∧
          s2.m_best_sample_score = s1.m_best_sample_score)) ∧
    (pre.length ∉ s2.regressed →
      s2.m_best_index = s1.m_best_index ∧
        s2.m_best_sample_score = s1.m_best_sample_score) ∧
    (∀ b : Nat, s2.m_best_index = (b : Int) →
      ∃ th', (pre ++ [th])[b]? = some th' ∧
        s2.m_best_sample_score = (List.range o.num_sample).map th'.calculate_score) := by
  have inv1 := run_prsice_scan_inv s0 s1 o pre h1
  have snap1 := run_prsice_scan_snap s0 s1 o pre h1
  have snap2 := run_prsice_scan_snap s0 s2 o (pre ++ [th]) h2
  have hstep : run_prsice_loop o s1 pre.length [th] = Outcome.ok s2 := by
    have h := h2
    simp only [run_prsice_scan] at h h1
    rw [run_prsice_loop_append, h1] at h
    simpa using h
  have hnot : pre.length ∉ s1.regressed := fun hm => Nat.lt_irrefl _ (inv1.log_lt hm)
  have hbest_ne : s1.m_best_index ≠ (pre.length : Int) := by
    rcases inv1.best_cases with ⟨_, hb⟩ | ⟨b, hb, hlt, _⟩
    · rw [hb]; omega
    · rw [hb]; omega
  refine ⟨?_, ?_, snap2.best⟩
  · intro hmem
    rcases run_prsice_step_cases o s1 s2 pre.length th hstep with ⟨_, hs⟩ | ⟨_, s3, hs3, hf⟩
    · rw [hs] at hmem; exact absurd hmem hnot
    · obtain ⟨f1, f2, f3, _⟩ := perm_frame_fields hf
      rw [f1, f2]
      rw [f3] at hmem
      by_cases hz : th.num_snp_included = 0
      · rw [regress_score_skip _ _ _ _ _ hz] at hs3
        simp only [Option.some.injEq] at hs3
        rw [← hs3] at hmem
        exact absurd hmem hnot
      · cases hslot : s1.m_prs_results[pre.length]? with
        | none => simp [regress_score, hz, hslot] at hs3
        | some slot =>
          have hzs : slot.num_snp = 0 := inv1.untouched _ _ (Nat.le_refl _) hslot
          have hne : th.num_snp_included ≠ slot.num_snp := by rw [hzs]; exact hz
          have hrun := (regress_score_run
            { s1 with
              m_num_snp_included := th.num_snp_included
              m_analysis_done := s1.m_analysis_done + 1 }
            s3 th o.is_binary o.num_sample pre.length slot
            hz hslot hne hs3).2.2
          have hupd := regress_score_update
            { s1 with
              m_num_snp_included := th.num_snp_included
              m_analysis_done := s1.m_analysis_done + 1 }
            s3 th o.is_binary o.num_sample pre.length slot
            hz hslot hne hs3
          simp only at hrun hupd
          refine ⟨⟨fun hb => ?_, fun hc => ?_⟩, fun hb => ?_, fun hb => ?_⟩
          · rcases hrun with ⟨_, hwhy⟩ | ⟨hsame, _⟩
            · rcases hwhy with h0 | hneg | ⟨r, hr, hlt⟩
              · left
                cases hreg : s1.regressed with
                | nil => rfl
                | cons j js =>
                  have := inv1.log_lt (j := j) (by rw [hreg]; simp)
                  omega
              · rcases inv1.best_cases with ⟨he, _⟩ | ⟨b, hb1, _, _⟩
                · exact Or.inl he
                · rw [hb1] at hneg; omega
              · rcases inv1.best_cases with ⟨he, _⟩ | ⟨b, hb1, _, _⟩
                · exact Or.inl he
                · right
                  refine ⟨b, r, hb1, ?_, hlt⟩
                  rw [hb1] at hr
                  simpa using hr
            · rw [hsame] at hb; exact absurd hb hbest_ne
          · rcases hrun with ⟨hnew, _⟩ | ⟨_, _, hpos, r, hr, hnlt⟩
            · exact hnew
            · rcases hc with he | ⟨b, r', hb1, hr', hlt⟩
              · rcases inv1.best_cases with ⟨_, hm⟩ | ⟨_, _, _, hne'⟩
                · rw [hm] at hpos; omega
                · exact absurd he hne'
              · rw [hb1] at hr
                simp only [Int.toNat_ofNat] at hr
                rw [hr'] at hr
                simp only [Option.some.injEq] at hr
                rw [hr] at hlt
                exact absurd hlt hnlt
          · rcases hupd with ⟨_, hsn⟩ | ⟨hsame, _⟩
            · rw [hsn]
              exact snapshot_scores_eq _ _ _ snap1.len
            · rw [hsame] at hb; exact absurd hb hbest_ne
          · rcases hupd with ⟨hnew, _⟩ | ⟨hsame, hsn, _⟩
            · exact absurd hnew hb
            · exact ⟨hsame, hsn⟩
  · intro hmem
    rcases run_prsice_step_cases o s1 s2 pre.length th hstep with ⟨_, hs⟩ | ⟨_, s3, hs3, hf⟩
    · rw [hs]; exact ⟨rfl, rfl⟩
    · obtain ⟨f1, f2, f3, _⟩ := perm_frame_fields hf
      rw [f1, f2]
      rw [f3] at hmem
      by_cases hz : th.num_snp_included = 0
      · rw [regress_score_skip _ _ _ _ _ hz] at hs3
        simp only [Option.some.injEq] at hs3
        rw [← hs3]
        exact ⟨rfl, rfl⟩
      · cases hslot : s1.m_prs_results[pre.length]? with
        | none => simp [regress_score, hz, hslot] at hs3
        | some slot =>
          have hzs : slot.num_snp = 0 := inv1.untouched _ _ (Nat.le_refl _) hslot
          have hne : th.num_snp_included ≠ slot.num_snp := by rw [hzs]; exact hz
          have hrun := (regress_score_run
            { s1 with
              m_num_snp_included := th.num_snp_included
              m_analysis_done := s1.m_analysis_done + 1 }
            s3 th o.is_binary o.num_sample pre.length slot
            hz hslot hne hs3).1
          rw [hrun] at hmem
          exact absurd (List.mem_cons_self _ _) hmem

/-- C15 at a scan of two computed thresholds: the second has the greater `r2`
(1 against 0), so it becomes the best model and the snapshot holds its scores
`5, 6`; before the step the snapshot held the scores `1, 2` of the first. -/
theorem best_model_update_rule_witness :
    ∃ s1 s2,
      run_prsice_scan example_object example_options [example_scored 10 0 1] = Outcome.ok s1 ∧
      run_prsice_scan example_object example_options
        ([example_scored 10 0 1] ++ [example_scored 50 1 5]) = Outcome.ok s2 ∧
      s1.m_best_index = 0 ∧ s1.m_best_sample_score = [1, 2] ∧
      s2.m_best_index = 1 ∧ s2.m_best_sample_score = [5, 6] ∧
      (1 ∈ s2.regressed →
        (s2.m_best_index = 1 ↔
          (s1.regressed = [] ∨
            ∃ (b : Nat) (r : prsice_result), s1.m_best_index = (b : Int) ∧
              s1.m_prs_results[b]? = some r ∧ r.r2 < 1)) ∧
        (s2.m_best_index = 1 →
          s2.m_best_sample_score = (List.range 2).map (example_scored 50 1 5).calculate_score) ∧
        (s2.m_best_index ≠ 1 →
          s2.m_best_index = s1.m_best_index ∧
            s2.m_best_sample_score = s1.m_best_sample_score)) :=
  ⟨_, _, rfl, rfl, rfl, by with_unfolding_all rfl, rfl, by with_unfolding_all rfl,
    (best_model_update_rule example_object example_options [example_scored 10 0 1]
      (example_scored 50 1 5) _ _ rfl rfl).1⟩

/-! ## C20: the design matrix keeps the rows of dropped samples -/

theorem assign_cell_length (m m1 : List (List ℚ)) (i j : Nat) (v : ℚ)
    (h : assign_cell m i j v = some m1) : m1.length = m.length := by
  unfold assign_cell at h
  split at h
  · exact absurd h (by simp)
  · split at h
    · simp only [Option.some.injEq] at h
      rw [← h]; simp
    · exact absurd h (by simp)

theorem fill_covariates_length (convert : String → Except String ℚ) (token : List String)
    (cov_header_index factor_cov_index cov_start_index : List Nat)
    (factor_list : List (List (String × Nat))) (index : Nat) (todo : List Nat) :
    ∀ (cur_factor_index : Nat) (m m1 : List (List ℚ)),
      fill_covariates convert token cov_header_index factor_cov_index cov_start_index
        factor_list index todo cur_factor_index m = Outcome.ok m1 → m1.length = m.length := by
  induction todo with
  | nil =>
    intro c m m1 h
    simp only [fill_covariates, Outcome.ok.injEq] at h
    rw [h]
  | cons i rest ih =>
    intro c m m1 h
    simp only [fill_covariates] at h
    split at h
    · exact absurd h (by simp)
    · split at h
      · split at h
        · exact absurd h (by simp)
        · split at h
          · exact absurd h (by simp)
          · split at h
            · exact absurd h (by simp)
            · split at h
              · exact absurd h (by simp)
              · rename_i m2 hm2
                rw [ih _ _ _ h, assign_cell_length _ _ _ _ _ hm2]
      · split at h
        · split at h
          · split at h
            · exact absurd h (by simp)
            · split at h
              · exact absurd h (by simp)
              · rename_i m2 hm2
                rw [ih _ _ _ h, assign_cell_length _ _ _ _ _ hm2]
          · exact ih _ _ _ h
        · exact absurd h (by simp)

theorem fill_lines_length (convert : String → Except String ℚ) (ignore_fid : Bool)
    (map : List (String × Nat)) (cov_header_index factor_cov_index cov_start_index : List Nat)
    (factor_list : List (List (String × Nat))) (max_index : Nat) (lines : List (List String)) :
    ∀ (m m1 : List (List ℚ)),
      fill_lines convert ignore_fid map cov_header_index factor_cov_index cov_start_index
        factor_list max_index lines m = Outcome.ok m1 → m1.length = m.length := by
  induction lines with
  | nil =>
    intro m m1 h
    simp only [fill_lines, Outcome.ok.injEq] at h
    rw [h]
  | cons token rest ih =>
    intro m m1 h
    simp only [fill_lines] at h
    split at h
    · exact ih _ _ h
    · split at h
      · exact absurd h (by simp)
      · split at h
        · exact absurd h (by simp)
        · split at h
          · exact ih _ _ h
          · split at h
            · rename_i m2 hm2
              rw [ih _ _ h, fill_covariates_length _ _ _ _ _ _ _ _ _ _ _ hm2]
            · rename_i hne
              exact (hne m1 h).elim

/-- Whenever `gen_cov_matrix` returns, the design matrix has one row per entry of
the sample map at entry, whatever `process_cov_file` did to the map since. -/
theorem gen_cov_matrix_rows (convert : String → Except String ℚ) (s t : PRSice_cov)
    (c_cov_file : cov_file) (cov_header_index factor_cov_index : List Nat)
    (h : gen_cov_matrix convert s c_cov_file cov_header_index factor_cov_index = Outcome.ok t) :
    t.m_independent_variables.length = s.m_sample_with_phenotypes.length := by
  unfold gen_cov_matrix at h
  simp only at h
  split at h
  · simp only [Outcome.ok.injEq] at h
    rw [← h]; simp
  · split at h
    · split at h
      · exact absurd h (by simp)
      · split at h
        · exact absurd h (by simp)
        · split at h
          · exact absurd h (by simp)
          · split at h
            · rename_i m1 hm1
              simp only [Outcome.ok.injEq] at h
              rw [← h]
              simp only
              rw [fill_lines_length _ _ _ _ _ _ _ _ _ _ _ hm1]
              simp
            · exact absurd h (by simp)
            · exact absurd h (by simp)
            · exact absurd h (by simp)
    · exact absurd h (by simp)
    · exact absurd h (by simp)
    · exact absurd h (by simp)

/-- Without factor covariates `gen_cov_matrix` leaves the phenotype vector and the
sample map as they were. -/
theorem gen_cov_matrix_no_factor (convert : String → Except String ℚ) (s t : PRSice_cov)
    (c_cov_file : cov_file) (cov_header_index : List Nat)
    (h : gen_cov_matrix convert s c_cov_file cov_header_index [] = Outcome.ok t) :
    t.m_phenotype = s.m_phenotype ∧
      t.m_sample_with_phenotypes = s.m_sample_with_phenotypes := by
  unfold gen_cov_matrix at h
  simp only [List.length_nil, ne_eq, not_true_eq_false, if_false] at h
  split at h
  · simp only [Outcome.ok.injEq] at h
    rw [← h]
    exact ⟨rfl, rfl⟩
  · split at h
    · exact absurd h (by simp)
    · split at h
      · exact absurd h (by simp)
      · split at h
        · exact absurd h (by simp)
        · split at h
          · simp only [Outcome.ok.injEq] at h
            rw [← h]
            exact ⟨rfl, rfl⟩
          · exact absurd h (by simp)
          · exact absurd h (by simp)
          · exact absurd h (by simp)

/-- C20 (code at the failing input). Three phenotyped samples, phenotype vector
and sample map of size 3, one factor covariate, the covariate of the second
sample `NA`: `gen_cov_matrix` returns, `process_cov_file` has dropped the second
sample, the phenotype vector and the sample map have 2 entries, and the design
matrix has 3 rows, the last of them a row no sample of the map points at. -/
theorem gen_cov_matrix_keeps_dropped_rows :
    example_phenotyped.m_phenotype.length = 3 ∧
    example_phenotyped.m_sample_with_phenotypes.length = 3 ∧
    ∃ t, gen_cov_matrix example_convert example_phenotyped example_cov_file [2] [2]
        = Outcome.ok t ∧
      t.m_phenotype = [10, 30] ∧
      t.m_sample_with_phenotypes = [("f_a", 0), ("f_c", 1)] ∧
      t.m_independent_variables = [[1, 1, 0], [1, 1, 1], [1, 1, 0]] ∧
      t.m_independent_variables.length = 3 ∧
      t.m_phenotype.length = 2 ∧
      t.m_sample_with_phenotypes.length = 2 :=
  ⟨rfl, rfl, _, rfl, rfl, rfl, rfl, rfl, rfl, rfl⟩

/-! ## C22: the final flush of a worker does not depend on the order -/

theorem consume_flush_spec (buf : List (ℚ × Nat)) :
    ∀ r : List ℚ, (∀ p ∈ buf, p.2 < r.length) →
      ∃ out, consume_flush r buf = some out ∧ out.length = r.length ∧
        ∀ i, out[i]? = (r[i]?).map (flush_value buf i) := by
  induction buf with
  | nil =>
    intro r _
    refine ⟨r, rfl, rfl, fun i => ?_⟩
    cases r[i]? <;> rfl
  | cons p rest ih =>
    intro r hr
    obtain ⟨obs_t, index⟩ := p
    have hidx : index < r.length := hr (obs_t, index) (List.mem_cons_self _ _)
    have hold : r[index]? = some r[index] := List.getElem?_eq_getElem hidx
    obtain ⟨out, h1, h2, h3⟩ :=
      ih (if r[index] < obs_t then r.set index obs_t else r) (by
        intro q hq
        have := hr q (List.mem_cons_of_mem _ hq)
        split <;> simpa using this)
    refine ⟨out, ?_, ?_, fun i => ?_⟩
    · simp only [consume_flush, hold]; exact h1
    · rw [h2]; split <;> simp
    · rw [h3 i]
      by_cases hi : index = i
      · subst hi
        have hval : (if r[index] < obs_t then r.set index obs_t else r)[index]?
            = some (max r[index] obs_t) := by
          by_cases hlt : r[index] < obs_t
          · rw [if_pos hlt, List.getElem?_set_self hidx, max_eq_right (le_of_lt hlt)]
          · rw [if_neg hlt, hold, max_eq_left (not_lt.1 hlt)]
        rw [hval, hold]
        simp [flush_value, List.filter_cons]
      · have hval : (if r[index] < obs_t then r.set index obs_t else r)[i]? = r[i]? := by
          split
          · exact List.getElem?_set_ne hi
          · rfl
        rw [hval]
        cases r[i]? with
        | none => rfl
        | some old => simp [flush_value, List.filter_cons, hi]

theorem consume_flush_append (a b : List (ℚ × Nat)) :
    ∀ r : List ℚ, consume_flush r (a ++ b) = (consume_flush r a).bind (fun r1 => consume_flush r1 b) := by
  induction a with
  | nil => intro r; rfl
  | cons p rest ih =>
    intro r
    obtain ⟨obs_t, index⟩ := p
    simp only [List.cons_append, consume_flush]
    cases r[index]? with
    | none => rfl
    | some old => exact ih _

theorem flush_value_perm {a b : List (ℚ × Nat)} (h : a.Perm b) (i : Nat) (old : ℚ) :
    flush_value a i old = flush_value b i old := by
  unfold flush_value
  refine List.Perm.foldl_eq' (h.filter _) ?_ old
  intro x _ y _ z
  simp only [max_assoc, max_comm x.1 y.1]

theorem foldl_max_spec (l : List (ℚ × Nat)) :
    ∀ old : ℚ,
      old ≤ l.foldl (fun m p => max m p.1) old ∧
      (∀ p ∈ l, p.1 ≤ l.foldl (fun m p => max m p.1) old) ∧
      (l.foldl (fun m p => max m p.1) old = old ∨
        ∃ p ∈ l, l.foldl (fun m p => max m p.1) old = p.1) := by
  induction l with
  | nil => intro old; simp
  | cons q rest ih =>
    intro old
    obtain ⟨h1, h2, h3⟩ := ih (max old q.1)
    simp only [List.foldl_cons]
    refine ⟨le_trans (le_max_left _ _) h1, ?_, ?_⟩
    · intro p hp
      rcases List.mem_cons.1 hp with rfl | hp
      · exact le_trans (le_max_right _ _) h1
      · exact h2 p hp
    · rcases h3 with h3 | ⟨p, hp, h3⟩
      · rcases max_choice old q.1 with hm | hm
        · left; rw [h3, hm]
        · right; exact ⟨q, List.mem_cons_self _ _, by rw [h3, hm]⟩
      · right; exact ⟨p, List.mem_cons_of_mem _ hp, h3⟩

/-- C22. For every aggregate `r` and every two local buffers `a` and `b` whose
indices are slots of `r`: flushing `a` then `b`, flushing `b` then `a`, and
flushing any reordering `c` of `a ++ b` all return the same aggregate `out`.  It
has the length of `r`; slot `i` of `out` is the maximum of the old value and of
the statistics recorded for `i` (it is at least each of them and equal to one of
them), and a slot no entry of the buffers names is unchanged. -/
theorem consume_flush_order_independent (r : List ℚ) (a b c : List (ℚ × Nat))
    (ha : ∀ p ∈ a, p.2 < r.length) (hb : ∀ p ∈ b, p.2 < r.length)
    (hc : c.Perm (a ++ b)) :
    ∃ out,
      (consume_flush r a).bind (fun r1 => consume_flush r1 b) = some out ∧
      (consume_flush r b).bind (fun r1 => consume_flush r1 a) = some out ∧
      consume_flush r c = some out ∧
      out.length = r.length ∧
      (∀ i old, r[i]? = some old →
        ∃ v, out[i]? = some v ∧ old ≤ v ∧
          (∀ p ∈ a ++ b, p.2 = i → p.1 ≤ v) ∧
          (v = old ∨ ∃ p ∈ a ++ b, p.2 = i ∧ v = p.1)) ∧
      (∀ i, (∀ p ∈ a ++ b, p.2 ≠ i) → out[i]? = r[i]?) := by
  have hab : ∀ p ∈ a ++ b, p.2 < r.length := by
    intro p hp
    rcases List.mem_append.1 hp with h | h
    · exact ha p h
    · exact hb p h
  have hba : ∀ p ∈ b ++ a, p.2 < r.length := by
    intro p hp
    rcases List.mem_append.1 hp with h | h
    · exact hb p h
    · exact ha p h
  have hcr : ∀ p ∈ c, p.2 < r.length := fun p hp => hab p (hc.subset hp)
  obtain ⟨out, h1, h2, h3⟩ := consume_flush_spec (a ++ b) r hab
  obtain ⟨out2, k1, k2, k3⟩ := consume_flush_spec (b ++ a) r hba
  obtain ⟨out3, m1, m2, m3⟩ := consume_flush_spec c r hcr
  have e2 : out2 = out := by
    apply List.ext_getElem?
    intro i
    rw [k3 i, h3 i]
    cases r[i]? with
    | none => rfl
    | some old =>
      simp only [Option.map_some']
      rw [flush_value_perm List.perm_append_comm]
  have e3 : out3 = out := by
    apply List.ext_getElem?
    intro i
    rw [m3 i, h3 i]
    cases r[i]? with
    | none => rfl
    | some old =>
      simp only [Option.map_some']
      rw [flush_value_perm hc]
  refine ⟨out, ?_, ?_, ?_, h2, ?_, ?_⟩
  · rw [← consume_flush_append]; exact h1
  · rw [← consume_flush_append, k1, e2]
  · rw [m1, e3]
  · intro i old hold
    refine ⟨flush_value (a ++ b) i old, by rw [h3 i, hold]; rfl, ?_⟩
    obtain ⟨f1, f2, f3⟩ := foldl_max_spec ((a ++ b).filter (fun p => p.2 = i)) old
    refine ⟨f1, ?_, ?_⟩
    · intro p hp hi
      exact f2 p (List.mem_filter.2 ⟨hp, by simpa using hi⟩)
    · rcases f3 with f3 | ⟨p, hp, f3⟩
      · exact Or.inl f3
      · have := List.mem_filter.1 hp
        exact Or.inr ⟨p, this.1, by simpa using this.2, f3⟩
  · intro i hi
    rw [h3 i]
    cases r[i]? with
    | none => rfl
    | some old =>
      have : (a ++ b).filter (fun p => p.2 = i) = [] := by
        apply List.filter_eq_nil_iff.2
        intro p hp
        simpa using hi p hp
      simp [flush_value, this]

/-- C22 at three fresh slots, the buffers `[(3, 0), (1, 1)]` and `[(5, 0)]` and
the reversed concatenation: every order gives `[5, 2, 2]`. -/
theorem consume_flush_order_independent_witness :
    ∃ out,
      (consume_flush [2, 2, 2] [(3, 0), (1, 1)]).bind (fun r1 => consume_flush r1 [(5, 0)])
        = some out ∧
      (consume_flush [2, 2, 2] [(5, 0)]).bind (fun r1 => consume_flush r1 [(3, 0), (1, 1)])
        = some out ∧
      consume_flush [2, 2, 2] ([((3 : ℚ), 0), (1, 1)] ++ [(5, 0)]).reverse = some out ∧
      out.length = ([2, 2, 2] : List ℚ).length ∧
      (∀ (i : Nat) (old : ℚ), ([2, 2, 2] : List ℚ)[i]? = some old →
        ∃ v, out[i]? = some v ∧ old ≤ v ∧
          (∀ p ∈ [((3 : ℚ), 0), (1, 1)] ++ [(5, 0)], p.2 = i → p.1 ≤ v) ∧
          (v = old ∨ ∃ p ∈ [((3 : ℚ), 0), (1, 1)] ++ [(5, 0)], p.2 = i ∧ v = p.1)) ∧
      (∀ i : Nat, (∀ p ∈ [((3 : ℚ), 0), (1, 1)] ++ [(5, 0)], p.2 ≠ i) →
        out[i]? = ([2, 2, 2] : List ℚ)[i]?) :=
  consume_flush_order_independent [2, 2, 2] [(3, 0), (1, 1)] [(5, 0)]
    ([((3 : ℚ), 0), (1, 1)] ++ [(5, 0)]).reverse (by decide) (by decide) (List.reverse_perm _)

/-! ## C21: the observed statistic is signed -/

/-- C21 (code at the failing input). A continuous phenotype, three permutations
whose null statistic is the magnitude `|1 / 1| = 1`.  With the observed
coefficient `-3` (standard error 1) `process_permutations` compares the null
magnitudes with the signed `-3 / 1`, counts all three and gives `emp_p = 1`; with
the coefficient `3`, of the same magnitude, it counts none and gives `1 / 4`.  In
the decomposed branch the null statistic is never negative; in the `glm` branch
it is signed (`-5 / 1` here). -/
theorem observed_statistic_is_signed :
    (∃ t x, run_prsice example_object { example_options with permutation := 3 }
        [example_effect (-3)] = Outcome.ok (t, x) ∧
      t.m_perm_result = [1, 1, 1] ∧
      (t.m_prs_results[0]?).map (fun r => (r.coefficient / r.se, r.emp_p))
        = some ((-3 : ℚ), (1 : ℚ))) ∧
    (∃ t x, run_prsice example_object { example_options with permutation := 3 }
        [example_effect 3] = Outcome.ok (t, x) ∧
      t.m_perm_result = [1, 1, 1] ∧
      (t.m_prs_results[0]?).map (fun r => (r.coefficient / r.se, r.emp_p))
        = some ((3 : ℚ), (1 / 4 : ℚ))) ∧
    (∀ (th : Threshold) (i : Nat), ∃ x, null_statistic false th i = some x ∧ 0 ≤ x) ∧
    (∀ i, null_statistic true example_signed_null i = some (-5)) :=
  ⟨⟨_, _, by with_unfolding_all rfl, by with_unfolding_all decide,
      by with_unfolding_all decide⟩,
   ⟨_, _, by with_unfolding_all rfl, by with_unfolding_all decide,
      by with_unfolding_all decide⟩,
   fun th i => ⟨|(th.null_qr i).1 / (th.null_qr i).2|, by simp [null_statistic], abs_nonneg _⟩,
   fun _ => by simp [null_statistic, example_signed_null]⟩

/-! ## C23: the one-thread path and the worker path fold differently -/

/-- C23 (code at the failing input). One threshold, three draws, a fresh object
(every slot starts at 2), the same statistic for every draw on both paths.  When
the statistic is 1 the one-thread path leaves `1` in every slot and the worker
path leaves `2`; when it is 3 the one-thread path leaves `2` and the worker path
`3`.  One slot update of the one-thread path is `min`, the flush of a worker is
`max`. -/
theorem sequential_and_worker_folds_differ :
    (∃ t, run_prsice_scan example_object { example_options with permutation := 3 }
        [example_null_threshold 10 0 1 []] = Outcome.ok t ∧ t.m_perm_result = [1, 1, 1]) ∧
    (∃ t, run_prsice_scan example_object
        { example_options with permutation := 3, thread := 3 }
        [example_null_threshold 10 0 1 [[0, 1], [2]]] = Outcome.ok t ∧
      t.m_perm_result = [2, 2, 2]) ∧
    (∃ t, run_prsice_scan example_object { example_options with permutation := 3 }
        [example_null_threshold 10 0 3 []] = Outcome.ok t ∧ t.m_perm_result = [2, 2, 2]) ∧
    (∃ t, run_prsice_scan example_object
        { example_options with permutation := 3, thread := 3 }
        [example_null_threshold 10 0 3 [[0, 1], [2]]] = Outcome.ok t ∧
      t.m_perm_result = [3, 3, 3]) ∧
    (∀ (stat : Nat → ℚ) (old : ℚ), min_update stat [old] 0 = [min (stat 0) old]) ∧
    (∀ (obs_t old : ℚ), consume_flush [old] [(obs_t, 0)] = some [max old obs_t]) :=
  ⟨⟨_, by with_unfolding_all rfl, by with_unfolding_all decide⟩,
   ⟨_, by with_unfolding_all rfl, by with_unfolding_all decide⟩,
   ⟨_, by with_unfolding_all rfl, by with_unfolding_all decide⟩,
   ⟨_, by with_unfolding_all rfl, by with_unfolding_all decide⟩,
   fun _ _ => rfl,
   fun obs_t old => by
    by_cases h : old < obs_t
    · simp [consume_flush, h, max_eq_right (le_of_lt h)]
    · simp [consume_flush, h, max_eq_left (not_lt.1 h)]⟩

/-! ## C30: the read of `factor_cov_index` after the last factor -/

/-- Once every factor covariate has been matched, the next covariate of the
validity loop reads `factor_cov_index` at its length (line 589). -/
theorem valid_loop_past_end (convert : String → Except String ℚ) (factor_cov_index : List Nat)
    (token : List String) (header : Nat) (rest : List Nat) (valid : Bool)
    (factor_level_index : Nat) (h : factor_cov_index.length ≤ factor_level_index) :
    valid_loop convert factor_cov_index token (header :: rest) valid factor_level_index
      = none := by
  have hn : factor_cov_index[factor_level_index]? = none := List.getElem?_eq_none h
  simp only [valid_loop, hn]
  cases token[header]? <;> rfl

/-- C30 (code at the failing input). Covariates in the columns 2 and 3 (sorted),
the factor covariate in column 2, so that a non-factor covariate follows the last
factor: for a sample line with four convertible tokens the validity loop reads
`factor_cov_index` at position 1, its length, and `process_cov_file` as a whole
is undefined on a file with such a line.  When the factor is the last covariate
(column 3) the loop ends with the sample valid.  For every sorted covariate list
`pre ++ [f, c]` whose only factor `f` is followed by a covariate `c`, the read
outside happens on every line with enough tokens. -/
theorem valid_loop_reads_past_factors :
    valid_loop example_convert [2] ["f", "a", "1", "2"] [2, 3] true 0 = none ∧
    valid_loop example_convert [3] ["f", "a", "1", "2"] [2, 3] true 0 = some true ∧
    process_cov_file example_convert example_phenotyped
        { name := "cov", is_open := true, lines := [["f", "a", "1", "2"]] } [2] [2, 3]
        { cov_start_index := [], num_column := 4, factor_levels := [] }
      = Outcome.undefined ∧
    (∀ (convert : String → Except String ℚ) (token : List String) (f c : Nat),
      f < token.length →
      valid_loop convert [f] token [f, c] true 0 = none) :=
  ⟨rfl, rfl, rfl, by
    intro convert token f c hf
    have ht : token[f]? = some token[f] := List.getElem?_eq_getElem hf
    simp only [valid_loop, ht, List.getElem?_cons_zero, if_true]
    cases token[c]? <;> rfl⟩

/-! ## C26: on one thread no null statistic exceeds the initial value 2 -/

theorem null_perm_loop_bound (run_glm : Bool) (th : Threshold) (remaining : Nat) :
    ∀ (s : PRSice) (processed : Nat) (t : PRSice),
      (∀ x ∈ s.m_perm_result, x ≤ 2) →
      null_perm_loop run_glm th s processed remaining = Outcome.ok t →
      ∀ x ∈ t.m_perm_result, x ≤ 2 := by
  induction remaining with
  | zero =>
    intro s processed t hs h
    simp only [null_perm_loop, Outcome.ok.injEq] at h
    rw [← h]; exact hs
  | succ n ih =>
    intro s processed t hs h
    simp only [null_perm_loop] at h
    split at h
    · exact absurd h (by simp)
    · rename_i obs_t _
      split at h
      · exact absurd h (by simp)
      · rename_i old hold
        refine ih _ _ _ ?_ h
        intro x hx
        rcases List.mem_or_eq_of_mem_set hx with hx | hx
        · exact hs x hx
        · rw [hx]
          exact le_trans (min_le_right _ _) (hs old (List.getElem?_mem hold))

theorem run_prsice_loop_bound (o : Options) (hthread : o.thread = 1) (rest : List Threshold) :
    ∀ (s t : PRSice) (it : Nat), (∀ x ∈ s.m_perm_result, x ≤ 2) →
      run_prsice_loop o s it rest = Outcome.ok t → ∀ x ∈ t.m_perm_result, x ≤ 2 := by
  induction rest with
  | nil =>
    intro s t it hs h
    simp only [run_prsice_loop, Outcome.ok.injEq] at h
    rw [← h]; exact hs
  | cons th rest ih =>
    intro s t it hs h
    simp only [run_prsice_loop] at h
    split at h
    · refine ih _ _ _ ?_ h
      exact hs
    · split at h
      · exact absurd h (by simp)
      · rename_i s2 hs2
        obtain ⟨r1, _⟩ := regress_score_perm _ _ _ _ _ _ hs2
        have hs2b : ∀ x ∈ s2.m_perm_result, x ≤ 2 := by rw [r1]; exact hs
        split at h
        · rename_i s3 hs3
          refine ih _ _ _ ?_ h
          split at hs3
          · simp only [permutation, hthread, if_true] at hs3
            exact null_perm_loop_bound _ _ _ _ _ _ hs2b hs3
          · simp only [Outcome.ok.injEq] at hs3
            rw [← hs3]; exact hs2b
        · rename_i hne
          exact (hne t h).elim

theorem run_prsice_reset_bound (s : PRSice) (num_threshold num_sample : Nat)
    (hs : ∀ x ∈ s.m_perm_result, x ≤ 2) :
    ∀ x ∈ (run_prsice_reset s num_threshold num_sample).m_perm_result, x ≤ 2 := by
  intro x hx
  simp only [run_prsice_reset, resize] at hx
  rcases List.mem_append.1 hx with hx | hx
  · exact hs x (List.mem_of_mem_take hx)
  · rw [(List.mem_replicate.1 hx).2]

/-- C26. A scan of `run_prsice` on one thread that starts from an array whose
slots are all at most 2 (a fresh object: the array is empty and the reset sizes
it with 2 in every slot) ends, after any number of thresholds and so of
permutation passes, with every slot at most 2.  Consequently, when the best
model has `coefficient / se ≥ 2`, `process_permutations` returns and writes
`emp_p = 1 / (m_num_perm + 1)`, whatever the statistics of the draws were. -/
theorem one_thread_slots_at_most_two (s0 : PRSice) (o : Options) (ths : List Threshold)
    (t : PRSice) (hthread : o.thread = 1) (hfresh : ∀ x ∈ s0.m_perm_result, x ≤ 2)
    (h : run_prsice_scan s0 o ths = Outcome.ok t) :
    (∀ x ∈ t.m_perm_result, x ≤ 2) ∧
    t.m_perm_result.length = t.m_num_perm ∧
    (∀ (b : Nat) (best : prsice_result), t.m_best_index = (b : Int) →
      t.m_prs_results[b]? = some best → 2 ≤ best.coefficient / best.se →
      ∃ t1, process_permutations t = some t1 ∧
        t1.m_prs_results[b]? = some { best with emp_p := 1 / ((t.m_num_perm : ℚ) + 1) }) := by
  have hb : ∀ x ∈ t.m_perm_result, x ≤ 2 :=
    run_prsice_loop_bound o hthread ths _ t 0 (run_prsice_reset_bound s0 _ _ hfresh) h
  refine ⟨hb, run_prsice_scan_perm_length s0 t o ths h, ?_⟩
  intro b best hbi hbest hge
  refine ⟨_, process_permutations_set t b best hbi hbest, ?_⟩
  rw [process_permutations_slot t b best hbest]
  have hc : t.m_perm_result.countP (fun x => decide (x > best.coefficient / best.se)) = 0 := by
    apply List.countP_eq_zero.2
    intro x hx
    have := hb x hx
    simp only [gt_iff_lt, decide_eq_true_eq, not_lt]
    exact le_trans this hge
  rw [hc]
  simp

/-- C26 at a fresh object, one threshold with observed statistic `3 / 1` and three
draws with the statistic 1: the slots end at `1, 1, 1` and `emp_p` is `1 / 4`. -/
theorem one_thread_slots_at_most_two_witness :
    ∃ t, run_prsice_scan example_object { example_options with permutation := 3 }
        [example_effect 3] = Outcome.ok t ∧
      t.m_perm_result = [1, 1, 1] ∧
      (∀ x ∈ t.m_perm_result, x ≤ 2) ∧
      t.m_perm_result.length = t.m_num_perm ∧
      (∀ (b : Nat) (best : prsice_result), t.m_best_index = (b : Int) →
        t.m_prs_results[b]? = some best → 2 ≤ best.coefficient / best.se →
        ∃ t1, process_permutations t = some t1 ∧
          t1.m_prs_results[b]? = some { best with emp_p := 1 / ((t.m_num_perm : ℚ) + 1) }) :=
  ⟨_, by with_unfolding_all rfl, by with_unfolding_all decide,
    one_thread_slots_at_most_two example_object { example_options with permutation := 3 }
      [example_effect 3] _ rfl (by intro x hx; simp [example_object] at hx)
      (by with_unfolding_all rfl)⟩

/-! ## C27: the partial shuffle of the background -/

theorem swap_perm (l : List Nat) (i j : Nat) (hi : i < l.length) (hj : j < l.length) :
    ((l.set i l[j]).set j l[i]).Perm l := by
  rw [List.perm_iff_count]
  intro b
  have hj2 : j < (l.set i l[j]).length := by simpa using hj
  rw [List.count_set _ _ _ _ hj2, List.count_set _ _ _ _ hi]
  have hget : (l.set i l[j])[j] = l[j] := by
    rw [List.getElem_set]
    split
    · rfl
    · rfl
  rw [hget]
  have hle : (if (l[i] == b) = true then 1 else 0) ≤ l.count b := by
    split
    · rename_i h
      have hb : l[i] = b := by simpa using h
      have : b ∈ l := by rw [← hb]; exact List.getElem_mem hi
      exact List.count_pos_iff.2 this
    · exact Nat.zero_le _
  omega

theorem shuffle_background_step_none (num_background : Nat) (draw : Nat → Nat)
    (num_snp begin : Nat) (background : List Nat) (h : background.length ≤ begin) :
    shuffle_background num_background draw (num_snp + 1) begin background = none := by
  have hn : background[begin]? = none := List.getElem?_eq_none h
  simp only [shuffle_background, hn]
  split <;> rfl

theorem shuffle_background_some (n : Nat) (draw : Nat → Nat) (num_snp : Nat) :
    ∀ (begin : Nat) (background : List Nat), background.length = n → begin + num_snp ≤ n →
      (∀ b, begin ≤ b → b < begin + num_snp → b ≤ draw b ∧ draw b < n) →
      ∃ out, shuffle_background n draw num_snp begin background = some out ∧
        out.Perm background := by
  induction num_snp with
  | zero => intro begin background _ _ _; exact ⟨background, rfl, List.Perm.refl _⟩
  | succ k ih =>
    intro begin background hlen hle hdraw
    have hb : begin < background.length := by omega
    have hd : draw begin < background.length := by
      rw [hlen]; exact (hdraw begin (Nat.le_refl _) (by omega)).2
    have h1 : background[begin]? = some background[begin] := List.getElem?_eq_getElem hb
    have h2 : background[draw begin]? = some background[draw begin] :=
      List.getElem?_eq_getElem hd
    obtain ⟨out, ho, hp⟩ :=
      ih (begin + 1) ((background.set begin background[draw begin]).set (draw begin)
        background[begin]) (by simpa using hlen) (by omega)
        (fun b hb1 hb2 => hdraw b (by omega) (by omega))
    refine ⟨out, ?_, hp.trans (swap_perm background begin (draw begin) hb hd)⟩
    simp only [shuffle_background, h1, h2, if_neg (by omega : ¬ n ≤ begin)]
    exact ho

theorem shuffle_background_append (n : Nat) (draw : Nat → Nat) (k1 k2 : Nat) :
    ∀ (begin : Nat) (background : List Nat),
      shuffle_background n draw (k1 + k2) begin background
        = (shuffle_background n draw k1 begin background).bind
            (fun mid => shuffle_background n draw k2 (begin + k1) mid) := by
  induction k1 with
  | zero => intro begin background; simp [shuffle_background]
  | succ k ih =>
    intro begin background
    rw [show k + 1 + k2 = (k + k2) + 1 by omega]
    simp only [shuffle_background]
    split
    · rfl
    · split
      · rw [ih]
        rw [show begin + 1 + k = begin + (k + 1) by omega]
      · rfl

/-- C27. Let the draws at the positions below `min k n` be in range
(`b ≤ draw b ≤ n - 1`), `n` being the length of the background list and the value
of `num_background`.  When `k ≤ n` the `k` steps of the partial shuffle return,
every read and write being inside the list; the list they leave is a permutation
of the original, so that its first `k` entries are pairwise distinct when the
background indices are.  When `k > n` the first `n` steps return, position `n` is
outside the list they leave, and the shuffle as a whole is undefined. -/
theorem shuffle_background_perm (draw : Nat → Nat) (background : List Nat) (k : Nat)
    (hdraw : ∀ b, b < k → b < background.length → b ≤ draw b ∧ draw b < background.length) :
    (k ≤ background.length →
      ∃ out, shuffle_background background.length draw k 0 background = some out ∧
        out.Perm background ∧ out.length = background.length ∧
        (background.Nodup → (out.take k).Nodup)) ∧
    (background.length < k →
      shuffle_background background.length draw k 0 background = none ∧
      ∃ mid, shuffle_background background.length draw background.length 0 background
          = some mid ∧
        mid.Perm background ∧ mid[background.length]? = none) := by
  constructor
  · intro hk
    obtain ⟨out, h1, h2⟩ := shuffle_background_some background.length draw k 0 background rfl
      (by omega) (fun b _ hb => hdraw b (by omega) (by omega))
    refine ⟨out, h1, h2, h2.length_eq, fun hnd => ?_⟩
    exact (h2.nodup_iff.2 hnd).sublist (List.take_sublist _ _)
  · intro hk
    obtain ⟨mid, h1, h2⟩ := shuffle_background_some background.length draw background.length 0
      background rfl (by omega) (fun b _ hb => hdraw b (by omega) (by omega))
    refine ⟨?_, mid, h1, h2, List.getElem?_eq_none (by rw [h2.length_eq])⟩
    obtain ⟨j, hj⟩ : ∃ j, k = background.length + (j + 1) := ⟨k - background.length - 1, by omega⟩
    rw [hj, shuffle_background_append, h1]
    simp only [Option.some_bind, Nat.zero_add]
    exact shuffle_background_step_none _ _ _ _ _ (by rw [h2.length_eq])

/-- C27 at the background `10, 20, 30` with every draw at position 2: two steps
give `30, 10, 20`; four steps are undefined. -/
theorem shuffle_background_perm_witness :
    shuffle_background 3 (fun _ => 2) 2 0 [10, 20, 30] = some [30, 10, 20] ∧
    (2 ≤ [10, 20, 30].length →
      ∃ out, shuffle_background [10, 20, 30].length (fun _ => 2) 2 0 [10, 20, 30] = some out ∧
        out.Perm [10, 20, 30] ∧ out.length = [10, 20, 30].length ∧
        ([10, 20, 30].Nodup → (out.take 2).Nodup)) ∧
    shuffle_background 3 (fun _ => 2) 4 0 [10, 20, 30] = none :=
  ⟨rfl,
   (shuffle_background_perm (fun _ => 2) [10, 20, 30] 2
      (fun b hk _ => ⟨by show b ≤ 2; omega, by show 2 < 3; omega⟩)).1,
   rfl⟩

/-! ## C24: the calls of the scoring provider inside one permutation -/

theorem map_push_keys (m : List (Nat × List Nat)) (key idx : Nat) :
    ∀ k ∈ (map_push m key idx).map Prod.fst, k = key ∨ k ∈ m.map Prod.fst := by
  induction m with
  | nil => intro k hk; simp [map_push] at hk; exact Or.inl hk
  | cons p rest ih =>
    obtain ⟨k0, v0⟩ := p
    intro k hk
    simp only [map_push] at hk
    split at hk
    · simp only [List.map_cons, List.mem_cons] at hk ⊢
      rcases hk with h | h | h
      · exact Or.inl h
      · exact Or.inr (Or.inl h)
      · exact Or.inr (Or.inr h)
    · split at hk
      · exact Or.inr (by simpa using hk)
      · simp only [List.map_cons, List.mem_cons] at hk ⊢
        rcases hk with h | h
        · exact Or.inr (Or.inl h)
        · rcases ih k h with h | h
          · exact Or.inl h
          · exact Or.inr (Or.inr h)

/-- The `std::map` `set_index` keeps its keys in strictly ascending order. -/
theorem map_push_sorted (m : List (Nat × List Nat)) (key idx : Nat)
    (h : (m.map Prod.fst).Pairwise (fun a b => a < b)) :
    ((map_push m key idx).map Prod.fst).Pairwise (fun a b => a < b) := by
  induction m with
  | nil => simp [map_push]
  | cons p rest ih =>
    obtain ⟨k0, v0⟩ := p
    simp only [List.map_cons, List.pairwise_cons] at h
    simp only [map_push]
    split
    · rename_i hlt
      simp only [List.map_cons, List.pairwise_cons]
      refine ⟨?_, h⟩
      intro a ha
      rcases List.mem_cons.1 ha with ha | ha
      · rw [ha]; exact hlt
      · exact Nat.lt_trans hlt (h.1 a ha)
    · split
      · simp only [List.map_cons, List.pairwise_cons]
        exact h
      · rename_i h1 h2
        simp only [List.map_cons, List.pairwise_cons]
        refine ⟨?_, ih h.2⟩
        intro a ha
        rcases map_push_keys rest key idx a ha with ha | ha
        · rw [ha]; omega
        · exact h.1 a ha

theorem collect_sets_sorted (summary : List prsice_result) :
    (((collect_sets summary).1).map Prod.fst).Pairwise (fun a b => a < b) := by
  unfold collect_sets
  generalize summary.drop 1 = sets
  suffices h : ∀ (acc : List (Nat × List Nat) × List ℚ × List Nat),
      (acc.1.map Prod.fst).Pairwise (fun a b => a < b) →
      (((sets.foldl
        (fun (acc : List (Nat × List Nat) × List ℚ × List Nat) (res : prsice_result) =>
          (map_push acc.1 res.num_snp acc.2.1.length,
           acc.2.1 ++ [|res.coefficient / res.se|],
           acc.2.2 ++ [0])) acc).1).map Prod.fst).Pairwise (fun a b => a < b) by
    exact h _ (by simp)
  induction sets with
  | nil => intro acc h; exact h
  | cons r rest ih =>
    intro acc h
    exact ih _ (map_push_sorted _ _ _ h)

theorem get_null_score_calls_spec (background : List Nat) (set_index : List (Nat × List Nat)) :
    ∀ (prev_size : Nat) (first_run : Bool),
      (get_null_score_calls background set_index prev_size first_run).map
          (fun c => (c.1, c.2.1))
        = (set_index.map Prod.fst).zip (prev_size :: set_index.map Prod.fst) ∧
      (get_null_score_calls background set_index prev_size first_run).length
        = set_index.length ∧
      (∀ c ∈ get_null_score_calls background set_index prev_size first_run,
        c.2.2.1 = background) ∧
      (get_null_score_calls background set_index prev_size first_run).map
          (fun c => c.2.2.2)
        = (List.range set_index.length).map (fun i => decide (i = 0) && first_run) := by
  induction set_index with
  | nil => intro prev_size first_run; simp [get_null_score_calls]
  | cons p rest ih =>
    obtain ⟨size, refs⟩ := p
    intro prev_size first_run
    obtain ⟨h1, h2, h3, h4⟩ := ih size false
    refine ⟨?_, ?_, ?_, ?_⟩
    · simp only [get_null_score_calls, List.map_cons, List.zip_cons_cons, h1]
    · simp only [get_null_score_calls, List.length_cons, h2]
    · intro c hc
      simp only [get_null_score_calls, List.mem_cons] at hc
      rcases hc with hc | hc
      · rw [hc]
      · exact h3 c hc
    · simp only [get_null_score_calls, List.map_cons, h4, List.length_cons,
        List.range_succ_eq_map, List.map_cons, List.map_map]
      simp only [decide_True, Bool.true_and, Bool.and_false, List.map_const', List.length_range,
        List.cons.injEq, true_and]
      symm
      rw [List.eq_replicate_iff]
      refine ⟨by simp, ?_⟩
      intro b hb
      simp only [List.mem_map, List.mem_range, Function.comp] at hb
      obtain ⟨a, _, rfl⟩ := hb
      simp

theorem get_null_score_calls_ranges (background : List Nat)
    (set_index : List (Nat × List Nat)) :
    ∀ (prev_size : Nat) (first_run : Bool),
      (set_index.map Prod.fst).Pairwise (fun a b => a < b) →
      (∀ k ∈ set_index.map Prod.fst, prev_size ≤ k) →
      ((get_null_score_calls background set_index prev_size first_run).map
          (fun c => c.1 - c.2.1)).sum + prev_size
        = ((set_index.map Prod.fst).getLast?).getD prev_size ∧
      (get_null_score_calls background set_index prev_size first_run).Pairwise
        (fun c d => c.1 ≤ d.2.1) ∧
      (∀ c ∈ get_null_score_calls background set_index prev_size first_run,
        prev_size ≤ c.2.1 ∧ c.2.1 ≤ c.1) ∧
      (∀ (j : Nat) (c : Nat × Nat × List Nat × Bool),
        (get_null_score_calls background set_index prev_size first_run)[j]? = some c →
        ∀ x, (prev_size ≤ x ∧ x < c.1) ↔
          ∃ i d, i ≤ j ∧
            (get_null_score_calls background set_index prev_size first_run)[i]? = some d ∧
            d.2.1 ≤ x ∧ x < d.1) := by
  induction set_index with
  | nil =>
    intro prev_size first_run _ _
    simp [get_null_score_calls]
  | cons p rest ih =>
    obtain ⟨size, refs⟩ := p
    intro prev_size first_run hs hp
    simp only [List.map_cons, List.pairwise_cons] at hs
    have hps : prev_size ≤ size := hp size (by simp)
    obtain ⟨h1, h2, h3, h4⟩ := ih size false hs.2 (fun a ha => Nat.le_of_lt (hs.1 a ha))
    refine ⟨?_, ?_, ?_, ?_⟩
    · simp only [get_null_score_calls, List.map_cons, List.sum_cons]
      cases hr : rest with
      | nil => simp [get_null_score_calls]; omega
      | cons q qs =>
        rw [hr] at h1
        simp only [List.map_cons, List.getLast?_cons_cons] at h1 ⊢
        have : ((q.1 :: qs.map Prod.fst).getLast?).getD size
            = ((q.1 :: qs.map Prod.fst).getLast?).getD prev_size := by
          cases hl : (q.1 :: qs.map Prod.fst).getLast? with
          | none => simp at hl
          | some v => rfl
        omega
    · simp only [get_null_score_calls, List.pairwise_cons]
      exact ⟨fun d hd => (h3 d hd).1, h2⟩
    · intro c hc
      simp only [get_null_score_calls, List.mem_cons] at hc
      rcases hc with hc | hc
      · rw [hc]; exact ⟨Nat.le_refl _, hps⟩
      · exact ⟨by have := (h3 c hc).1; omega, (h3 c hc).2⟩
    · intro j c hj x
      simp only [get_null_score_calls] at hj ⊢
      cases j with
      | zero =>
        simp only [List.getElem?_cons_zero, Option.some.injEq] at hj
        subst hj
        constructor
        · intro hx
          exact ⟨0, (size, prev_size, background, first_run), Nat.le_refl _,
            List.getElem?_cons_zero, hx.1, hx.2⟩
        · rintro ⟨i, d, hi, hd, hx1, hx2⟩
          have : i = 0 := by omega
          subst this
          simp only [List.getElem?_cons_zero, Option.some.injEq] at hd
          subst hd
          exact ⟨hx1, hx2⟩
      | succ j =>
        simp only [List.getElem?_cons_succ] at hj
        have hc := h3 c (List.getElem?_mem hj)
        have hiff := h4 j c hj x
        constructor
        · intro hx
          by_cases hlt : x < size
          · exact ⟨0, (size, prev_size, background, first_run), Nat.zero_le _,
              List.getElem?_cons_zero, hx.1, hlt⟩
          · obtain ⟨i, d, hi, hd, hx1, hx2⟩ := hiff.1 ⟨by omega, hx.2⟩
            exact ⟨i + 1, d, by omega, by simpa using hd, hx1, hx2⟩
        · rintro ⟨i, d, hi, hd, hx1, hx2⟩
          cases i with
          | zero =>
            simp only [List.getElem?_cons_zero, Option.some.injEq] at hd
            subst hd
            exact ⟨hx1, by simp only at hx2; omega⟩
          | succ i =>
            simp only [List.getElem?_cons_succ] at hd
            have := (hiff.2 ⟨i, d, by omega, hd, hx1, hx2⟩)
            exact ⟨by omega, this.2⟩

/-- C24. In one permutation of `null_set_no_thread` and of `produce_null_prs`
whose shuffle returns, with the set sizes `s1 < s2 < ... < sk` of `set_index`:
`get_null_score` is called `k` times, with `(size, previous size)` running
through `(s1, 0), (s2, s1), ..., (sk, s(k-1))`, every call on the one background
the shuffle left.  The ranges `[previous, size)` of two calls do not overlap (the
earlier one ends where the later begins or before), their lengths add up to
`sk`, and the ranges of the calls up to the one for `sj` cover exactly the
positions below `sj`. -/
theorem null_permutation_calls_incremental (num_background : Nat) (draw : Nat → Nat)
    (max_size : Nat) (background : List Nat) (set_index : List (Nat × List Nat))
    (shuffled : List Nat) (calls : List (Nat × Nat × List Nat × Bool))
    (hsorted : (set_index.map Prod.fst).Pairwise (fun a b => a < b))
    (h : null_permutation_calls num_background draw max_size background set_index
      = some (shuffled, calls)) :
    calls.length = set_index.length ∧
    calls.map (fun c => (c.1, c.2.1))
      = (set_index.map Prod.fst).zip (0 :: set_index.map Prod.fst) ∧
    (∀ c ∈ calls, c.2.2.1 = shuffled) ∧
    calls.map (fun c => c.2.2.2)
      = (List.range set_index.length).map (fun i => decide (i = 0)) ∧
    calls.Pairwise (fun c d => c.1 ≤ d.2.1) ∧
    (calls.map (fun c => c.1 - c.2.1)).sum = ((set_index.map Prod.fst).getLast?).getD 0 ∧
    (∀ (j : Nat) (c : Nat × Nat × List Nat × Bool), calls[j]? = some c →
      ∀ x, x < c.1 ↔ ∃ i d, i ≤ j ∧ calls[i]? = some d ∧ d.2.1 ≤ x ∧ x < d.1) := by
  unfold null_permutation_calls at h
  cases hs : shuffle_background num_background draw max_size 0 background with
  | none => rw [hs] at h; exact absurd h (by simp)
  | some sh =>
    rw [hs] at h
    simp only [Option.map_some', Option.some.injEq, Prod.mk.injEq] at h
    obtain ⟨rfl, rfl⟩ := h
    obtain ⟨a1, a2, a3, a4⟩ := get_null_score_calls_spec sh set_index 0 true
    obtain ⟨b1, b2, _, b4⟩ := get_null_score_calls_ranges sh set_index 0 true hsorted
      (fun _ _ => Nat.zero_le _)
    refine ⟨a2, a1, a3, ?_, b2, by simpa using b1, ?_⟩
    · rw [a4]; simp
    · intro j c hj x
      have := b4 j c hj x
      simpa using this

/-- C24 at the set sizes 1, 3 and 4 on a background of five indices with every
draw at position 4: three calls, `(1, 0)`, `(3, 1)` and `(4, 3)`, all on the
shuffled background `50, 10, 20, 30, 40`, with 1 + 2 + 1 = 4 newly scored
positions. -/
theorem null_permutation_calls_incremental_witness :
    ∃ calls,
      null_permutation_calls 5 (fun _ => 4) 4 [10, 20, 30, 40, 50]
        [(1, [0]), (3, [1, 2]), (4, [3])] = some ([50, 10, 20, 30, 40], calls) ∧
      calls.length = 3 ∧
      calls.map (fun c => (c.1, c.2.1)) = [(1, 0), (3, 1), (4, 3)] ∧
      (∀ c ∈ calls, c.2.2.1 = [50, 10, 20, 30, 40]) ∧
      calls.map (fun c => c.2.2.2) = [true, false, false] ∧
      calls.Pairwise (fun c d => c.1 ≤ d.2.1) ∧
      (calls.map (fun c => c.1 - c.2.1)).sum = 4 ∧
      (∀ (j : Nat) (c : Nat × Nat × List Nat × Bool), calls[j]? = some c →
        ∀ x, x < c.1 ↔ ∃ i d, i ≤ j ∧ calls[i]? = some d ∧ d.2.1 ≤ x ∧ x < d.1) :=
  ⟨_, rfl,
    null_permutation_calls_incremental 5 (fun _ => 4) 4 [10, 20, 30, 40, 50]
      [(1, [0]), (3, [1, 2]), (4, [3])] _ _ (by decide) rfl⟩

/-! ## C25: the counts of the consumers and the sequential counts -/

theorem count_exceed_some (ori_t_value : List ℚ) (t_value : ℚ) (refs : List Nat) :
    ∀ res : List Nat, (∀ ref ∈ refs, ref < ori_t_value.length ∧ ref < res.length) →
      ∃ res1, count_exceed ori_t_value t_value res refs = some res1 := by
  induction refs with
  | nil => intro res _; exact ⟨res, rfl⟩
  | cons ref rest ih =>
    intro res h
    obtain ⟨h1, h2⟩ := h ref (List.mem_cons_self _ _)
    simp only [count_exceed, List.getElem?_eq_getElem h1, List.getElem?_eq_getElem h2]
    apply ih
    intro r hr
    have := h r (List.mem_cons_of_mem _ hr)
    simpa using this

theorem count_exceed_in_range (ori_t_value : List ℚ) (t_value : ℚ) (refs : List Nat) :
    ∀ res res1 : List Nat, count_exceed ori_t_value t_value res refs = some res1 →
      ∀ ref ∈ refs, ref < ori_t_value.length ∧ ref < res.length := by
  induction refs with
  | nil => intro res res1 _ ref hr; exact absurd hr (List.not_mem_nil _)
  | cons r rest ih =>
    intro res res1 h ref hr
    simp only [count_exceed] at h
    split at h
    · rename_i o c ho hc
      rcases List.mem_cons.1 hr with rfl | hr
      · exact ⟨(List.getElem?_eq_some.1 ho).1, (List.getElem?_eq_some.1 hc).1⟩
      · have := ih _ _ h ref hr
        simpa using this
    · exact absurd h (by simp)

theorem null_set_sizes_in_range (e : Background) (ori_t_value : List ℚ) (perm : Nat)
    (groups : List (Nat × List Nat)) :
    ∀ (s : PRSice) (res : List Nat) (s1 : PRSice) (res1 : List Nat),
      null_set_sizes e ori_t_value perm s res groups = Outcome.ok (s1, res1) →
      ∀ g ∈ groups, (set_statistic e perm g.1).isSome ∧
        ∀ ref ∈ g.2, ref < ori_t_value.length ∧ ref < res.length := by
  induction groups with
  | nil => intro s res s1 res1 _ g hg; exact absurd hg (List.not_mem_nil _)
  | cons g0 rest ih =>
    obtain ⟨size, refs⟩ := g0
    intro s res s1 res1 h g hg
    simp only [null_set_sizes] at h
    split at h
    · exact absurd h (by simp)
    · rename_i t_value ht
      split at h
      · exact absurd h (by simp)
      · rename_i res2 hres2
        have hlen : res2.length = res.length := (count_exceed_spec _ _ _ _ _ hres2).1
        rcases List.mem_cons.1 hg with rfl | hg
        · exact ⟨by simp [ht], count_exceed_in_range _ _ _ _ _ hres2⟩
        · have := ih _ _ _ _ h g hg
          rw [hlen] at this
          exact this

theorem null_set_perms_in_range (e : Background) (set_index : List (Nat × List Nat))
    (ori_t_value : List ℚ) (remaining : Nat) :
    ∀ (s : PRSice) (res : List Nat) (processed : Nat) (s1 : PRSice) (res1 : List Nat),
      null_set_perms e set_index ori_t_value s res processed remaining
        = Outcome.ok (s1, res1) →
      ∀ perm, processed ≤ perm → perm < processed + remaining →
        ∀ g ∈ set_index, (set_statistic e perm g.1).isSome ∧
          ∀ ref ∈ g.2, ref < ori_t_value.length ∧ ref < res.length := by
  induction remaining with
  | zero => intro s res processed s1 res1 _ perm h1 h2; omega
  | succ n ih =>
    intro s res processed s1 res1 h perm h1 h2
    simp only [null_set_perms] at h
    split at h
    · rename_i s2 res2 hstep
      have hlen : res2.length = res.length :=
        (null_set_sizes_spec _ _ _ _ _ _ _ _ hstep).1
      by_cases hp : perm = processed
      · subst hp
        exact null_set_sizes_in_range _ _ _ _ _ _ _ _ hstep
      · have := ih _ _ _ _ _ h perm (by omega) (by omega)
        rw [hlen] at this
        exact this
    · rename_i hne
      exact (hne _ _ h).elim

theorem map_at_of_mem (set_index : List (Nat × List Nat))
    (hkeys : (set_index.map Prod.fst).Pairwise (fun a b => a < b)) :
    ∀ g ∈ set_index, map_at set_index g.1 = g.2 := by
  induction set_index with
  | nil => intro g hg; exact absurd hg (List.not_mem_nil _)
  | cons g0 rest ih =>
    obtain ⟨k, v⟩ := g0
    simp only [List.map_cons, List.pairwise_cons] at hkeys
    intro g hg
    rcases List.mem_cons.1 hg with rfl | hg
    · simp [map_at]
    · have hlt : k < g.1 := hkeys.1 g.1 (List.mem_map_of_mem _ hg)
      simp only [map_at, if_neg (by omega : ¬ g.1 = k)]
      exact ih hkeys.2 g hg

theorem consume_prs_loop_some (e : Background) (set_index : List (Nat × List Nat))
    (ori_t_value : List ℚ) (popped : List (Nat × Nat)) :
    ∀ (fits : Nat) (temp : List Nat),
      (∀ p ∈ popped, (set_statistic e p.1 p.2).isSome ∧
        ∀ ref ∈ map_at set_index p.2, ref < ori_t_value.length ∧ ref < temp.length) →
      ∃ fits1 temp1,
        consume_prs_loop e set_index ori_t_value fits temp popped = Outcome.ok (fits1, temp1) := by
  induction popped with
  | nil => intro fits temp _; exact ⟨fits, temp, rfl⟩
  | cons p rest ih =>
    obtain ⟨perm, size⟩ := p
    intro fits temp h
    obtain ⟨h1, h2⟩ := h (perm, size) (List.mem_cons_self _ _)
    obtain ⟨t_value, ht⟩ := Option.isSome_iff_exists.1 h1
    obtain ⟨temp1, htemp1⟩ := count_exceed_some ori_t_value t_value _ temp h2
    have hlen : temp1.length = temp.length := (count_exceed_spec _ _ _ _ _ htemp1).1
    simp only [consume_prs_loop, ht, htemp1]
    apply ih
    intro q hq
    have := h q (List.mem_cons_of_mem _ hq)
    rw [hlen]
    exact this

theorem zipWith_add_getD (res temp : List Nat) (h : temp.length = res.length) (j : Nat) :
    ((List.zipWith (fun c d => (c + d) % 2 ^ 32) res temp)[j]?).getD 0
      = ((res[j]?).getD 0 + (temp[j]?).getD 0) % 2 ^ 32 := by
  by_cases hj : j < res.length
  · have hj2 : j < temp.length := by omega
    simp [List.getElem?_zipWith, List.getElem?_eq_getElem hj, List.getElem?_eq_getElem hj2]
  · have h1 : res[j]? = none := List.getElem?_eq_none (by omega)
    have h2 : temp[j]? = none := List.getElem?_eq_none (by omega)
    simp [List.getElem?_zipWith, h1, h2]

theorem consume_prs_spec (s : PRSice) (e : Background) (set_index : List (Nat × List Nat))
    (ori_t_value : List ℚ) (res : List Nat) (popped : List (Nat × Nat))
    (h : ∀ p ∈ popped, (set_statistic e p.1 p.2).isSome ∧
      ∀ ref ∈ map_at set_index p.2, ref < ori_t_value.length ∧ ref < res.length) :
    ∃ s1 res1, consume_prs s e set_index ori_t_value res popped = Outcome.ok (s1, res1) ∧
      res1.length = res.length ∧
      (∀ j, (res1[j]?).getD 0
        = ((res[j]?).getD 0
            + (popped.map (fun p =>
                (map_at set_index p.2).count j
                  * exceeds_in e ori_t_value j p.1 p.2)).sum) % 2 ^ 32) := by
  obtain ⟨fits, temp, hloop⟩ := consume_prs_loop_some e set_index ori_t_value popped 0
    (List.replicate res.length 0) (by simpa using h)
  obtain ⟨k1, k2, _⟩ := consume_prs_loop_spec e set_index ori_t_value popped _ _ _ _ hloop
  have hlen : temp.length = res.length := by simpa using k1
  refine ⟨{ s with set_perm_fits := s.set_perm_fits + fits },
    List.zipWith (fun c d => (c + d) % 2 ^ 32) res temp,
    by simp only [consume_prs, hloop], ?_, ?_⟩
  · simp [List.length_zipWith, hlen]
  · intro j
    rw [zipWith_add_getD res temp hlen j]
    have hz : ((List.replicate res.length 0)[j]?).getD 0 = 0 := by
      by_cases hj : j < res.length
      · simp [List.getElem?_replicate, hj]
      · simp [List.getElem?_replicate, hj]
    have := k2 j
    rw [hz, Nat.zero_add] at this
    rw [Nat.add_mod, this, ← Nat.add_mod]

theorem consume_prs_all_counts (e : Background) (set_index : List (Nat × List Nat))
    (ori_t_value : List ℚ) (sched : List (List (Nat × Nat))) :
    ∀ (s : PRSice) (res : List Nat),
      (∀ popped ∈ sched, ∀ p ∈ popped, (set_statistic e p.1 p.2).isSome ∧
        ∀ ref ∈ map_at set_index p.2, ref < ori_t_value.length ∧ ref < res.length) →
      ∃ s1 res1, consume_prs_all e set_index ori_t_value s res sched = Outcome.ok (s1, res1) ∧
        res1.length = res.length ∧
        (∀ j, ((res1[j]?).getD 0) % 2 ^ 32
          = ((res[j]?).getD 0
              + (sched.flatten.map (fun p =>
                  (map_at set_index p.2).count j
                    * exceeds_in e ori_t_value j p.1 p.2)).sum) % 2 ^ 32) ∧
        ((∀ c ∈ res, c < 2 ^ 32) → ∀ c ∈ res1, c < 2 ^ 32) := by
  induction sched with
  | nil =>
    intro s res _
    exact ⟨s, res, rfl, rfl, fun j => by simp, fun h => h⟩
  | cons popped rest ih =>
    intro s res h
    obtain ⟨s1, res1, h1, h2, h3⟩ := consume_prs_spec s e set_index ori_t_value res popped
      (h popped (List.mem_cons_self _ _))
    obtain ⟨s2, res2, k1, k2, k3, k4⟩ := ih s1 res1 (by
      intro q hq p hp
      have := h q (List.mem_cons_of_mem _ hq) p hp
      rw [h2]; exact this)
    refine ⟨s2, res2, ?_, by rw [k2, h2], ?_, ?_⟩
    · simp only [consume_prs_all, h1]; exact k1
    · intro j
      rw [k3 j, h3 j]
      simp only [List.flatten_cons, List.map_append, List.sum_append]
      rw [Nat.add_mod, Nat.mod_mod, ← Nat.add_mod, Nat.add_assoc]
    · intro hres
      apply k4
      intro c hc
      obtain ⟨j, hj, rfl⟩ := List.getElem_of_mem hc
      have := h3 j
      rw [List.getElem?_eq_getElem hj] at this
      simp only [Option.getD_some] at this
      rw [this]
      exact Nat.mod_lt _ (by norm_num)

theorem queued_payloads_sum (e : Background) (set_index : List (Nat × List Nat))
    (hkeys : (set_index.map Prod.fst).Pairwise (fun a b => a < b))
    (ori_t_value : List ℚ) (j : Nat) (num_perm : Nat) :
    ((queued_payloads set_index num_perm).map (fun p =>
        (map_at set_index p.2).count j * exceeds_in e ori_t_value j p.1 p.2)).sum
      = ((List.range' 0 num_perm).map (fun perm =>
          occurrences set_index j (exceeds_in e ori_t_value j perm))).sum := by
  have hocc : ∀ (f : Nat → Nat) (l : List (Nat × List Nat)),
      (∀ g ∈ l, map_at set_index g.1 = g.2) →
      (l.map (fun g => (map_at set_index g.1).count j * f g.1)).sum = occurrences l j f := by
    intro f l
    induction l with
    | nil => intro _; rfl
    | cons g rest ih =>
      intro hl
      obtain ⟨size, refs⟩ := g
      have h1 := hl (size, refs) (List.mem_cons_self _ _)
      simp only at h1
      simp only [List.map_cons, List.sum_cons, occurrences, h1]
      rw [ih (fun g hg => hl g (List.mem_cons_of_mem _ hg))]
  unfold queued_payloads
  rw [← List.range_eq_range']
  induction (List.range num_perm) with
  | nil => rfl
  | cons perm rest ih =>
    simp only [List.flatMap_cons, List.map_append, List.sum_append, List.map_cons, List.sum_cons,
      List.map_map]
    rw [ih]
    congr 1
    exact hocc (exceeds_in e ori_t_value j perm) set_index (map_at_of_mem set_index hkeys)

theorem mem_queued_payloads (set_index : List (Nat × List Nat)) (num_perm : Nat)
    (p : Nat × Nat) (hp : p ∈ queued_payloads set_index num_perm) :
    p.1 < num_perm ∧ ∃ g ∈ set_index, g.1 = p.2 := by
  simp only [queued_payloads, List.mem_flatMap, List.mem_range, List.mem_map] at hp
  obtain ⟨perm, hperm, g, hg, rfl⟩ := hp
  exact ⟨hperm, g, hg, rfl⟩

/-- C25. Let the sequential `null_set_no_thread` return the counts `res1` for
`num_perm` permutations, from counters below `2 ^ 32` and a `set_index` with
ascending keys.  Then for every distribution `sched` of the payloads
`produce_null_prs` queues for these permutations among consumers (every payload
popped by exactly one consumer, in any order), the consumers all return, and the
shared table after their final flushes holds the same counts `res1`. -/
theorem consume_prs_counts_match_sequential (s s' : PRSice) (e : Background)
    (set_index : List (Nat × List Nat)) (ori_t_value : List ℚ) (res : List Nat)
    (num_perm : Nat) (sched : List (List (Nat × Nat))) (s1 : PRSice) (res1 : List Nat)
    (hkeys : (set_index.map Prod.fst).Pairwise (fun a b => a < b))
    (hres : ∀ c ∈ res, c < 2 ^ 32)
    (hdist : sched.flatten.Perm (queued_payloads set_index num_perm))
    (hseq : null_set_no_thread s e set_index ori_t_value res num_perm = Outcome.ok (s1, res1)) :
    ∃ s2 res2, consume_prs_all e set_index ori_t_value s' res sched = Outcome.ok (s2, res2) ∧
      res2 = res1 := by
  have hloop : null_set_perms e set_index ori_t_value s res 0 num_perm
      = Outcome.ok (s1, res1) := by
    unfold null_set_no_thread at hseq
    split at hseq
    · exact absurd hseq (by simp)
    · split at hseq
      · exact absurd hseq (by simp)
      · exact hseq
  have hrange := null_set_perms_in_range e set_index ori_t_value num_perm s res 0 s1 res1 hloop
  obtain ⟨q1, q2, q3, _⟩ :=
    null_set_perms_spec e set_index ori_t_value num_perm s res 0 s1 res1 hloop
  obtain ⟨s2, res2, k1, k2, k3, k4⟩ :=
    consume_prs_all_counts e set_index ori_t_value sched s' res (by
      intro popped hpop p hp
      have hmem : p ∈ queued_payloads set_index num_perm :=
        hdist.subset (List.mem_flatten.2 ⟨popped, hpop, hp⟩)
      obtain ⟨hperm, g, hg, hgp⟩ := mem_queued_payloads set_index num_perm p hmem
      have := hrange p.1 (Nat.zero_le _) (by omega) g hg
      rw [← hgp, map_at_of_mem set_index hkeys g hg]
      exact this)
  refine ⟨s2, res2, k1, ?_⟩
  apply List.ext_getElem?
  intro j
  by_cases hj : j < res.length
  · have hj1 : j < res1.length := by omega
    have hj2 : j < res2.length := by omega
    rw [List.getElem?_eq_getElem hj1, List.getElem?_eq_getElem hj2]
    have e1 := q2 j
    have e2 := k3 j
    rw [(hdist.map _).sum_eq, queued_payloads_sum e set_index hkeys] at e2
    rw [List.getElem?_eq_getElem hj1] at e1
    rw [List.getElem?_eq_getElem hj2] at e2
    simp only [Option.getD_some] at e1 e2
    have b1 : res1[j] < 2 ^ 32 := q3 hres _ (List.getElem_mem hj1)
    have b2 : res2[j] < 2 ^ 32 := k4 hres _ (List.getElem_mem hj2)
    rw [Nat.mod_eq_of_lt b1] at e1
    rw [Nat.mod_eq_of_lt b2] at e2
    rw [e1, e2]
  · rw [List.getElem?_eq_none (by omega), List.getElem?_eq_none (by omega)]

/-- C25 at three set sizes, four sets and two permutations, the six payloads
distributed among two consumers out of order. -/
theorem consume_prs_counts_match_sequential_witness :
    ∃ s1 res1,
      null_set_no_thread example_sets example_background [(1, [1]), (2, [0, 2]), (7, [3])]
        [3, 5, 4, 1] [0, 0, 0, 0] 2 = Outcome.ok (s1, res1) ∧
      res1 = [0, 0, 0, 2] ∧
      ∃ s2 res2,
        consume_prs_all example_background [(1, [1]), (2, [0, 2]), (7, [3])] [3, 5, 4, 1]
          example_sets [0, 0, 0, 0] [[(1, 7), (0, 1)], [(0, 7), (1, 2), (0, 2), (1, 1)]]
            = Outcome.ok (s2, res2) ∧
        res2 = res1 := by
  have hrun : ∃ p, null_set_no_thread example_sets example_background
      [(1, [1]), (2, [0, 2]), (7, [3])] [3, 5, 4, 1] [0, 0, 0, 0] 2 = Outcome.ok p ∧
      p.2 = [0, 0, 0, 2] :=
    ⟨_, by with_unfolding_all rfl, by with_unfolding_all decide⟩
  obtain ⟨⟨s1, res1⟩, hp, hres⟩ := hrun
  exact ⟨s1, res1, hp, hres,
    consume_prs_counts_match_sequential example_sets example_sets example_background
      [(1, [1]), (2, [0, 2]), (7, [3])] [3, 5, 4, 1] [0, 0, 0, 0] 2
      [[(1, 7), (0, 1)], [(0, 7), (1, 2), (0, 2), (1, 1)]] s1 res1
      (by decide) (by decide) (by decide) hp⟩

/-! ## C29: the samples `process_cov_file` keeps -/

theorem sample_before_of_ne (a b : String × Nat) (h : a.2 ≠ b.2) :
    sample_before a b = true ↔ a.2 < b.2 := by
  simp [sample_before, h]

theorem orderedInsert_sorted (a : String × Nat) :
    ∀ l : List (String × Nat), (l.map Prod.snd).Pairwise (fun x y => x < y) →
      a.2 ∉ l.map Prod.snd →
      ((List.orderedInsert (fun t1 t2 => sample_before t1 t2 = true) a l).map Prod.snd).Pairwise
        (fun x y => x < y) := by
  intro l
  induction l with
  | nil => intro _ _; simp
  | cons b rest ih =>
    intro hs hn
    simp only [List.map_cons, List.pairwise_cons, List.mem_cons, not_or] at hs hn
    have hne : a.2 ≠ b.2 := hn.1
    simp only [List.orderedInsert, sample_before_of_ne a b hne]
    split
    · rename_i hlt
      simp only [List.map_cons, List.pairwise_cons, List.mem_cons]
      refine ⟨?_, hs⟩
      intro x hx
      rcases hx with rfl | hx
      · exact hlt
      · exact Nat.lt_trans hlt (hs.1 x hx)
    · rename_i hlt
      simp only [List.map_cons, List.pairwise_cons]
      refine ⟨?_, ih hs.2 hn.2⟩
      intro x hx
      have hx2 : x ∈ (a :: rest).map Prod.snd :=
        ((List.perm_orderedInsert _ a rest).map Prod.snd).subset hx
      simp only [List.map_cons, List.mem_cons] at hx2
      rcases hx2 with rfl | hx2
      · omega
      · exact hs.1 x hx2

theorem insertionSort_sorted (l : List (String × Nat)) (h : (l.map Prod.snd).Nodup) :
    ((l.insertionSort (fun t1 t2 => sample_before t1 t2 = true)).map Prod.snd).Pairwise
      (fun x y => x < y) := by
  induction l with
  | nil => simp
  | cons a rest ih =>
    simp only [List.map_cons, List.nodup_cons] at h
    simp only [List.insertionSort]
    apply orderedInsert_sorted a _ (ih h.2)
    intro hmem
    exact h.1 (((List.perm_insertionSort _ rest).map Prod.snd).subset hmem)

theorem lookup_mem (map : List (String × Nat)) (id : String) (v : Nat)
    (h : map.lookup id = some v) : (id, v) ∈ map := by
  induction map with
  | nil => simp at h
  | cons p rest ih =>
    obtain ⟨k, x⟩ := p
    simp only [List.lookup] at h
    split at h
    · rename_i heq
      have hk : id = k := by simpa using heq
      simp only [Option.some.injEq] at h
      subst hk; subst h
      exact List.mem_cons_self _ _
    · exact List.mem_cons_of_mem _ (ih h)

theorem sorted_length_le (l : List Nat) (n : Nat) (hs : l.Pairwise (fun x y => x < y))
    (hb : ∀ x ∈ l, x < n) : l.length ≤ n := by
  have hnd : l.Nodup := hs.imp (fun h => Nat.ne_of_lt h)
  have hsub : l ⊆ List.range n := fun x hx => List.mem_range.2 (hb x hx)
  have := (List.subperm_of_subset hnd hsub).length_le
  simpa using this

theorem map_assign_of_not_mem (m : List (String × Nat)) (key : String) (v : Nat)
    (h : key ∉ m.map Prod.fst) : map_assign m key v = m ++ [(key, v)] := by
  induction m with
  | nil => rfl
  | cons p rest ih =>
    obtain ⟨k, x⟩ := p
    simp only [List.map_cons, List.mem_cons, not_or] at h
    simp only [map_assign, if_neg (Ne.symm h.1), ih h.2, List.cons_append]

/-- The forward copy: with strictly ascending original rows, none below the
current position, every read is of an entry not yet overwritten. -/
theorem copy_phenotypes_spec (rest : List (String × Nat)) :
    ∀ (cur_index : Nat) (map : List (String × Nat)) (pheno : List ℚ),
      (rest.map Prod.snd).Pairwise (fun x y => x < y) →
      (∀ p ∈ rest, cur_index ≤ p.2 ∧ p.2 < pheno.length) →
      (rest.map Prod.fst).Nodup → (∀ p ∈ rest, p.1 ∉ map.map Prod.fst) →
      ∃ pheno1, copy_phenotypes rest cur_index map pheno
          = some (map ++ (rest.map Prod.fst).zip (List.range' cur_index rest.length), pheno1) ∧
        pheno1.length = pheno.length ∧
        (∀ i, i < cur_index → pheno1[i]? = pheno[i]?) ∧
        (∀ j p, rest[j]? = some p → pheno1[cur_index + j]? = pheno[p.2]?) := by
  induction rest with
  | nil =>
    intro cur_index map pheno _ _ _ _
    exact ⟨pheno, by simp [copy_phenotypes], rfl, fun _ _ => rfl, fun j p h => by simp at h⟩
  | cons q rest ih =>
    obtain ⟨name, original_index⟩ := q
    intro cur_index map pheno hs hb hnd hnew
    simp only [List.map_cons, List.pairwise_cons] at hs
    simp only [List.map_cons, List.nodup_cons] at hnd
    obtain ⟨hc1, hc2⟩ := hb (name, original_index) (List.mem_cons_self _ _)
    simp only at hc1 hc2
    have hassign : map_assign map name cur_index = map ++ [(name, cur_index)] :=
      map_assign_of_not_mem map name cur_index (hnew (name, original_index)
        (List.mem_cons_self _ _))
    have hnew1 : ∀ p ∈ rest, p.1 ∉ (map ++ [(name, cur_index)]).map Prod.fst := by
      intro p hp hmem
      simp only [List.map_append, List.map_cons, List.map_nil, List.mem_append,
        List.mem_singleton] at hmem
      rcases hmem with hmem | hmem
      · exact hnew p (List.mem_cons_of_mem _ hp) hmem
      · exact hnd.1 (by rw [← hmem]; exact List.mem_map_of_mem _ hp)
    have hzip : map ++ [(name, cur_index)]
          ++ (rest.map Prod.fst).zip (List.range' (cur_index + 1) rest.length)
        = map ++ ((name, original_index) :: rest |>.map Prod.fst).zip
            (List.range' cur_index ((name, original_index) :: rest).length) := by
      simp [List.range'_succ]
    have hgt : ∀ p ∈ rest, original_index < p.2 :=
      fun p hp => hs.1 p.2 (List.mem_map_of_mem _ hp)
    by_cases hne : original_index = cur_index
    · obtain ⟨pheno1, k1, k2, k3, k4⟩ := ih (cur_index + 1) (map ++ [(name, cur_index)]) pheno
        hs.2 (fun p hp => ⟨by have := hgt p hp; omega,
          (hb p (List.mem_cons_of_mem _ hp)).2⟩) hnd.2 hnew1
      refine ⟨pheno1, ?_, k2, fun i hi => k3 i (by omega), ?_⟩
      · simp only [copy_phenotypes, hne, ne_eq, not_true_eq_false, if_false, hassign]
        rw [k1, hzip]
        rfl
      · intro j p hj
        cases j with
        | zero =>
          simp only [List.getElem?_cons_zero, Option.some.injEq] at hj
          subst hj
          simp only [Nat.add_zero]
          rw [k3 cur_index (by omega), hne]
        | succ j =>
          simp only [List.getElem?_cons_succ] at hj
          have := k4 j p hj
          rw [show cur_index + (j + 1) = cur_index + 1 + j by omega]
          exact this
    · have hlt : cur_index < pheno.length := by omega
      obtain ⟨pheno1, k1, k2, k3, k4⟩ := ih (cur_index + 1) (map ++ [(name, cur_index)])
        (pheno.set cur_index pheno[original_index]) hs.2
        (fun p hp => ⟨by have := hgt p hp; omega,
          by simpa using (hb p (List.mem_cons_of_mem _ hp)).2⟩) hnd.2 hnew1
      refine ⟨pheno1, ?_, by simpa using k2, ?_, ?_⟩
      · simp only [copy_phenotypes, ne_eq, hne, not_false_eq_true, if_true,
          List.getElem?_eq_getElem hc2, hlt, hassign]
        rw [k1, hzip]
      · intro i hi
        rw [k3 i (by omega), List.getElem?_set_ne (by omega)]
      · intro j p hj
        cases j with
        | zero =>
          simp only [List.getElem?_cons_zero, Option.some.injEq] at hj
          subst hj
          simp only [Nat.add_zero]
          rw [k3 cur_index (by omega), List.getElem?_set_self hlt,
            List.getElem?_eq_getElem hc2]
        | succ j =>
          simp only [List.getElem?_cons_succ] at hj
          have := k4 j p hj
          rw [show cur_index + (j + 1) = cur_index + 1 + j by omega, this]
          have hp := hgt p (List.getElem?_mem hj)
          exact List.getElem?_set_ne (by omega)

theorem process_cov_lines_valid (convert : String → Except String ℚ) (s : PRSice_cov)
    (factor_cov_index cov_index : List Nat) (max_index : Nat) (lines : List (List String)) :
    ∀ (acc acc1 : cov_scan),
      process_cov_lines convert s factor_cov_index cov_index max_index lines acc
        = Outcome.ok acc1 →
      ∃ l, acc1.valid_sample_index = acc.valid_sample_index ++ l ∧
        (l.map Prod.fst).Sublist (line_ids s.m_ignore_fid s.m_sample_with_phenotypes lines) ∧
        ∀ p ∈ l, s.m_sample_with_phenotypes.lookup p.1 = some p.2 := by
  induction lines with
  | nil =>
    intro acc acc1 h
    simp only [process_cov_lines, Outcome.ok.injEq] at h
    exact ⟨[], by simp [h], by simp [line_ids], fun p hp => absurd hp (List.not_mem_nil _)⟩
  | cons token rest ih =>
    intro acc acc1 h
    simp only [process_cov_lines] at h
    split at h
    · rename_i he
      simp only [line_ids, if_pos he]
      exact ih _ _ h
    · rename_i he
      split at h
      · exact absurd h (by simp)
      · split at h
        · exact absurd h (by simp)
        · rename_i id hid
          split at h
          · rename_i hl
            simp only [line_ids, if_neg he, hid, hl, Option.isSome_none, Bool.false_eq_true,
              if_false]
            exact ih _ _ h
          · rename_i index hl
            have hids : line_ids s.m_ignore_fid s.m_sample_with_phenotypes (token :: rest)
                = id :: line_ids s.m_ignore_fid s.m_sample_with_phenotypes rest := by
              simp only [line_ids, if_neg he, hid, hl, Option.isSome_some, if_true]
            rw [hids]
            split at h
            · exact absurd h (by simp)
            · obtain ⟨l, k1, k2, k3⟩ := ih _ _ h
              exact ⟨l, k1, k2.cons _, k3⟩
            · split at h
              · exact absurd h (by simp)
              · obtain ⟨l, k1, k2, k3⟩ := ih _ _ h
                refine ⟨(id, index) :: l, by simpa using k1, ?_, ?_⟩
                · simp only [List.map_cons]
                  exact k2.cons₂ _
                · intro p hp
                  rcases List.mem_cons.1 hp with rfl | hp
                  · exact hl
                  · exact k3 p hp

/-- C29. Let the loop of `process_cov_file` over the lines return the valid
samples `acc.valid_sample_index` and the column count be defined.  Let each
phenotyped sample occur at most once in the covariate file, let the sample map
send its ids to distinct rows of the phenotype vector, and let some but not all
samples be dropped.  Then `process_cov_file` returns, and with `kept` the valid
samples in ascending order of their original row: the phenotype vector has one
entry per valid sample, entry `j` is the original phenotype of `kept[j]`, and the
sample map is exactly `kept[j] ↦ j` for `j = 0 .. m - 1`. -/
theorem process_cov_file_keeps_valid (convert : String → Except String ℚ) (s : PRSice_cov)
    (file : cov_file) (factor_cov_index cov_index : List Nat) (out : cov_layout) (back : Nat)
    (acc : cov_scan) (total_column : Nat) (start : List Nat)
    (hopen : file.is_open = true) (hback : cov_index.getLast? = some back)
    (hlines : process_cov_lines convert s factor_cov_index cov_index ((back + 1) % 2 ^ 32)
      file.lines
      { valid_sample_index := [],
        factor_levels := resize out.factor_levels factor_cov_index.length [],
        current_factor_level := List.replicate factor_cov_index.length 0 } = Outcome.ok acc)
    (hcols : count_columns factor_cov_index acc.factor_levels cov_index 2 0 out.cov_start_index
      = some (total_column, start))
    (honce : (line_ids s.m_ignore_fid s.m_sample_with_phenotypes file.lines).Nodup)
    (hrows : (s.m_sample_with_phenotypes.map Prod.snd).Nodup)
    (hin : ∀ p ∈ s.m_sample_with_phenotypes, p.2 < s.m_phenotype.length)
    (hsmall : s.m_sample_with_phenotypes.length < 2 ^ 32)
    (hdrop : acc.valid_sample_index.length ≠ s.m_sample_with_phenotypes.length)
    (hsome : acc.valid_sample_index ≠ []) :
    ∃ (t : PRSice_cov) (kept : List (String × Nat)),
      process_cov_file convert s file factor_cov_index cov_index out
        = Outcome.ok (t, { cov_start_index := start, num_column := total_column,
                           factor_levels := acc.factor_levels }) ∧
      kept.Perm acc.valid_sample_index ∧
      (kept.map Prod.snd).Pairwise (fun x y => x < y) ∧
      (∀ p : String × Nat, p ∈ kept → s.m_sample_with_phenotypes.lookup p.1 = some p.2) ∧
      t.m_phenotype.length = kept.length ∧
      (∀ (j : Nat) (p : String × Nat), kept[j]? = some p → t.m_phenotype[j]? = s.m_phenotype[p.2]?) ∧
      t.m_sample_with_phenotypes = (kept.map Prod.fst).zip (List.range kept.length) := by
  obtain ⟨l, hl1, hl2, hl3⟩ := process_cov_lines_valid _ _ _ _ _ _ _ _ hlines
  simp only [List.nil_append] at hl1
  rw [← hl1] at hl2 hl3
  have hids : (acc.valid_sample_index.map Prod.fst).Nodup := hl2.nodup honce
  have hinj := List.inj_on_of_nodup_map hrows
  have hidx : (acc.valid_sample_index.map Prod.snd).Nodup := by
    refine List.Nodup.map_on ?_ (List.Nodup.of_map _ hids)
    intro x hx y hy hxy
    have hx1 := lookup_mem _ _ _ (hl3 x hx)
    have hy1 := lookup_mem _ _ _ (hl3 y hy)
    have := hinj hx1 hy1 hxy
    simp only [Prod.mk.injEq] at this
    exact Prod.ext this.1 this.2
  have hperm := List.perm_insertionSort (fun t1 t2 => sample_before t1 t2 = true)
    acc.valid_sample_index
  have hsorted := insertionSort_sorted acc.valid_sample_index hidx
  have hlook : ∀ p ∈ acc.valid_sample_index.insertionSort
      (fun t1 t2 => sample_before t1 t2 = true),
      s.m_sample_with_phenotypes.lookup p.1 = some p.2 :=
    fun p hp => hl3 p (hperm.subset hp)
  have hbound : ∀ p ∈ acc.valid_sample_index.insertionSort
      (fun t1 t2 => sample_before t1 t2 = true), 0 ≤ p.2 ∧ p.2 < s.m_phenotype.length :=
    fun p hp => ⟨Nat.zero_le _, hin _ (lookup_mem _ _ _ (hlook p hp))⟩
  obtain ⟨pheno1, k1, k2, _, k4⟩ := copy_phenotypes_spec _ 0 [] s.m_phenotype hsorted hbound
    ((hperm.map Prod.fst).nodup_iff.2 hids) (fun _ _ => by simp)
  have hlen : (acc.valid_sample_index.insertionSort
      (fun t1 t2 => sample_before t1 t2 = true)).length ≤ pheno1.length := by
    rw [k2]
    have := sorted_length_le _ s.m_phenotype.length hsorted (by
      intro x hx
      obtain ⟨p, hp, rfl⟩ := List.mem_map.1 hx
      exact (hbound p hp).2)
    simpa using this
  have hne0 : s.m_sample_with_phenotypes.length ≠ 0 := by
    cases hv : acc.valid_sample_index with
    | nil => exact absurd hv hsome
    | cons p rest =>
      have := lookup_mem _ _ _ (hl3 p (by rw [hv]; exact List.mem_cons_self _ _))
      intro h0
      rw [List.length_eq_zero] at h0
      rw [h0] at this
      exact absurd this (List.not_mem_nil _)
  have hlen0 : acc.valid_sample_index.length ≠ 0 := by
    intro h0
    exact hsome (List.length_eq_zero.1 h0)
  refine ⟨{ s with
      m_sample_with_phenotypes :=
        [] ++ ((acc.valid_sample_index.insertionSort
          (fun t1 t2 => sample_before t1 t2 = true)).map Prod.fst).zip
            (List.range' 0 (acc.valid_sample_index.insertionSort
              (fun t1 t2 => sample_before t1 t2 = true)).length)
      m_phenotype := pheno1.take (acc.valid_sample_index.insertionSort
        (fun t1 t2 => sample_before t1 t2 = true)).length },
    acc.valid_sample_index.insertionSort (fun t1 t2 => sample_before t1 t2 = true),
    ?_, hperm, hsorted, hlook, ?_, ?_, ?_⟩
  · simp only [process_cov_file, hback, hopen, not_true_eq_false, if_false, hlines, hcols,
      Nat.mod_eq_of_lt hsmall, ne_eq, hdrop, not_false_eq_true, hne0, and_self, if_true, hlen0,
      k1, Nat.not_lt.2 hlen]
  · simp only [List.length_take]
    omega
  · intro j p hj
    have hj1 : j < (acc.valid_sample_index.insertionSort
        (fun t1 t2 => sample_before t1 t2 = true)).length := (List.getElem?_eq_some.1 hj).1
    simp only
    rw [List.getElem?_take, if_pos hj1]
    have := k4 j p hj
    rw [Nat.zero_add] at this
    exact this
  · simp only [List.nil_append, List.range_eq_range']

/-- C29 at three phenotyped samples of which the second has a missing covariate:
the samples `f_a` (row 0) and `f_c` (row 2) are kept, the phenotype vector becomes
`10, 30` and the map sends `f_a` to 0 and `f_c` to 1. -/
theorem process_cov_file_keeps_valid_witness :
    ∃ (t : PRSice_cov) (kept : List (String × Nat)),
      process_cov_file example_convert example_phenotyped example_cov_file [2] [2]
          { cov_start_index := [], num_column := 3, factor_levels := [] }
        = Outcome.ok (t, { cov_start_index := [2], num_column := 3,
                           factor_levels := [[("M", 0), ("F", 1)]] }) ∧
      kept.Perm [("f_a", 0), ("f_c", 2)] ∧
      (kept.map Prod.snd).Pairwise (fun x y => x < y) ∧
      (∀ p : String × Nat, p ∈ kept → example_phenotyped.m_sample_with_phenotypes.lookup p.1 = some p.2) ∧
      t.m_phenotype.length = kept.length ∧
      (∀ (j : Nat) (p : String × Nat), kept[j]? = some p → t.m_phenotype[j]? = example_phenotyped.m_phenotype[p.2]?) ∧
      t.m_sample_with_phenotypes = (kept.map Prod.fst).zip (List.range kept.length) :=
  process_cov_file_keeps_valid example_convert example_phenotyped example_cov_file [2] [2]
    { cov_start_index := [], num_column := 3, factor_levels := [] } 2
    { valid_sample_index := [("f_a", 0), ("f_c", 2)],
      factor_levels := [[("M", 0), ("F", 1)]], current_factor_level := [2] } 3 [2]
    rfl rfl rfl rfl (by decide) (by decide) (by decide) (by decide) (by decide) (by decide)

/-! ## C28: binary phenotypes in `gen_pheno_vec` -/

theorem store_pheno_binary (convert_int : String → Except String Int)
    (convert : String → Except String ℚ) (id value : String) (acc : pheno_scan) (n : Nat)
    (inv : BinaryInv acc n) :
    BinaryInv (store_pheno convert_int convert true id value acc) (n + 1) := by
  obtain ⟨h1, h2, h3, h4, h5⟩ := inv
  simp only [store_pheno, if_true]
  split
  · exact ⟨h1, h2, h3, h4, by simp only; omega⟩
  · rename_i temp _
    split
    · rename_i ht
      have hcases : temp = 0 ∨ temp = 1 ∨ temp = 2 := by omega
      rcases hcases with rfl | rfl | rfl
      · refine ⟨?_, ?_, ?_, ?_, ?_⟩
        · intro x hx
          simp only [List.mem_append, List.mem_singleton] at hx
          rcases hx with hx | hx
          · exact h1 x hx
          · left; rw [hx]; norm_num
        · simp only [Int.toNat_zero, List.mem_append, List.mem_singleton, Int.cast_zero]
          rw [if_neg (by omega), h2]
          constructor
          · exact fun h => Or.inl h
          · rintro (h | h)
            · exact h
            · norm_num at h
        · simp [h3, List.count_append]
        · simp [h4, List.count_append]
        · simp only [List.length_append, List.length_singleton]; omega
      · refine ⟨?_, ?_, ?_, ?_, ?_⟩
        · intro x hx
          simp only [List.mem_append, List.mem_singleton] at hx
          rcases hx with hx | hx
          · exact h1 x hx
          · right; left; rw [hx]; norm_num
        · simp only [List.mem_append, List.mem_singleton, Int.cast_one]
          have hto : (1 : Int).toNat = 1 := rfl
          rw [hto]
          constructor
          · intro h
            left
            apply h2.1
            split at h <;> omega
          · rintro (h | h)
            · have := h2.2 h
              split <;> omega
            · norm_num at h
        · simp [h3, List.count_append]
        · simp [h4, List.count_append]
        · simp only [List.length_append, List.length_singleton]; omega
      · refine ⟨?_, ?_, ?_, ?_, ?_⟩
        · intro x hx
          simp only [List.mem_append, List.mem_singleton] at hx
          rcases hx with hx | hx
          · exact h1 x hx
          · right; right; rw [hx]; norm_num
        · simp only [List.mem_append, List.mem_singleton, Int.cast_ofNat]
          have hto : (2 : Int).toNat = 2 := rfl
          rw [hto]
          constructor
          · intro _; right; trivial
          · intro _
            split <;> omega
        · simp [h3, List.count_append]
        · simp [h4, List.count_append]
        · simp only [List.length_append, List.length_singleton]; omega
    · exact ⟨h1, h2, h3, h4, by simp only; omega⟩

theorem collect_phenotypes_binary (convert_int : String → Except String Int)
    (convert : String → Except String ℚ) (r : pheno_request) (hbin : r.binary = true)
    (info : List (String × String)) (target : List target_sample) :
    ∀ (acc : pheno_scan) (n : Nat), BinaryInv acc n →
      BinaryInv (collect_phenotypes convert_int convert r info target acc)
        (n + target.length) := by
  induction target with
  | nil => intro acc n inv; exact inv
  | cons sample rest ih =>
    intro acc n inv
    have hn : n + (sample :: rest).length = n + 1 + rest.length := by
      simp only [List.length_cons]; omega
    rw [hn]
    have hskip : BinaryInv { acc with num_not_found := acc.num_not_found + 1 } (n + 1) :=
      ⟨inv.range, inv.max, inv.cases, inv.controls, by have := inv.seen; simp only; omega⟩
    have hna : BinaryInv acc (n + 1) :=
      ⟨inv.range, inv.max, inv.cases, inv.controls, by have := inv.seen; omega⟩
    simp only [collect_phenotypes, hbin]
    split
    · split
      · split
        · exact ih _ _ (store_pheno_binary _ _ _ _ _ _ inv)
        · exact ih _ _ hskip
      · exact ih _ _ hskip
    · split
      · exact ih _ _ hna
      · exact ih _ _ (store_pheno_binary _ _ _ _ _ _ inv)

theorem recode_phenotypes_spec (l : List ℚ) (hl : ∀ x ∈ l, x = 0 ∨ x = 1 ∨ x = 2) :
    ∀ (done : List ℚ) (error : Bool) (num_case num_control : Nat),
      (recode_phenotypes l (done, error, num_case, num_control)).1
        = done ++ l.map (fun x => x - 1) ∧
      ((recode_phenotypes l (done, error, num_case, num_control)).2.1 = true
        ↔ (error = true ∨ (0 : ℚ) ∈ l)) ∧
      (recode_phenotypes l (done, error, num_case, num_control)).2.2.1
        = num_case + l.count 2 ∧
      (recode_phenotypes l (done, error, num_case, num_control)).2.2.2
        = num_control + l.count 1 := by
  induction l with
  | nil => intro done error c k; simp [recode_phenotypes]
  | cons x rest ih =>
    intro done error c k
    have hrest : ∀ y ∈ rest, y = 0 ∨ y = 1 ∨ y = 2 := fun y hy => hl y (List.mem_cons_of_mem _ hy)
    rcases hl x (List.mem_cons_self _ _) with rfl | rfl | rfl
    · obtain ⟨a1, a2, a3, a4⟩ := ih hrest (done ++ [0 - 1]) true c k
      have hlt : (0 : ℚ) - 1 < 0 := by norm_num
      simp only [recode_phenotypes, if_pos hlt]
      refine ⟨by rw [a1]; simp, ?_, ?_, ?_⟩
      · rw [a2]; simp
      · rw [a3]; simp [List.count_cons]
      · rw [a4]; simp [List.count_cons]
    · obtain ⟨a1, a2, a3, a4⟩ := ih hrest (done ++ [1 - 1]) error c (k + 1)
      have hlt : ¬ ((1 : ℚ) - 1 < 0) := by norm_num
      have hne : ¬ ((1 : ℚ) - 1 = 1) := by norm_num
      simp only [recode_phenotypes, if_neg hlt, if_neg hne]
      refine ⟨by rw [a1]; simp, ?_, ?_, ?_⟩
      · rw [a2]; simp
      · rw [a3]; simp [List.count_cons]
      · rw [a4]; simp [List.count_cons]; omega
    · obtain ⟨a1, a2, a3, a4⟩ := ih hrest (done ++ [2 - 1]) error (c + 1) k
      have hlt : ¬ ((2 : ℚ) - 1 < 0) := by norm_num
      have heq : (2 : ℚ) - 1 = 1 := by norm_num
      simp only [recode_phenotypes, if_neg hlt, if_pos heq]
      refine ⟨by rw [a1]; simp, ?_, ?_, ?_⟩
      · rw [a2]; simp
      · rw [a3]; simp [List.count_cons]; omega
      · rw [a4]; simp [List.count_cons]

theorem recoded_counts (l : List ℚ) (hl : ∀ x ∈ l, x = 0 ∨ x = 1 ∨ x = 2) :
    (l.map (fun x => x - 1)).count 1 = l.count 2 ∧
    (l.map (fun x => x - 1)).count 0 = l.count 1 ∧
    ((0 : ℚ) ∉ l → ∀ x ∈ l.map (fun x => x - 1), x = 0 ∨ x = 1) := by
  have hinj : Function.Injective (fun x : ℚ => x - 1) := sub_left_injective
  refine ⟨?_, ?_, ?_⟩
  · have := List.count_map_of_injective l (fun x : ℚ => x - 1) hinj 2
    simp only at this
    rw [← this]; norm_num
  · have := List.count_map_of_injective l (fun x : ℚ => x - 1) hinj 1
    simp only at this
    rw [← this]; norm_num
  · intro h0 x hx
    obtain ⟨y, hy, rfl⟩ := List.mem_map.1 hx
    rcases hl y hy with rfl | rfl | rfl
    · exact absurd hy h0
    · left; norm_num
    · right; norm_num

/-- What the part of `gen_pheno_vec` after the loops does for a binary phenotype
with regression, in terms of the accepted values. -/
theorem finish_pheno_binary (s : PRSice_cov) (r : pheno_request) (acc : pheno_scan) (n : Nat)
    (hbin : r.binary = true) (hreg : r.regress = true) (inv : BinaryInv acc n) :
    (acc.pheno_store = [] →
      ∃ w t, finish_pheno s r n acc = Outcome.thrown w t ∧
        w ≠ "Mixed encoding! Both 0/1 and 1/2 encoding found!") ∧
    (acc.pheno_store ≠ [] → (0 : ℚ) ∈ acc.pheno_store → (2 : ℚ) ∈ acc.pheno_store →
      ∃ t, finish_pheno s r n acc
        = Outcome.thrown "Mixed encoding! Both 0/1 and 1/2 encoding found!" t) ∧
    (acc.pheno_store ≠ [] → ¬ ((0 : ℚ) ∈ acc.pheno_store ∧ (2 : ℚ) ∈ acc.pheno_store) →
      ∃ stored : List ℚ,
        stored = (if (2 : ℚ) ∈ acc.pheno_store then acc.pheno_store.map (fun x => x - 1)
          else acc.pheno_store) ∧
        (∀ x ∈ stored, x = 0 ∨ x = 1) ∧
        finish_pheno s r n acc
          = if stored.count 0 = 0 then
              Outcome.thrown "There are no control samples"
                ({ s with m_sample_with_phenotypes := acc.m_sample_with_phenotypes,
                          m_phenotype := stored }, stored.count 1, stored.count 0)
            else if stored.count 1 = 0 then
              Outcome.thrown "There are no cases"
                ({ s with m_sample_with_phenotypes := acc.m_sample_with_phenotypes,
                          m_phenotype := stored }, stored.count 1, stored.count 0)
            else
              Outcome.ok
                ({ s with m_sample_with_phenotypes := acc.m_sample_with_phenotypes,
                          m_phenotype := stored }, stored.count 1, stored.count 0)) := by
  obtain ⟨h1, h2, h3, h4, h5⟩ := inv
  refine ⟨?_, ?_, ?_⟩
  · intro he
    have hmax : ¬ 1 < acc.max_num := by rw [h2, he]; simp
    unfold finish_pheno
    simp only [hbin, hreg, and_true, not_true_eq_false, false_and, and_false, if_false, hmax,
      he, List.length_nil, Bool.false_eq_true, if_true]
    split
    · exact ⟨_, _, rfl, by decide⟩
    · split
      · exact ⟨_, _, rfl, by decide⟩
      · exact ⟨_, _, rfl, by decide⟩
  · intro hne h0 h2m
    have hlen : 0 < acc.pheno_store.length := List.length_pos.2 hne
    have hmax : 1 < acc.max_num := h2.2 h2m
    obtain ⟨_, a2, _, _⟩ := recode_phenotypes_spec acc.pheno_store h1 [] false 0 0
    have herr : (recode_phenotypes acc.pheno_store ([], false, 0, 0)).2.1 = true :=
      a2.2 (Or.inr h0)
    unfold finish_pheno
    simp only [hbin, hreg, and_true, not_true_eq_false, false_and, and_false, if_false, hmax,
      if_true, herr, if_neg (by omega : ¬ acc.num_not_found = n),
      if_neg (by omega : ¬ acc.invalid_pheno = n)]
    exact ⟨_, rfl⟩
  · intro hne hmix
    have hlen : 0 < acc.pheno_store.length := List.length_pos.2 hne
    by_cases h2m : (2 : ℚ) ∈ acc.pheno_store
    · have h0 : (0 : ℚ) ∉ acc.pheno_store := fun h => hmix ⟨h, h2m⟩
      have hmax : 1 < acc.max_num := h2.2 h2m
      obtain ⟨a1, a2, a3, a4⟩ := recode_phenotypes_spec acc.pheno_store h1 [] false 0 0
      obtain ⟨c1, c0, cr⟩ := recoded_counts acc.pheno_store h1
      have herr : ¬ (recode_phenotypes acc.pheno_store ([], false, 0, 0)).2.1 = true := by
        rw [a2]; simp [h0]
      refine ⟨acc.pheno_store.map (fun x => x - 1), by rw [if_pos h2m], cr h0, ?_⟩
      unfold finish_pheno
      simp only [hbin, hreg, and_true, not_true_eq_false, false_and, and_false, if_false, hmax,
        if_true, herr, if_neg (by omega : ¬ acc.num_not_found = n),
        if_neg (by omega : ¬ acc.invalid_pheno = n), a1, a3, a4, List.nil_append,
        List.length_map, if_neg (by omega : ¬ acc.pheno_store.length = 0), Nat.zero_add,
        c1, c0, true_and, Bool.false_eq_true]
    · have hmax : ¬ 1 < acc.max_num := fun h => h2m (h2.1 h)
      have hr : ∀ x ∈ acc.pheno_store, x = 0 ∨ x = 1 := by
        intro x hx
        rcases h1 x hx with h | h | h
        · exact Or.inl h
        · exact Or.inr h
        · rw [h] at hx; exact absurd hx h2m
      refine ⟨acc.pheno_store, by rw [if_neg h2m], hr, ?_⟩
      unfold finish_pheno
      simp only [hbin, hreg, and_true, not_true_eq_false, false_and, and_false, if_false, hmax,
        if_neg (by omega : ¬ acc.num_not_found = n),
        if_neg (by omega : ¬ acc.invalid_pheno = n), Bool.false_eq_true,
        if_neg (by omega : ¬ acc.pheno_store.length = 0), h3, h4, true_and]

/-- C28. `gen_pheno_vec` for a binary phenotype with regression, once the
phenotype file (if any) has been read.  Let `accepted` be the values the loops
over the samples stored.  Every one of them is 0, 1 or 2.  The call ends with
the mixed-encoding error if and only if `accepted` holds both a 0 and a 2.  When
the call returns, the stored phenotype vector is `accepted` with every value
decremented by 1 if some value is 2 and `accepted` itself otherwise; every entry
is 0 or 1; the case count is the number of 1s and the control count the number of
0s of the stored vector, and both are at least 1. -/
theorem gen_pheno_vec_binary (convert_int : String → Except String Int)
    (convert : String → Except String ℚ) (s : PRSice_cov) (target : List target_sample)
    (r : pheno_request) (pheno_file : cov_file) (info : List (String × String))
    (hbin : r.binary = true) (hreg : r.regress = true)
    (hread : read_pheno_file s.m_ignore_fid r pheno_file = Outcome.ok info) :
    ∃ accepted : List ℚ,
      accepted = (collect_phenotypes convert_int convert r info target
        (pheno_scan_start s.m_sample_with_phenotypes)).pheno_store ∧
      (∀ x ∈ accepted, x = 0 ∨ x = 1 ∨ x = 2) ∧
      ((∃ t, gen_pheno_vec convert_int convert s target r pheno_file
          = Outcome.thrown "Mixed encoding! Both 0/1 and 1/2 encoding found!" t)
        ↔ ((0 : ℚ) ∈ accepted ∧ (2 : ℚ) ∈ accepted)) ∧
      (∀ (t : PRSice_cov) (num_case num_control : Nat),
        gen_pheno_vec convert_int convert s target r pheno_file
          = Outcome.ok (t, num_case, num_control) →
        t.m_phenotype = (if (2 : ℚ) ∈ accepted then accepted.map (fun x => x - 1)
          else accepted) ∧
        (∀ x ∈ t.m_phenotype, x = 0 ∨ x = 1) ∧
        num_case = t.m_phenotype.count 1 ∧ num_control = t.m_phenotype.count 0 ∧
        1 ≤ num_case ∧ 1 ≤ num_control) := by
  have inv := collect_phenotypes_binary convert_int convert r hbin info target
    (pheno_scan_start s.m_sample_with_phenotypes) 0
    ⟨by simp [pheno_scan_start], by simp [pheno_scan_start], rfl, rfl,
      by simp [pheno_scan_start]⟩
  rw [Nat.zero_add] at inv
  have hg : gen_pheno_vec convert_int convert s target r pheno_file
      = finish_pheno s r target.length (collect_phenotypes convert_int convert r info target
          (pheno_scan_start s.m_sample_with_phenotypes)) := by
    simp only [gen_pheno_vec, hread]
  obtain ⟨f1, f2, f3⟩ := finish_pheno_binary s r _ target.length hbin hreg inv
  refine ⟨_, rfl, inv.range, ⟨?_, ?_⟩, ?_⟩
  · rintro ⟨t, ht⟩
    rw [hg] at ht
    by_cases he : (collect_phenotypes convert_int convert r info target
        (pheno_scan_start s.m_sample_with_phenotypes)).pheno_store = []
    · obtain ⟨w, t1, hw, hne⟩ := f1 he
      rw [hw] at ht
      simp only [Outcome.thrown.injEq] at ht
      exact absurd ht.1 hne
    · by_contra hmix
      obtain ⟨stored, _, _, hfin⟩ := f3 he hmix
      rw [hfin] at ht
      split at ht
      · simp only [Outcome.thrown.injEq] at ht
        exact absurd ht.1 (by decide)
      · split at ht
        · simp only [Outcome.thrown.injEq] at ht
          exact absurd ht.1 (by decide)
        · exact absurd ht (by simp)
  · rintro ⟨h0, h2⟩
    rw [hg]
    exact f2 (List.ne_nil_of_mem h0) h0 h2
  · intro t num_case num_control ht
    rw [hg] at ht
    by_cases he : (collect_phenotypes convert_int convert r info target
        (pheno_scan_start s.m_sample_with_phenotypes)).pheno_store = []
    · obtain ⟨w, t1, hw, _⟩ := f1 he
      rw [hw] at ht
      exact absurd ht (by simp)
    · by_cases hmix : (0 : ℚ) ∈ (collect_phenotypes convert_int convert r info target
          (pheno_scan_start s.m_sample_with_phenotypes)).pheno_store ∧
          (2 : ℚ) ∈ (collect_phenotypes convert_int convert r info target
            (pheno_scan_start s.m_sample_with_phenotypes)).pheno_store
      · obtain ⟨t1, hw⟩ := f2 he hmix.1 hmix.2
        rw [hw] at ht
        exact absurd ht (by simp)
      · obtain ⟨stored, hst, hrange, hfin⟩ := f3 he hmix
        rw [hfin] at ht
        split at ht
        · exact absurd ht (by simp)
        · rename_i hk
          split at ht
          · exact absurd ht (by simp)
          · rename_i hc
            simp only [Outcome.ok.injEq, Prod.mk.injEq] at ht
            obtain ⟨rfl, rfl, rfl⟩ := ht
            exact ⟨hst, hrange, rfl, rfl, Nat.one_le_iff_ne_zero.2 hc,
              Nat.one_le_iff_ne_zero.2 hk⟩

/-- C28 at four samples with the phenotypes `1, 2, x, 2` in the fam file: the
accepted values `1, 2, 2` are stored as `0, 1, 1`, with 2 cases and 1 control;
with the phenotypes `0, 2, 1, 2` the call ends with the mixed-encoding error. -/
theorem gen_pheno_vec_binary_witness :
    gen_pheno_vec example_convert_int example_convert example_cleared
        (example_target "1" "2" "x" "2") example_request
        { name := "", is_open := false, lines := [] }
      = Outcome.ok
          ({ example_cleared with
              m_phenotype := [0, 1, 1],
              m_sample_with_phenotypes := [("f_a", 0), ("f_b", 1), ("f_d", 2)] }, 2, 1) ∧
    (∃ t, gen_pheno_vec example_convert_int example_convert example_cleared
        (example_target "0" "2" "1" "2") example_request
        { name := "", is_open := false, lines := [] }
      = Outcome.thrown "Mixed encoding! Both 0/1 and 1/2 encoding found!" t) ∧
    ∃ accepted : List ℚ,
      accepted = (collect_phenotypes example_convert_int example_convert example_request []
        (example_target "1" "2" "x" "2")
        (pheno_scan_start example_cleared.m_sample_with_phenotypes)).pheno_store ∧
      (∀ x ∈ accepted, x = 0 ∨ x = 1 ∨ x = 2) ∧
      ((∃ t, gen_pheno_vec example_convert_int example_convert example_cleared
          (example_target "1" "2" "x" "2") example_request
          { name := "", is_open := false, lines := [] }
          = Outcome.thrown "Mixed encoding! Both 0/1 and 1/2 encoding found!" t)
        ↔ ((0 : ℚ) ∈ accepted ∧ (2 : ℚ) ∈ accepted)) ∧
      (∀ (t : PRSice_cov) (num_case num_control : Nat),
        gen_pheno_vec example_convert_int example_convert example_cleared
          (example_target "1" "2" "x" "2") example_request
          { name := "", is_open := false, lines := [] }
          = Outcome.ok (t, num_case, num_control) →
        t.m_phenotype = (if (2 : ℚ) ∈ accepted then accepted.map (fun x => x - 1)
          else accepted) ∧
        (∀ x ∈ t.m_phenotype, x = 0 ∨ x = 1) ∧
        num_case = t.m_phenotype.count 1 ∧ num_control = t.m_phenotype.count 0 ∧
        1 ≤ num_case ∧ 1 ≤ num_control) :=
  ⟨by with_unfolding_all rfl, ⟨_, by with_unfolding_all rfl⟩,
    gen_pheno_vec_binary example_convert_int example_convert example_cleared
      (example_target "1" "2" "x" "2") example_request
      { name := "", is_open := false, lines := [] } [] rfl rfl rfl⟩

end PRS
